import Mathlib

/-!
# Buffer-object residency manager of the amdgpu driver

A shallow embedding of `drivers/gpu/drm/amd/amdgpu/amdgpu_ttm.c`: placement
policy (`amdgpu_evict_flags`), eviction selector
(`amdgpu_ttm_bo_eviction_valuable`), migration engine (`amdgpu_copy_buffer`,
`amdgpu_move_blit`, `amdgpu_fill_buffer`), address-space binder
(`amdgpu_ttm_bind`), CPU access (`amdgpu_ttm_io_mem_reserve`) and the move
entry point (`amdgpu_bo_move`); of the TLB flush and the memory-controller
setup of `gmc_v9_0.c`; and of two display helpers,
`drm_atomic_crtc_needs_modeset` (`drm_atomic.h`) and `calc_phase_step`
(`mdp5_plane.c`).

Conventions.
* C unsigned integers are `Nat`; every place where the C type can wrap or
  truncate carries an explicit `% 2 ^ 32` or `% 2 ^ 64`.
* A `void *` that points to an array (`ttm_mem_reg.mm_node`) is an
  `Option (List _)`; a pointer into the array is an index.
* Behaviour the C standard or the kernel leaves undefined (NULL dereference,
  reading past an array, division by zero, `BUG_ON`) is `Except.error`.
* Functions that are called but live outside this file (TTM core, GART, job
  scheduler) are fields of `Env`; each call is recorded in the `trace`.
-/

namespace Amdgpu

/-! ## Constants of the headers (`asm/page.h`, `errno-base.h`,
`ttm_placement.h`, `amdgpu_drm.h`, `amdgpu.h`, `amdgpu_object.h`) -/

def PAGE_SHIFT : Nat := 12
def PAGE_SIZE : Nat := 4096
def EINVAL : Int := 22

def U32 : Nat := 2 ^ 32
def U64 : Nat := 2 ^ 64

def TTM_PL_SYSTEM : Nat := 0
def TTM_PL_TT : Nat := 1
def TTM_PL_VRAM : Nat := 2

def TTM_PL_FLAG_SYSTEM : Nat := 1
def TTM_PL_FLAG_TT : Nat := 2
def TTM_PL_FLAG_VRAM : Nat := 4
def TTM_PL_FLAG_CACHED : Nat := 0x10000
def TTM_PL_FLAG_UNCACHED : Nat := 0x20000
def TTM_PL_FLAG_WC : Nat := 0x40000
def TTM_PL_MASK_CACHING : Nat := 0x70000

def AMDGPU_GEM_DOMAIN_CPU : Nat := 1
def AMDGPU_GEM_DOMAIN_GTT : Nat := 2
def AMDGPU_GEM_DOMAIN_VRAM : Nat := 4

/-- The marker `LONG_MAX` stored in `mem.start` of a buffer that is backed by a
list of fragments instead of one contiguous range. -/
def AMDGPU_BO_INVALID_OFFSET : Nat := 2 ^ 63 - 1

def AMDGPU_PTE_VALID : Nat := 1
def AMDGPU_PTE_SYSTEM : Nat := 2
def AMDGPU_PTE_SNOOPED : Nat := 4
def AMDGPU_PTE_READABLE : Nat := 32
def AMDGPU_PTE_WRITEABLE : Nat := 64
def AMDGPU_GEM_USERPTR_READONLY : Nat := 1

/-! ## Data model -/

/-- The ways a run of the model can leave defined behaviour. -/
inductive Fault where
  | bug
  | ub
  | fuel
  deriving DecidableEq, Repr

/-- One reserved range of a pool, in pages (`struct drm_mm_node`, the two
fields the driver reads). -/
structure drm_mm_node where
  start : Nat
  size : Nat
  deriving DecidableEq, Repr

structure ttm_bus_placement where
  addr : Option Nat := none
  base : Nat := 0
  size : Nat := 0
  offset : Nat := 0
  is_iomem : Bool := false
  deriving DecidableEq, Repr

/-- The placement record of a buffer (`struct ttm_mem_reg`). -/
structure ttm_mem_reg where
  mm_node : Option (List drm_mm_node)
  start : Nat
  size : Nat := 0
  num_pages : Nat
  page_alignment : Nat := 0
  mem_type : Nat
  placement : Nat := 0
  bus : ttm_bus_placement := {}
  deriving DecidableEq, Repr

/-- One candidate of a placement request (`struct ttm_place`). -/
structure ttm_place where
  fpfn : Nat
  lpfn : Nat
  flags : Nat
  deriving DecidableEq, Repr

/-- The array a `ttm_placement` points to: the function-local static of
`amdgpu_evict_flags`, or the `placements` array of the buffer itself. -/
inductive place_ptr where
  | null
  | evict_static
  | abo_placements
  deriving DecidableEq, Repr

structure ttm_placement where
  num_placement : Nat
  placement : place_ptr
  num_busy_placement : Nat
  busy_placement : place_ptr
  deriving DecidableEq, Repr

inductive ttm_caching_state where
  | tt_uncached
  | tt_wc
  | tt_cached
  deriving DecidableEq, Repr

/-- The backing page object (`struct amdgpu_ttm_tt` with the embedded
`ttm_tt`); `list_linked` is `!list_empty(&gtt->list)`. -/
structure amdgpu_ttm_tt where
  id : Nat := 0
  num_pages : Nat := 0
  caching_state : ttm_caching_state := ttm_caching_state.tt_cached
  offset : Nat := 0
  userptr : Nat := 0
  userflags : Nat := 0
  list_linked : Bool := false
  deriving DecidableEq, Repr

structure ttm_buffer_object where
  mem : ttm_mem_reg
  ttm : Option amdgpu_ttm_tt
  num_pages : Nat
  resv : Bool := true
  deriving DecidableEq, Repr

structure amdgpu_bo where
  tbo : ttm_buffer_object
  pin_count : Nat
  placements : List ttm_place := []
  placement : ttm_placement := ⟨0, place_ptr.null, 0, place_ptr.null⟩
  deriving DecidableEq, Repr

structure amdgpu_ring where
  ready : Bool
  deriving DecidableEq, Repr

structure amdgpu_buffer_funcs where
  copy_max_bytes : Nat
  copy_num_dw : Nat
  fill_max_bytes : Nat
  fill_num_dw : Nat
  deriving DecidableEq, Repr

structure ttm_mem_type_manager where
  flags : Nat := 0
  gpu_offset : Nat := 0
  size : Nat := 0
  available_caching : Nat := 0
  default_caching : Nat := 0
  deriving DecidableEq, Repr

structure amdgpu_mman where
  initialized : Bool := true
  man : List ttm_mem_type_manager := []
  buffer_funcs : Option amdgpu_buffer_funcs
  buffer_funcs_ring : Option amdgpu_ring
  deriving DecidableEq, Repr

structure amdgpu_mc where
  gtt_size : Nat := 0
  real_vram_size : Nat := 0
  visible_vram_size : Nat := 0
  aper_base : Nat := 0
  aper_size : Nat := 0
  mc_vram_size : Nat := 0
  vram_width : Nat := 0
  gtt_base_align : Nat := 0
  deriving DecidableEq, Repr

/-- The registers of one VM hub the flush uses (`struct amdgpu_vmhub`); the
function pointer `get_invalidate_req` is a collaborator. -/
structure amdgpu_vmhub where
  vm_inv_eng0_req : Nat := 0
  vm_inv_eng0_ack : Nat := 0
  deriving DecidableEq, Repr

structure amdgpu_device where
  mman : amdgpu_mman
  mc : amdgpu_mc := {}
  gart_pte_flags : Nat := 0
  num_bytes_moved : Nat := 0
  gtt_list : List Nat := []
  usec_timeout : Nat := 0
  vmhub : List amdgpu_vmhub := []
  deriving DecidableEq, Repr

/-- What the driver asks of its collaborators, in call order. -/
inductive Event where
  | emit_copy (src dst len : Nat)
  | emit_fill (src_data dst len : Nat)
  | job_alloc (size : Nat) (r : Int)
  | sync_resv (r : Int)
  | job_submit (r : Int) (fence : Nat)
  | ib_schedule (r : Int) (fence : Nat)
  | job_free
  | fence_put (f : Option Nat)
  | fence_wait (f : Nat)
  | pipeline_move (f : Option Nat) (r : Int)
  | move_memcpy (r : Int)
  | mem_space (r : Int)
  | set_placement_caching (r : Int)
  | tt_bind (r : Int)
  | move_ttm (r : Int)
  | mem_put
  | gtt_mgr_alloc (r : Int)
  | gart_bind (offset pages flags : Nat) (r : Int)
  deriving DecidableEq, Repr

/-- The state a move works on: the buffer, the device and the calls made so
far. -/
structure World where
  abo : amdgpu_bo
  adev : amdgpu_device
  trace : List Event := []
  deriving DecidableEq, Repr

/-- The collaborators of this file. Every field is a function of this
repository that is defined outside `amdgpu_ttm.c`; its first argument is the
history of calls, so that two calls with equal arguments may answer
differently. None of them can reach `amdgpu_device.num_bytes_moved` or the
trace. -/
structure Env where
  amdgpu_ttm_bo_is_amdgpu_bo : ttm_buffer_object → Bool
  amdgpu_ttm_placement_from_domain : amdgpu_bo → Nat → amdgpu_bo
  ttm_bo_eviction_valuable : ttm_buffer_object → ttm_place → Bool
  ttm_bo_move_memcpy : List Event → ttm_buffer_object → Bool → Bool → ttm_mem_reg →
    Int × ttm_buffer_object × ttm_mem_reg
  ttm_bo_mem_space : List Event → ttm_buffer_object → ttm_place → ttm_mem_reg → Bool → Bool →
    Int × ttm_buffer_object × ttm_mem_reg
  ttm_tt_set_placement_caching : List Event → Option amdgpu_ttm_tt → Nat →
    Int × Option amdgpu_ttm_tt
  ttm_tt_bind : List Event → Option amdgpu_ttm_tt → ttm_mem_reg → Int × Option amdgpu_ttm_tt
  ttm_bo_move_ttm : List Event → ttm_buffer_object → Bool → Bool → ttm_mem_reg →
    Int × ttm_buffer_object × ttm_mem_reg
  ttm_bo_mem_put : List Event → ttm_buffer_object → ttm_mem_reg → ttm_buffer_object × ttm_mem_reg
  ttm_bo_pipeline_move : List Event → ttm_buffer_object → Option Nat → Bool → ttm_mem_reg →
    Int × ttm_buffer_object × ttm_mem_reg
  amdgpu_gtt_mgr_alloc : List Event → ttm_buffer_object → ttm_mem_reg → Int × ttm_mem_reg
  amdgpu_gart_bind : List Event → Nat → Nat → Nat → Int
  amdgpu_job_alloc_with_ib : List Event → Nat → Int
  amdgpu_sync_resv : List Event → Int
  amdgpu_job_submit : List Event → Int × Nat
  amdgpu_ib_schedule : List Event → Int × Nat

/-! ## Placement policy: `amdgpu_evict_flags` -/

/-- The static `placements` of `amdgpu_evict_flags`: plain system memory, any
caching, no address window. -/
def evict_static_place : ttm_place :=
  ⟨0, 0, TTM_PL_MASK_CACHING ||| TTM_PL_FLAG_SYSTEM⟩

/-- Body of the `for` loop of `amdgpu_evict_flags` for one array element: a
candidate without `TTM_PL_FLAG_TT` or with an `lpfn` is skipped (`continue`),
otherwise `lpfn` (an `unsigned`) receives `gtt_size >> PAGE_SHIFT`. -/
def evict_flags_step (gtt_size : Nat) (p : ttm_place) : ttm_place :=
  if p.flags &&& TTM_PL_FLAG_TT = 0 then p
  else if p.lpfn ≠ 0 then p
  else { p with lpfn := (gtt_size >>> PAGE_SHIFT) % U32 }

/-- The loop `for (i = 0; i < num_placement; ++i)` over `abo->placements`,
started at index `i` with `n` iterations left; an index outside the array is
undefined behaviour. -/
def evict_flags_loop (gtt_size : Nat) : Nat → Nat → List ttm_place → Except Fault (List ttm_place)
  | 0, _, ps => .ok ps
  | n + 1, i, ps =>
    match ps.get? i with
    | none => .error Fault.ub
    | some p => evict_flags_loop gtt_size n (i + 1) (ps.set i (evict_flags_step gtt_size p))

/-- Result of `amdgpu_evict_flags`: the buffer after the call, the header
written to `*placement`, and the domains asked of
`amdgpu_ttm_placement_from_domain`, in order. -/
structure EvictResult where
  abo : amdgpu_bo
  placement : ttm_placement
  requested : List Nat
  deriving DecidableEq, Repr

def amdgpu_evict_flags (env : Env) (adev : amdgpu_device) (abo : amdgpu_bo) :
    Except Fault EvictResult :=
  if ¬ env.amdgpu_ttm_bo_is_amdgpu_bo abo.tbo then
    .ok ⟨abo, ⟨1, place_ptr.evict_static, 1, place_ptr.evict_static⟩, []⟩
  else if abo.tbo.mem.mem_type = TTM_PL_VRAM then
    match adev.mman.buffer_funcs_ring with
    | none => .error Fault.ub
    | some ring =>
      if ring.ready = false then
        let abo1 := env.amdgpu_ttm_placement_from_domain abo AMDGPU_GEM_DOMAIN_CPU
        .ok ⟨abo1, abo1.placement, [AMDGPU_GEM_DOMAIN_CPU]⟩
      else
        let abo1 := env.amdgpu_ttm_placement_from_domain abo AMDGPU_GEM_DOMAIN_GTT
        match evict_flags_loop adev.mc.gtt_size abo1.placement.num_placement 0 abo1.placements with
        | .error e => .error e
        | .ok ps =>
          let abo2 := { abo1 with placements := ps }
          .ok ⟨abo2, abo2.placement, [AMDGPU_GEM_DOMAIN_GTT]⟩
  else
    let abo1 := env.amdgpu_ttm_placement_from_domain abo AMDGPU_GEM_DOMAIN_CPU
    .ok ⟨abo1, abo1.placement, [AMDGPU_GEM_DOMAIN_CPU]⟩

/-! ## Eviction selector: `amdgpu_ttm_bo_eviction_valuable` -/

/-- The test the selector applies to one node: `place->fpfn < node->start +
node->size && !(place->lpfn && place->lpfn <= node->start)`; the sum is a
64-bit sum. -/
def node_in_place (place : ttm_place) (node : drm_mm_node) : Bool :=
  decide (place.fpfn < (node.start + node.size) % U64) &&
    !(decide (place.lpfn ≠ 0) && decide (place.lpfn ≤ node.start))

/-- The loop `while (num_pages) { ...; num_pages -= node->size; ++node; }`:
`nodes` is what is left of the array from `node` on; the subtraction is an
`unsigned long` one, and stepping past the array is undefined behaviour. -/
def eviction_valuable_loop (place : ttm_place) : Nat → List drm_mm_node → Except Fault Bool
  | num_pages, [] => if num_pages = 0 then .ok false else .error Fault.ub
  | num_pages, node :: rest =>
    if num_pages = 0 then .ok false
    else if node_in_place place node then .ok true
    else eviction_valuable_loop place ((num_pages + U64 - node.size % U64) % U64) rest

def amdgpu_ttm_bo_eviction_valuable (env : Env) (bo : ttm_buffer_object) (place : ttm_place) :
    Except Fault Bool :=
  if bo.mem.mem_type = TTM_PL_VRAM ∧ bo.mem.start = AMDGPU_BO_INVALID_OFFSET then
    eviction_valuable_loop place bo.mem.num_pages (bo.mem.mm_node.getD [])
  else
    .ok (env.ttm_bo_eviction_valuable bo place)

/-- The counter `num_pages` of the loop of `amdgpu_ttm_bo_eviction_valuable`
after the loop went past the nodes `passed`: one `num_pages -= node->size`, an
`unsigned long` subtraction, for each. -/
def eviction_counter (num_pages : Nat) (passed : List drm_mm_node) : Nat :=
  passed.foldl (fun c node => (c + U64 - node.size % U64) % U64) num_pages

/-! ## Migration engine: `amdgpu_copy_buffer` -/

/-- The kernel macro `DIV_ROUND_UP(n, d)` of `include/linux/kernel.h`, that is
`(((n) + (d) - 1) / (d))`, at the type `uint32_t` both its arguments have at
every use in `amdgpu_ttm.c`: the sum wraps at `2 ^ 32` before the division. -/
def DIV_ROUND_UP (n d : Nat) : Nat :=
  ((n + d - 1) % U32) / d

/-- The padding loop `while (num_dw & 0x7) num_dw++;` on an `unsigned`; it
runs at most seven times. -/
def ib_pad_dw : Nat → Nat → Nat
  | 0, num_dw => num_dw
  | k + 1, num_dw => if num_dw &&& 7 ≠ 0 then ib_pad_dw k ((num_dw + 1) % U32) else num_dw

/-- The loop `for (i = 0; i < num_loops; i++)` of `amdgpu_copy_buffer` with
`n` iterations left: one copy command per iteration, of
`min(byte_count, max_bytes)` bytes, after which both 64-bit offsets advance
and the 32-bit `byte_count` shrinks. -/
def copy_buffer_loop (max_bytes : Nat) : Nat → Nat → Nat → Nat → List Event
  | 0, _, _, _ => []
  | n + 1, src_offset, dst_offset, byte_count =>
    let cur_size_in_bytes := min byte_count max_bytes
    Event.emit_copy src_offset dst_offset cur_size_in_bytes ::
      copy_buffer_loop max_bytes n ((src_offset + cur_size_in_bytes) % U64)
        ((dst_offset + cur_size_in_bytes) % U64) (byte_count - cur_size_in_bytes)

/-- The value the 32-bit `byte_count` of `amdgpu_copy_buffer` holds after the
loop `for (i = 0; i < num_loops; i++)` ran `n` times: each iteration takes
`min (byte_count, max_bytes)` off it. -/
def copy_buffer_rest (max_bytes : Nat) : Nat → Nat → Nat
  | 0, byte_count => byte_count
  | n + 1, byte_count => copy_buffer_rest max_bytes n (byte_count - min byte_count max_bytes)

/-- Model of `amdgpu_copy_buffer`: returns the error code, the world and the
fence stored through `fence` (`none`: `*fence` was not written). The
arguments are converted to the parameter types on entry: the offsets to
`uint64_t`, `byte_count` to `uint32_t`. -/
def amdgpu_copy_buffer (env : Env) (w : World) (src_offset dst_offset byte_count : Nat)
    (resv direct_submit : Bool) : Except Fault (Int × World × Option Nat) :=
  let src_offset := src_offset % U64
  let dst_offset := dst_offset % U64
  let byte_count := byte_count % U32
  match w.adev.mman.buffer_funcs with
  | none => .error Fault.ub
  | some funcs =>
    let max_bytes := funcs.copy_max_bytes % U32
    if max_bytes = 0 then .error Fault.ub
    else
      let num_loops := DIV_ROUND_UP byte_count max_bytes
      let num_dw := ib_pad_dw 8 ((num_loops * funcs.copy_num_dw) % U32)
      let r := env.amdgpu_job_alloc_with_ib w.trace ((num_dw * 4) % U32)
      let w1 := { w with trace := w.trace ++ [Event.job_alloc ((num_dw * 4) % U32) r] }
      if r ≠ 0 then .ok (r, w1, none)
      else
        let r := if resv then env.amdgpu_sync_resv w1.trace else 0
        let w2 := if resv then { w1 with trace := w1.trace ++ [Event.sync_resv r] } else w1
        if r ≠ 0 then .ok (r, { w2 with trace := w2.trace ++ [Event.job_free] }, none)
        else
          let cmds := copy_buffer_loop max_bytes num_loops src_offset dst_offset byte_count
          let w3 := { w2 with trace := w2.trace ++ cmds }
          if direct_submit then
            let rf := env.amdgpu_ib_schedule w3.trace
            .ok (rf.1, { w3 with trace := w3.trace ++ [Event.ib_schedule rf.1 rf.2, Event.job_free] },
              some rf.2)
          else
            let rf := env.amdgpu_job_submit w3.trace
            if rf.1 ≠ 0 then
              .ok (rf.1, { w3 with trace := w3.trace ++ [Event.job_submit rf.1 rf.2, Event.job_free] },
                none)
            else
              .ok (0, { w3 with trace := w3.trace ++ [Event.job_submit 0 rf.2] }, some rf.2)

/-! ## Address-space binder: `amdgpu_ttm_tt_pte_flags`, `amdgpu_ttm_bind` -/

def amdgpu_ttm_tt_is_readonly (ttm : Option amdgpu_ttm_tt) : Bool :=
  match ttm with
  | none => false
  | some gtt => decide (gtt.userflags &&& AMDGPU_GEM_USERPTR_READONLY ≠ 0)

/-- Model of `amdgpu_ttm_tt_pte_flags`; `mem = none` is a NULL `mem`, and
reading `ttm->caching_state` through a NULL `ttm` is undefined. -/
def amdgpu_ttm_tt_pte_flags (adev : amdgpu_device) (ttm : Option amdgpu_ttm_tt)
    (mem : Option ttm_mem_reg) : Except Fault Nat :=
  let flags : Nat := 0
  let flags :=
    match mem with
    | some m => if m.mem_type ≠ TTM_PL_SYSTEM then flags ||| AMDGPU_PTE_VALID else flags
    | none => flags
  let flags2 : Except Fault Nat :=
    match mem with
    | some m =>
      if m.mem_type = TTM_PL_TT then
        match ttm with
        | none => .error Fault.ub
        | some t =>
          if t.caching_state = ttm_caching_state.tt_cached then
            .ok ((flags ||| AMDGPU_PTE_SYSTEM) ||| AMDGPU_PTE_SNOOPED)
          else .ok (flags ||| AMDGPU_PTE_SYSTEM)
      else .ok flags
    | none => .ok flags
  match flags2 with
  | .error e => .error e
  | .ok flags =>
    let flags := flags ||| adev.gart_pte_flags
    let flags := flags ||| AMDGPU_PTE_READABLE
    if ¬ amdgpu_ttm_tt_is_readonly ttm then .ok (flags ||| AMDGPU_PTE_WRITEABLE)
    else .ok flags

def amdgpu_ttm_is_bound (ttm : Option amdgpu_ttm_tt) : Bool :=
  match ttm with
  | none => false
  | some gtt => gtt.list_linked

/-- Model of `amdgpu_ttm_bind (bo, bo_mem)`. `bo_mem` is passed by value and
handed back: the caller stores it where its pointer pointed. -/
def amdgpu_ttm_bind (env : Env) (w : World) (bo_mem : ttm_mem_reg) :
    Except Fault (Int × World × ttm_mem_reg) :=
  match w.abo.tbo.ttm with
  | none => .ok (0, w, bo_mem)
  | some gtt =>
    if amdgpu_ttm_is_bound (some gtt) then .ok (0, w, bo_mem)
    else
      let ra := env.amdgpu_gtt_mgr_alloc w.trace w.abo.tbo bo_mem
      let w1 := { w with trace := w.trace ++ [Event.gtt_mgr_alloc ra.1] }
      if ra.1 ≠ 0 then .ok (ra.1, w1, ra.2)
      else
        match amdgpu_ttm_tt_pte_flags w1.adev (some gtt) (some ra.2) with
        | .error e => .error e
        | .ok flags =>
          let gtt1 := { gtt with offset := (ra.2.start <<< PAGE_SHIFT) % U64 }
          let r := env.amdgpu_gart_bind w1.trace gtt1.offset gtt1.num_pages flags
          let w2 : World :=
            { w1 with
              abo := { w1.abo with tbo := { w1.abo.tbo with ttm := some gtt1 } }
              trace := w1.trace ++ [Event.gart_bind gtt1.offset gtt1.num_pages flags r] }
          if r ≠ 0 then .ok (r, w2, ra.2)
          else
            .ok (0,
              { w2 with
                abo := { w2.abo with
                  tbo := { w2.abo.tbo with ttm := some { gtt1 with list_linked := true } } }
                adev := { w2.adev with gtt_list := w2.adev.gtt_list ++ [gtt1.id] } },
              ra.2)

/-! ## Migration engine: `amdgpu_mm_node_addr`, `amdgpu_move_blit` -/

/-- Read `mem->mm_node[i]`. -/
def mm_node_at (mem : ttm_mem_reg) (i : Nat) : Except Fault drm_mm_node :=
  match mem.mm_node with
  | none => .error Fault.ub
  | some nodes =>
    match nodes.get? i with
    | none => .error Fault.ub
    | some node => .ok node

/-- The `case TTM_PL_VRAM:` arm of `amdgpu_mm_node_addr`, also reached by
falling through from `case TTM_PL_TT:`. -/
def mm_node_addr_vram (w : World) (i : Nat) (mem : ttm_mem_reg) : Except Fault Nat :=
  match mm_node_at mem i with
  | .error e => .error e
  | .ok node =>
    match w.adev.mman.man.get? mem.mem_type with
    | none => .error Fault.ub
    | some man => .ok (((node.start <<< PAGE_SHIFT) % U64 + man.gpu_offset) % U64)

/-- Model of `amdgpu_mm_node_addr (bo, mm_node, mem, addr)`: `i` is the index
of `mm_node` in `mem->mm_node`, `addr` the value `*addr` holds on entry; the
result carries `mem` and `*addr` after the call. -/
def amdgpu_mm_node_addr (env : Env) (w : World) (i : Nat) (mem : ttm_mem_reg) (addr : Nat) :
    Except Fault (Int × World × ttm_mem_reg × Nat) :=
  if mem.mem_type = TTM_PL_TT then
    match amdgpu_ttm_bind env w mem with
    | .error e => .error e
    | .ok (r, w1, mem1) =>
      if r ≠ 0 then .ok (r, w1, mem1, addr)
      else
        match mm_node_addr_vram w1 i mem1 with
        | .error e => .error e
        | .ok a => .ok (0, w1, mem1, a)
  else if mem.mem_type = TTM_PL_VRAM then
    match mm_node_addr_vram w i mem with
    | .error e => .error e
    | .ok a => .ok (0, w, mem, a)
  else .ok (-EINVAL, w, mem, addr)

/-- The call `amdgpu_mm_node_addr (bo, old_mm, old_mem, &old_start)` of
`amdgpu_move_blit`, where `old_mem` is `&bo->mem` at every call site of
`amdgpu_move_blit` in this file: what the call writes through `old_mem` lands
in the buffer. -/
def old_mm_node_addr (env : Env) (w : World) (i : Nat) (addr : Nat) :
    Except Fault (Int × World × Nat) :=
  match amdgpu_mm_node_addr env w i w.abo.tbo.mem addr with
  | .error e => .error e
  | .ok (r, w1, mem1, a) =>
    .ok (r, { w1 with abo := { w1.abo with tbo := { w1.abo.tbo with mem := mem1 } } }, a)

/-- The local variables of `amdgpu_move_blit` that live across iterations;
`old_mm` and `new_mm` are indices into the two node arrays. -/
structure blit_vars where
  old_mm : Nat
  old_start : Nat
  old_size : Nat
  new_mm : Nat
  new_start : Nat
  new_size : Nat
  num_pages : Nat
  fence : Option Nat
  deriving DecidableEq, Repr

/-- The source half of the loop body of `amdgpu_move_blit` after `if
(!num_pages) break;`: `old_size -= cur_pages`, then the next node or the next
address inside the node. A non-zero code is `goto error`. -/
def move_blit_advance_old (env : Env) (cur_pages : Nat) (v : blit_vars) (w : World) :
    Except Fault (Int × blit_vars × World) :=
  let old_size := v.old_size - cur_pages
  if old_size = 0 then
    match old_mm_node_addr env w (v.old_mm + 1) v.old_start with
    | .error e => .error e
    | .ok (r, w1, a) =>
      if r ≠ 0 then
        .ok (r, { v with old_size := old_size, old_mm := v.old_mm + 1, old_start := a }, w1)
      else
        match mm_node_at w1.abo.tbo.mem (v.old_mm + 1) with
        | .error e => .error e
        | .ok node =>
          .ok (0, { v with old_mm := v.old_mm + 1, old_start := a, old_size := node.size }, w1)
  else
    .ok (0, { v with old_size := old_size,
                     old_start := (v.old_start + (cur_pages * PAGE_SIZE) % U64) % U64 }, w)

/-- The destination half of the loop body of `amdgpu_move_blit`: `new_size -=
cur_pages`, then the next node or the next address inside the node. -/
def move_blit_advance_new (env : Env) (cur_pages : Nat) (v : blit_vars) (w : World)
    (new_mem : ttm_mem_reg) : Except Fault (Int × blit_vars × World × ttm_mem_reg) :=
  let new_size := v.new_size - cur_pages
  if new_size = 0 then
    match amdgpu_mm_node_addr env w (v.new_mm + 1) new_mem v.new_start with
    | .error e => .error e
    | .ok (r, w1, new_mem1, a) =>
      if r ≠ 0 then
        .ok (r, { v with new_size := new_size, new_mm := v.new_mm + 1, new_start := a }, w1,
          new_mem1)
      else
        match mm_node_at new_mem1 (v.new_mm + 1) with
        | .error e => .error e
        | .ok node =>
          .ok (0, { v with new_mm := v.new_mm + 1, new_start := a, new_size := node.size },
            w1, new_mem1)
  else
    .ok (0, { v with new_size := new_size,
                     new_start := (v.new_start + (cur_pages * PAGE_SIZE) % U64) % U64 },
      w, new_mem)

/-- The part of the loop body of `amdgpu_move_blit` after `if (!num_pages)
break;`: step the source side, then the destination side. -/
def move_blit_advance (env : Env) (cur_pages : Nat) (v : blit_vars) (w : World)
    (new_mem : ttm_mem_reg) : Except Fault (Int × blit_vars × World × ttm_mem_reg) :=
  match move_blit_advance_old env cur_pages v w with
  | .error e => .error e
  | .ok (r, v1, w1) =>
    if r ≠ 0 then .ok (r, v1, w1, new_mem)
    else move_blit_advance_new env cur_pages v1 w1 new_mem

/-- The loop `while (num_pages)` of `amdgpu_move_blit`. The code returned is
`r` at the exit: zero when the loop ended by its condition or by `break`,
non-zero when it left by `goto error`. The first argument bounds the number
of iterations of the model. -/
def amdgpu_move_blit_loop (env : Env) : Nat → blit_vars → World → ttm_mem_reg →
    Except Fault (Int × blit_vars × World × ttm_mem_reg)
  | 0, v, w, new_mem => if v.num_pages = 0 then .ok (0, v, w, new_mem) else .error Fault.fuel
  | fuel + 1, v, w, new_mem =>
    if v.num_pages = 0 then .ok (0, v, w, new_mem)
    else
      let cur_pages := min v.old_size v.new_size
      match amdgpu_copy_buffer env w v.old_start v.new_start ((cur_pages * PAGE_SIZE) % U64)
          w.abo.tbo.resv false with
      | .error e => .error e
      | .ok (r, w1, next) =>
        if r ≠ 0 then .ok (r, v, w1, new_mem)
        else
          let w2 := { w1 with trace := w1.trace ++ [Event.fence_put v.fence] }
          let v1 := { v with fence := next, num_pages := (v.num_pages + U64 - cur_pages) % U64 }
          if v1.num_pages = 0 then .ok (0, v1, w2, new_mem)
          else
            match move_blit_advance env cur_pages v1 w2 new_mem with
            | .error e => .error e
            | .ok (r, v2, w3, new_mem1) =>
              if r ≠ 0 then .ok (r, v2, w3, new_mem1)
              else amdgpu_move_blit_loop env fuel v2 w3 new_mem1

/-- Model of `amdgpu_move_blit (bo, evict, no_wait_gpu, new_mem, old_mem)`
with `old_mem == &bo->mem`. -/
def amdgpu_move_blit (env : Env) (fuel : Nat) (evict : Bool) (w : World) (new_mem : ttm_mem_reg) :
    Except Fault (Int × World × ttm_mem_reg) :=
  match w.adev.mman.buffer_funcs_ring with
  | none => .error Fault.ub
  | some ring =>
    if ¬ ring.ready then .ok (-EINVAL, w, new_mem)
    else
      match old_mm_node_addr env w 0 0 with
      | .error e => .error e
      | .ok (r, w1, old_start) =>
        if r ≠ 0 then .ok (r, w1, new_mem)
        else
          match mm_node_at w1.abo.tbo.mem 0 with
          | .error e => .error e
          | .ok old_node =>
            match amdgpu_mm_node_addr env w1 0 new_mem 0 with
            | .error e => .error e
            | .ok (r, w2, new_mem1, new_start) =>
              if r ≠ 0 then .ok (r, w2, new_mem1)
              else
                match mm_node_at new_mem1 0 with
                | .error e => .error e
                | .ok new_node =>
                  let v : blit_vars :=
                    ⟨0, old_start, old_node.size, 0, new_start, new_node.size,
                      new_mem1.num_pages, none⟩
                  match amdgpu_move_blit_loop env fuel v w2 new_mem1 with
                  | .error e => .error e
                  | .ok (r, v1, w3, new_mem2) =>
                    if r ≠ 0 then
                      let waits :=
                        match v1.fence with
                        | some f => [Event.fence_wait f]
                        | none => []
                      .ok (r, { w3 with trace := w3.trace ++ waits ++ [Event.fence_put v1.fence] },
                        new_mem2)
                    else
                      let rp := env.ttm_bo_pipeline_move w3.trace w3.abo.tbo v1.fence evict new_mem2
                      .ok (rp.1,
                        { w3 with
                          abo := { w3.abo with tbo := rp.2.1 }
                          trace := w3.trace ++
                            [Event.pipeline_move v1.fence rp.1, Event.fence_put v1.fence] },
                        rp.2.2)

/-- The single candidate both bounce paths hand to `ttm_bo_mem_space`: GTT,
any caching, below `gtt_size >> PAGE_SHIFT` (stored in an `unsigned`). -/
def bounce_place (adev : amdgpu_device) : ttm_place :=
  ⟨0, (adev.mc.gtt_size >>> PAGE_SHIFT) % U32, TTM_PL_MASK_CACHING ||| TTM_PL_FLAG_TT⟩

/-- The label `out_cleanup:` of both bounce paths: `ttm_bo_mem_put (bo,
&tmp_mem); return r;`. -/
def bounce_cleanup (env : Env) (r : Int) (w : World) (tmp_mem new_mem : ttm_mem_reg) :
    Int × World × ttm_mem_reg :=
  let p := env.ttm_bo_mem_put w.trace w.abo.tbo tmp_mem
  (r, { w with abo := { w.abo with tbo := p.1 }, trace := w.trace ++ [Event.mem_put] }, new_mem)

def amdgpu_move_vram_ram (env : Env) (fuel : Nat) (interruptible no_wait_gpu : Bool) (w : World)
    (new_mem : ttm_mem_reg) : Except Fault (Int × World × ttm_mem_reg) :=
  let tmp_mem := { new_mem with mm_node := none }
  let rs := env.ttm_bo_mem_space w.trace w.abo.tbo (bounce_place w.adev) tmp_mem interruptible
    no_wait_gpu
  let w1 : World :=
    { w with abo := { w.abo with tbo := rs.2.1 }, trace := w.trace ++ [Event.mem_space rs.1] }
  let tmp_mem := rs.2.2
  if rs.1 ≠ 0 then .ok (rs.1, w1, new_mem)
  else
    let rc := env.ttm_tt_set_placement_caching w1.trace w1.abo.tbo.ttm tmp_mem.placement
    let w2 : World :=
      { w1 with
        abo := { w1.abo with tbo := { w1.abo.tbo with ttm := rc.2 } }
        trace := w1.trace ++ [Event.set_placement_caching rc.1] }
    if rc.1 ≠ 0 then .ok (bounce_cleanup env rc.1 w2 tmp_mem new_mem)
    else
      let rb := env.ttm_tt_bind w2.trace w2.abo.tbo.ttm tmp_mem
      let w3 : World :=
        { w2 with
          abo := { w2.abo with tbo := { w2.abo.tbo with ttm := rb.2 } }
          trace := w2.trace ++ [Event.tt_bind rb.1] }
      if rb.1 ≠ 0 then .ok (bounce_cleanup env rb.1 w3 tmp_mem new_mem)
      else
        match amdgpu_move_blit env fuel true w3 tmp_mem with
        | .error e => .error e
        | .ok (r, w4, tmp_mem1) =>
          if r ≠ 0 then .ok (bounce_cleanup env r w4 tmp_mem1 new_mem)
          else
            let rm := env.ttm_bo_move_ttm w4.trace w4.abo.tbo interruptible no_wait_gpu new_mem
            let w5 : World :=
              { w4 with abo := { w4.abo with tbo := rm.2.1 }, trace := w4.trace ++ [Event.move_ttm rm.1] }
            .ok (bounce_cleanup env rm.1 w5 tmp_mem1 rm.2.2)

def amdgpu_move_ram_vram (env : Env) (fuel : Nat) (interruptible no_wait_gpu : Bool) (w : World)
    (new_mem : ttm_mem_reg) : Except Fault (Int × World × ttm_mem_reg) :=
  let tmp_mem := { new_mem with mm_node := none }
  let rs := env.ttm_bo_mem_space w.trace w.abo.tbo (bounce_place w.adev) tmp_mem interruptible
    no_wait_gpu
  let w1 : World :=
    { w with abo := { w.abo with tbo := rs.2.1 }, trace := w.trace ++ [Event.mem_space rs.1] }
  let tmp_mem := rs.2.2
  if rs.1 ≠ 0 then .ok (rs.1, w1, new_mem)
  else
    let rm := env.ttm_bo_move_ttm w1.trace w1.abo.tbo interruptible no_wait_gpu tmp_mem
    let w2 : World :=
      { w1 with abo := { w1.abo with tbo := rm.2.1 }, trace := w1.trace ++ [Event.move_ttm rm.1] }
    let tmp_mem := rm.2.2
    if rm.1 ≠ 0 then .ok (bounce_cleanup env rm.1 w2 tmp_mem new_mem)
    else
      match amdgpu_move_blit env fuel true w2 new_mem with
      | .error e => .error e
      | .ok (r, w3, new_mem1) => .ok (bounce_cleanup env r w3 tmp_mem new_mem1)

/-! ## Residency state machine: `amdgpu_move_null`, `amdgpu_bo_move` -/

/-- Model of `amdgpu_move_null`: `BUG_ON (old_mem->mm_node != NULL)`, then the
placement record is overwritten with `*new_mem` and the node reference of
`new_mem` is cleared. -/
def amdgpu_move_null (bo : ttm_buffer_object) (new_mem : ttm_mem_reg) :
    Except Fault (ttm_buffer_object × ttm_mem_reg) :=
  if bo.mem.mm_node ≠ none then .error Fault.bug
  else .ok ({ bo with mem := new_mem }, { new_mem with mm_node := none })

/-- The tail of `amdgpu_bo_move` from the label `memcpy:` on: the CPU copy,
and, when it succeeds, the statistics update. -/
def bo_move_memcpy (env : Env) (interruptible no_wait_gpu : Bool) (w : World)
    (new_mem : ttm_mem_reg) : Int × World × ttm_mem_reg :=
  let rm := env.ttm_bo_move_memcpy w.trace w.abo.tbo interruptible no_wait_gpu new_mem
  let w1 : World :=
    { w with abo := { w.abo with tbo := rm.2.1 }, trace := w.trace ++ [Event.move_memcpy rm.1] }
  if rm.1 ≠ 0 then (rm.1, w1, rm.2.2)
  else
    (0, { w1 with adev := { w1.adev with num_bytes_moved :=
      (w1.adev.num_bytes_moved + (w1.abo.tbo.num_pages <<< PAGE_SHIFT) % U64) % U64 } }, rm.2.2)

/-- Model of `amdgpu_bo_move (bo, evict, interruptible, no_wait_gpu,
new_mem)`; the result carries the return code, the world and `*new_mem`. -/
def amdgpu_bo_move (env : Env) (fuel : Nat) (evict interruptible no_wait_gpu : Bool) (w : World)
    (new_mem : ttm_mem_reg) : Except Fault (Int × World × ttm_mem_reg) :=
  let old_mem := w.abo.tbo.mem
  if w.abo.pin_count > 0 then .ok (-EINVAL, w, new_mem)
  else if old_mem.mem_type = TTM_PL_SYSTEM ∧ w.abo.tbo.ttm = none then
    match amdgpu_move_null w.abo.tbo new_mem with
    | .error e => .error e
    | .ok (bo, nm) => .ok (0, { w with abo := { w.abo with tbo := bo } }, nm)
  else if (old_mem.mem_type = TTM_PL_TT ∧ new_mem.mem_type = TTM_PL_SYSTEM) ∨
      (old_mem.mem_type = TTM_PL_SYSTEM ∧ new_mem.mem_type = TTM_PL_TT) then
    match amdgpu_move_null w.abo.tbo new_mem with
    | .error e => .error e
    | .ok (bo, nm) => .ok (0, { w with abo := { w.abo with tbo := bo } }, nm)
  else if w.adev.mman.buffer_funcs = none ∨ w.adev.mman.buffer_funcs_ring = none ∨
      w.adev.mman.buffer_funcs_ring = some ⟨false⟩ then
    .ok (bo_move_memcpy env interruptible no_wait_gpu w new_mem)
  else
    let dma :=
      if old_mem.mem_type = TTM_PL_VRAM ∧ new_mem.mem_type = TTM_PL_SYSTEM then
        amdgpu_move_vram_ram env fuel interruptible no_wait_gpu w new_mem
      else if old_mem.mem_type = TTM_PL_SYSTEM ∧ new_mem.mem_type = TTM_PL_VRAM then
        amdgpu_move_ram_vram env fuel interruptible no_wait_gpu w new_mem
      else amdgpu_move_blit env fuel evict w new_mem
    match dma with
    | .error e => .error e
    | .ok (r, w1, new_mem1) =>
      if r ≠ 0 then .ok (bo_move_memcpy env interruptible no_wait_gpu w1 new_mem1)
      else
        .ok (0, { w1 with adev := { w1.adev with num_bytes_moved :=
          (w1.adev.num_bytes_moved + (w1.abo.tbo.num_pages <<< PAGE_SHIFT) % U64) % U64 } },
          new_mem1)

/-- The DMA path of `amdgpu_bo_move`, the chain `if (VRAM -> system)
amdgpu_move_vram_ram else if (system -> VRAM) amdgpu_move_ram_vram else
amdgpu_move_blit` that an unpinned, backed buffer with a ready engine reaches
when its move is no rebind. -/
def bo_move_dma (env : Env) (fuel : Nat) (evict interruptible no_wait_gpu : Bool) (w : World)
    (new_mem : ttm_mem_reg) : Except Fault (Int × World × ttm_mem_reg) :=
  if w.abo.tbo.mem.mem_type = TTM_PL_VRAM ∧ new_mem.mem_type = TTM_PL_SYSTEM then
    amdgpu_move_vram_ram env fuel interruptible no_wait_gpu w new_mem
  else if w.abo.tbo.mem.mem_type = TTM_PL_SYSTEM ∧ new_mem.mem_type = TTM_PL_VRAM then
    amdgpu_move_ram_vram env fuel interruptible no_wait_gpu w new_mem
  else amdgpu_move_blit env fuel evict w new_mem

/-! ## Migration engine: `amdgpu_fill_buffer` -/

/-- The first loop of `amdgpu_fill_buffer`, which sizes the job: `while
(num_pages) { uint32_t byte_count = mm_node->size << PAGE_SHIFT; num_loops +=
DIV_ROUND_UP (byte_count, max_bytes); num_pages -= mm_node->size; ++mm_node;
}`. `nodes` is what is left of the array, the last argument is `num_loops`
(an `unsigned int`). Dividing by a zero `max_bytes` and stepping past the array
are undefined. -/
def fill_buffer_num_loops (max_bytes : Nat) : Nat → List drm_mm_node → Nat → Except Fault Nat
  | num_pages, [], num_loops => if num_pages = 0 then .ok num_loops else .error Fault.ub
  | num_pages, node :: rest, num_loops =>
    if num_pages = 0 then .ok num_loops
    else if max_bytes = 0 then .error Fault.ub
    else
      let byte_count := (node.size <<< PAGE_SHIFT) % U32
      fill_buffer_num_loops max_bytes ((num_pages + U64 - node.size % U64) % U64) rest
        ((num_loops + DIV_ROUND_UP byte_count max_bytes) % U32)

/-- The inner loop of the second pass, `while (byte_count) { cur = min
(byte_count, max_bytes); emit; dst_addr += cur; byte_count -= cur; }`, with a
bound on the iterations of the model (`byte_count` iterations suffice when
`max_bytes` is not zero). -/
def fill_buffer_emit (max_bytes src_data : Nat) : Nat → Nat → Nat → List Event
  | 0, _, _ => []
  | n + 1, dst_addr, byte_count =>
    if byte_count = 0 then []
    else
      let cur_size_in_bytes := min byte_count max_bytes
      Event.emit_fill src_data dst_addr cur_size_in_bytes ::
        fill_buffer_emit max_bytes src_data n ((dst_addr + cur_size_in_bytes) % U64)
          (byte_count - cur_size_in_bytes)

/-- The second loop of `amdgpu_fill_buffer` over the nodes, from node index
`i` on: the address of the node (which binds a GTT buffer), the fill commands
for `byte_count = (uint32_t)(mm_node->size << PAGE_SHIFT)` bytes, then
`num_pages -= mm_node->size; ++mm_node`. A non-zero code is the `return r` of
a failed address lookup. The first argument bounds the iterations of the
model. -/
def fill_buffer_loop (env : Env) (max_bytes src_data : Nat) :
    Nat → Nat → Nat → World → Except Fault (Int × World)
  | 0, num_pages, _, w => if num_pages = 0 then .ok (0, w) else .error Fault.fuel
  | fuel + 1, num_pages, i, w =>
    if num_pages = 0 then .ok (0, w)
    else
      match mm_node_at w.abo.tbo.mem i with
      | .error e => .error e
      | .ok node =>
        let byte_count := (node.size <<< PAGE_SHIFT) % U32
        match old_mm_node_addr env w i 0 with
        | .error e => .error e
        | .ok (r, w1, dst_addr) =>
          if r ≠ 0 then .ok (r, w1)
          else
            let cmds := fill_buffer_emit max_bytes src_data byte_count dst_addr byte_count
            match mm_node_at w1.abo.tbo.mem i with
            | .error e => .error e
            | .ok node1 =>
              fill_buffer_loop env max_bytes src_data fuel
                ((num_pages + U64 - node1.size % U64) % U64) (i + 1)
                { w1 with trace := w1.trace ++ cmds }

/-- Model of `amdgpu_fill_buffer (bo, src_data, resv, fence)`: return code,
world, and the fence stored through `fence`. -/
def amdgpu_fill_buffer (env : Env) (fuel : Nat) (w : World) (src_data : Nat) (resv : Bool) :
    Except Fault (Int × World × Option Nat) :=
  match w.adev.mman.buffer_funcs with
  | none => .error Fault.ub
  | some funcs =>
    let max_bytes := funcs.fill_max_bytes % U32
    match w.adev.mman.buffer_funcs_ring with
    | none => .error Fault.ub
    | some ring =>
      if ¬ ring.ready then .ok (-EINVAL, w, none)
      else
        match fill_buffer_num_loops max_bytes w.abo.tbo.num_pages
            (w.abo.tbo.mem.mm_node.getD []) 0 with
        | .error e => .error e
        | .ok num_loops =>
          let num_dw := ((num_loops * funcs.fill_num_dw) % U32 + 64) % U32
          let r := env.amdgpu_job_alloc_with_ib w.trace ((num_dw * 4) % U32)
          let w1 := { w with trace := w.trace ++ [Event.job_alloc ((num_dw * 4) % U32) r] }
          if r ≠ 0 then .ok (r, w1, none)
          else
            let r := if resv then env.amdgpu_sync_resv w1.trace else 0
            let w2 := if resv then { w1 with trace := w1.trace ++ [Event.sync_resv r] } else w1
            if r ≠ 0 then .ok (r, { w2 with trace := w2.trace ++ [Event.job_free] }, none)
            else
              match fill_buffer_loop env max_bytes (src_data % U32) fuel w2.abo.tbo.num_pages 0
                  w2 with
              | .error e => .error e
              | .ok (r, w3) =>
                if r ≠ 0 then .ok (r, w3, none)
                else
                  let rf := env.amdgpu_job_submit w3.trace
                  if rf.1 ≠ 0 then
                    .ok (rf.1,
                      { w3 with trace := w3.trace ++ [Event.job_submit rf.1 rf.2, Event.job_free] },
                      none)
                  else .ok (0, { w3 with trace := w3.trace ++ [Event.job_submit 0 rf.2] }, some rf.2)

/-! ## Address-space binder: TLB flush, `gmc_v9_0_gart_flush_gpu_tlb` -/

/-- Number of VM hubs of the device (`amdgpu.h`). -/
def AMDGPU_MAX_VMHUBS : Nat := 2

/-- What the flush does to the hardware and the log, in order. -/
inductive MmioEvent where
  | hdp_flush
  | spin_lock
  | spin_unlock
  | wreg (reg val : Nat)
  | rreg (reg val : Nat)
  | cpu_relax
  | udelay (usecs : Nat)
  | drm_error_timeout
  deriving DecidableEq, Repr

/-- The hardware side of the flush: the request word of a hub for a VMID
(`hub->get_invalidate_req`), and the value a register read returns after a
given history, so that every sequence of acknowledgment values is an
environment. -/
structure MmioEnv where
  get_invalidate_req : Nat → Nat → Nat
  rreg32 : List MmioEvent → Nat → Nat

/-- The statement `tmp &= 1 << vmid;` on the 32-bit `tmp`. -/
def flush_ack_bit (vmid tmp : Nat) : Nat :=
  tmp &&& ((1 <<< vmid) % U32)

/-- One polling loop of the flush, `for (j = 0; j < bound; j++) { tmp =
RREG32 (ack); tmp &= 1 << vmid; if (tmp) break; pause; }`, with `n` iterations
left. The flag returned is `j < bound` after the loop: the loop left by
`break`. -/
def flush_poll (env : MmioEnv) (ack_reg vmid : Nat) (pause : MmioEvent) :
    Nat → List MmioEvent → Bool × List MmioEvent
  | 0, tr => (false, tr)
  | n + 1, tr =>
    let tmp := env.rreg32 tr ack_reg % U32
    let tr1 := tr ++ [MmioEvent.rreg ack_reg tmp]
    if flush_ack_bit vmid tmp ≠ 0 then (true, tr1)
    else flush_poll env ack_reg vmid pause n (tr1 ++ [pause])

/-- The body of the loop over the hubs for hub number `i`: write the request
to engine register 17, poll 100 times with `cpu_relax`, then, if that saw no
acknowledgment, poll `usec_timeout` times one microsecond apart, then, if that
saw none either, log the timeout. `usec_timeout` is the `int` field as the
unsigned comparison reads it. -/
def flush_hub (env : MmioEnv) (adev : amdgpu_device) (vmid i : Nat) (hub : amdgpu_vmhub)
    (tr : List MmioEvent) : List MmioEvent :=
  let eng := 17
  let tmp := env.get_invalidate_req i vmid % U32
  let tr1 := tr ++ [MmioEvent.wreg ((hub.vm_inv_eng0_req + eng) % U32) tmp]
  let fast := flush_poll env ((hub.vm_inv_eng0_ack + eng) % U32) vmid MmioEvent.cpu_relax 100 tr1
  if fast.1 then fast.2
  else
    let slow := flush_poll env ((hub.vm_inv_eng0_ack + eng) % U32) vmid (MmioEvent.udelay 1)
      adev.usec_timeout fast.2
    if slow.1 then slow.2 else slow.2 ++ [MmioEvent.drm_error_timeout]

/-- The loop `for (i = 0; i < AMDGPU_MAX_VMHUBS; ++i)` from hub `i` on, with
`n` hubs left; `adev->vmhub` is an array of `AMDGPU_MAX_VMHUBS` hubs. -/
def flush_hubs (env : MmioEnv) (adev : amdgpu_device) (vmid : Nat) :
    Nat → Nat → List MmioEvent → Except Fault (List MmioEvent)
  | 0, _, tr => .ok tr
  | n + 1, i, tr =>
    match adev.vmhub.get? i with
    | none => .error Fault.ub
    | some hub => flush_hubs env adev vmid n (i + 1) (flush_hub env adev vmid i hub tr)

/-- Model of `gmc_v9_0_gart_flush_gpu_tlb (adev, vmid)`: everything the call
does, in order. -/
def gmc_v9_0_gart_flush_gpu_tlb (env : MmioEnv) (adev : amdgpu_device) (vmid : Nat) :
    Except Fault (List MmioEvent) :=
  match flush_hubs env adev vmid AMDGPU_MAX_VMHUBS 0 [MmioEvent.hdp_flush, MmioEvent.spin_lock] with
  | .error e => .error e
  | .ok tr => .ok (tr ++ [MmioEvent.spin_unlock])

/-- Number of register reads in a list of hardware events. -/
def mmio_reads (tr : List MmioEvent) : Nat :=
  tr.countP (fun e => match e with
    | MmioEvent.rreg _ _ => true
    | _ => false)

/-- Number of register writes in a list of hardware events. -/
def mmio_writes (tr : List MmioEvent) : Nat :=
  tr.countP (fun e => match e with
    | MmioEvent.wreg _ _ => true
    | _ => false)

/-! ## Device bring-up: `gmc_v9_0_mc_init`, `amdgpu_ttm_set_active_vram_size` -/

/-- What `gmc_v9_0_mc_init` reads from outside `gmc_v9_0.c`: the register
`DF_CS_AON0_DramBaseAddress0`, the PCI BAR 0, the memory size in MiB, the
module parameter `amdgpu_gart_size` (an `int`, `-1` when not set), and the
placement helpers of `amdgpu_device.c` and `mmhub_v1_0.c`. -/
structure McEnv where
  rreg_dram_base_address0 : Nat
  pci_resource_start : Nat
  pci_resource_len : Nat
  nbio_v6_1_get_memsize : Nat
  amdgpu_gart_size : Int
  amdgpu_sriov_vf : Bool
  mmhub_v1_0_get_fb_location : Nat
  amdgpu_vram_location : amdgpu_mc → Nat → amdgpu_mc
  amdgpu_gtt_location : amdgpu_mc → amdgpu_mc

/-- The `switch (tmp)` of `gmc_v9_0_mc_init` on the `IntLvNumChan` field. -/
def mc_numchan (tmp : Nat) : Nat :=
  if tmp = 1 then 2
  else if tmp = 2 then 0
  else if tmp = 3 then 4
  else if tmp = 4 then 0
  else if tmp = 5 then 8
  else if tmp = 6 then 0
  else if tmp = 7 then 16
  else if tmp = 8 then 2
  else 1

/-- The statements of `gmc_v9_0_mc_init` up to and including the choice of
the GTT size, before `gmc_v9_0_vram_gtt_location` is called. The conversion
`(uint64_t)amdgpu_gart_size` of the `int` parameter is the residue modulo
`2 ^ 64`. -/
def gmc_v9_0_mc_init_sizes (env : McEnv) (adev : amdgpu_device) : amdgpu_device :=
  let chansize := 128
  let tmp := ((env.rreg_dram_base_address0 % U32) &&& 0xF0) >>> 4
  let numchan := mc_numchan tmp
  let mc_vram_size := ((env.nbio_v6_1_get_memsize % U32) * 1024 * 1024) % U64
  let visible := env.pci_resource_len
  let visible := if visible > mc_vram_size then mc_vram_size else visible
  let gtt_size :=
    if env.amdgpu_gart_size = -1 then max ((1024 <<< 20) % U64) mc_vram_size
    else (((env.amdgpu_gart_size % (U64 : Int)).toNat) <<< 20) % U64
  { adev with mc := { adev.mc with
      vram_width := numchan * chansize
      aper_base := env.pci_resource_start
      aper_size := env.pci_resource_len
      mc_vram_size := mc_vram_size
      real_vram_size := mc_vram_size
      visible_vram_size := visible
      gtt_size := gtt_size } }

/-- Model of `gmc_v9_0_vram_gtt_location (adev, &adev->mc)`. -/
def gmc_v9_0_vram_gtt_location (env : McEnv) (mc : amdgpu_mc) : amdgpu_mc :=
  let base := if ¬ env.amdgpu_sriov_vf then env.mmhub_v1_0_get_fb_location else 0
  let mc1 := env.amdgpu_vram_location mc base
  env.amdgpu_gtt_location { mc1 with gtt_base_align := 0 }

/-- Model of `gmc_v9_0_mc_init`: return code and device. -/
def gmc_v9_0_mc_init (env : McEnv) (adev : amdgpu_device) : Int × amdgpu_device :=
  let adev1 := gmc_v9_0_mc_init_sizes env adev
  (0, { adev1 with mc := gmc_v9_0_vram_gtt_location env adev1.mc })

/-- Model of `amdgpu_ttm_set_active_vram_size (adev, size)`;
`adev->mman.bdev.man` is an array that holds the entry `TTM_PL_VRAM`. -/
def amdgpu_ttm_set_active_vram_size (adev : amdgpu_device) (size : Nat) :
    Except Fault amdgpu_device :=
  if ¬ adev.mman.initialized then .ok adev
  else
    match adev.mman.man.get? TTM_PL_VRAM with
    | none => .error Fault.ub
    | some man =>
      .ok { adev with mman := { adev.mman with
        man := adev.mman.man.set TTM_PL_VRAM { man with size := (size % U64) >>> PAGE_SHIFT } } }

/-! ## Display collaborators: `drm_atomic_crtc_needs_modeset`, `calc_phase_step` -/

/-- The change flags of `struct drm_crtc_state` (`drm_crtc.h`). -/
structure drm_crtc_state where
  enable : Bool := false
  active : Bool := false
  planes_changed : Bool := false
  mode_changed : Bool := false
  active_changed : Bool := false
  connectors_changed : Bool := false
  zpos_changed : Bool := false
  color_mgmt_changed : Bool := false
  deriving DecidableEq, Repr

def drm_atomic_crtc_needs_modeset (state : drm_crtc_state) : Bool :=
  state.mode_changed || state.active_changed || state.connectors_changed

/-- The flag `TTM_MEMTYPE_FLAG_MAPPABLE`, `(1 << 1)` in `ttm_bo_driver.h`. -/
def TTM_MEMTYPE_FLAG_MAPPABLE : Nat := 2

/-- Model of `amdgpu_ttm_io_mem_reserve (bdev, mem)` as built for every
architecture but Alpha: return code and `*mem` after the call. The fields of
`mem->bus` are `unsigned long`, so shifts and the sum wrap at `2 ^ 64`;
`bdev->man` is an array, and reading the manager of a pool it does not hold
is undefined. -/
def amdgpu_ttm_io_mem_reserve (adev : amdgpu_device) (mem : ttm_mem_reg) :
    Except Fault (Int × ttm_mem_reg) :=
  match adev.mman.man.get? mem.mem_type with
  | none => .error Fault.ub
  | some man =>
    let bus0 : ttm_bus_placement :=
      { addr := none, offset := 0, size := (mem.num_pages <<< PAGE_SHIFT) % U64, base := 0,
        is_iomem := false }
    let mem1 := { mem with bus := bus0 }
    if man.flags &&& TTM_MEMTYPE_FLAG_MAPPABLE = 0 then .ok (-EINVAL, mem1)
    else if mem.mem_type = TTM_PL_SYSTEM then .ok (0, mem1)
    else if mem.mem_type = TTM_PL_TT then .ok (0, mem1)
    else if mem.mem_type = TTM_PL_VRAM then
      if mem.start = AMDGPU_BO_INVALID_OFFSET then .ok (-EINVAL, mem1)
      else
        let bus1 := { bus0 with offset := (mem.start <<< PAGE_SHIFT) % U64 }
        if (bus1.offset + bus1.size) % U64 > adev.mc.visible_vram_size then
          .ok (-EINVAL, { mem with bus := bus1 })
        else
          .ok (0, { mem with bus := { bus1 with base := adev.mc.aper_base, is_iomem := true } })
    else .ok (-EINVAL, mem1)

/-! ## Specification-side notions -/

/-- A node, the page range `[start, start + size)`, intersects the placement
window `[fpfn, lpfn)`, where `lpfn = 0` stands for no upper bound: some page
lies in both. -/
def node_meets_window (place : ttm_place) (node : drm_mm_node) : Prop :=
  ∃ page, node.start ≤ page ∧ page < node.start + node.size ∧ place.fpfn ≤ page ∧
    (place.lpfn = 0 ∨ page < place.lpfn)

/-- Total number of pages of a node list. -/
def nodes_pages (nodes : List drm_mm_node) : Nat :=
  (nodes.map (fun node => node.size)).sum

/-- The DMA copy commands among the calls made, each as source address,
destination address and length in bytes. -/
def copy_commands : List Event → List (Nat × Nat × Nat)
  | [] => []
  | Event.emit_copy src dst len :: rest => (src, dst, len) :: copy_commands rest
  | _ :: rest => copy_commands rest

/-- Modelled from the spec: the effect of one copy command of the DMA engine
(the hardware behind `amdgpu_emit_copy_buffer`, which is not in the sources)
on GPU memory, a map from byte address to byte: `len` bytes from `src` appear
at `dst`. -/
def exec_copy (m : Nat → Nat) (src dst len : Nat) : Nat → Nat :=
  fun a => if dst ≤ a ∧ a < dst + len then m (src + (a - dst)) else m a

/-- GPU memory after the copy commands of a list of calls ran in order. -/
def exec_trace (m : Nat → Nat) : List Event → Nat → Nat
  | [] => m
  | Event.emit_copy src dst len :: rest => exec_trace (exec_copy m src dst len) rest
  | _ :: rest => exec_trace m rest

/-- The job scheduler never refuses: allocation, synchronisation and
submission of a job all return 0. -/
def env_jobs_succeed (env : Env) : Prop :=
  (∀ h n, env.amdgpu_job_alloc_with_ib h n = 0) ∧ (∀ h, env.amdgpu_sync_resv h = 0) ∧
    (∀ h, (env.amdgpu_job_submit h).1 = 0)

/-- First byte address of a node of a pool that starts at GPU address `g`. -/
def node_lo (g : Nat) (node : drm_mm_node) : Nat :=
  node.start * PAGE_SIZE + g

/-- Byte address just past a node. -/
def node_hi (g : Nat) (node : drm_mm_node) : Nat :=
  (node.start + node.size) * PAGE_SIZE + g

/-- Address of byte `j` of a buffer that is laid out in `nodes`, in order. -/
def phys (g : Nat) : List drm_mm_node → Nat → Nat
  | [], _ => 0
  | node :: rest, j =>
    if j < node.size * PAGE_SIZE then node_lo g node + j
    else phys g rest (j - node.size * PAGE_SIZE)

/-- Two nodes share no byte. -/
def node_apart (g : Nat) (x y : drm_mm_node) : Prop :=
  node_hi g x ≤ node_lo g y ∨ node_hi g y ≤ node_lo g x

/-- Every node is non-empty, ends below `2 ^ 64`, and is short enough for its
byte length to pass the 32-bit arithmetic of `amdgpu_copy_buffer` intact. -/
def nodes_small (max_bytes g : Nat) (nodes : List drm_mm_node) : Prop :=
  ∀ x ∈ nodes, 0 < x.size ∧ x.size * PAGE_SIZE + max_bytes - 1 < U32 ∧ node_hi g x < U64

/-- What is left of a node list after `cur` pages of its first node were
copied. -/
def nodes_advance (cur : Nat) : List drm_mm_node → List drm_mm_node
  | [] => []
  | node :: rest =>
    if node.size - cur = 0 then rest else ⟨node.start + cur, node.size - cur⟩ :: rest

/-- The source or destination cursor of `amdgpu_move_blit` (node index, byte
address, pages left in the node) stands at the head of `eff`, a suffix of
`nodes` whose first node may be partly consumed. -/
def side_at (g : Nat) (nodes : List drm_mm_node) (idx addr size : Nat)
    (eff : List drm_mm_node) : Prop :=
  ∃ p, eff = ⟨p, size⟩ :: nodes.drop (idx + 1) ∧ addr = p * PAGE_SIZE + g

/-- The byte address `a` lies in none of the nodes. -/
def outside (g : Nat) (nodes : List drm_mm_node) (a : Nat) : Prop :=
  ∀ y ∈ nodes, a < node_lo g y ∨ node_hi g y ≤ a

/-- The device can blit: ring ready, copy functions `funcs` with a non-zero
32-bit `copy_max_bytes`, VRAM pool described by `man`. -/
def blit_ready (w : World) (funcs : amdgpu_buffer_funcs) (man : ttm_mem_type_manager) : Prop :=
  w.adev.mman.buffer_funcs_ring = some ⟨true⟩ ∧ w.adev.mman.buffer_funcs = some funcs ∧
    0 < funcs.copy_max_bytes ∧ funcs.copy_max_bytes < U32 ∧
    w.adev.mman.man.get? TTM_PL_VRAM = some man

/-- The placement `mem` is a VRAM placement over the node list `nodes`. -/
def placed_in_vram (mem : ttm_mem_reg) (nodes : List drm_mm_node) : Prop :=
  mem.mem_type = TTM_PL_VRAM ∧ mem.mm_node = some nodes

/-- The fill commands among the calls made, each as pattern, destination
address and length in bytes. -/
def fill_commands : List Event → List (Nat × Nat × Nat)
  | [] => []
  | Event.emit_fill src_data dst len :: rest => (src_data, dst, len) :: fill_commands rest
  | _ :: rest => fill_commands rest

/-- Copy commands that tile a request: command `k` starts, on both sides,
where command `k - 1` ended, and has the `k`-th length of the list. -/
def copy_tiles : Nat → Nat → List Nat → List (Nat × Nat × Nat)
  | _, _, [] => []
  | src, dst, len :: rest => (src, dst, len) :: copy_tiles (src + len) (dst + len) rest

/-- Some register read in the events returned a value with bit `vmid` set. -/
def ack_seen (vmid : Nat) (evs : List MmioEvent) : Bool :=
  evs.any (fun e => match e with
    | MmioEvent.rreg _ val => val.testBit vmid
    | _ => false)

/-- The calls that belong to the fence protocol of a move: a job submission
that succeeded (it produced a fence), a fence dropped, a fence waited on, and
the commit of the move. -/
def is_fence_event : Event → Bool
  | Event.job_submit r _ => decide (r = 0)
  | Event.fence_put _ => true
  | Event.fence_wait _ => true
  | Event.pipeline_move _ _ => true
  | _ => false

/-- The fence protocol in a list of calls. -/
def fence_events (tr : List Event) : List Event :=
  tr.filter is_fence_event

/-- What a run of copies looks like to the fences: each copy produces its
fence, then the fence held so far is dropped. `prev` is the fence held before
the first copy. -/
def fence_chain : Option Nat → List Nat → List Event
  | _, [] => []
  | prev, f :: rest => Event.job_submit 0 f :: Event.fence_put prev :: fence_chain (some f) rest

/-- The fence of the last copy, or `prev` when no copy was issued. -/
def last_fence : Option Nat → List Nat → Option Nat
  | prev, [] => prev
  | _, f :: rest => last_fence (some f) rest

/-- The wait at the label `error:` of `amdgpu_move_blit`: `if (fence)
dma_fence_wait (fence, false);`. -/
def fence_waits : Option Nat → List Event
  | some f => [Event.fence_wait f]
  | none => []

/-- The return code a collaborator reported in a call, if the call has one. -/
def event_code : Event → Option Int
  | Event.job_alloc _ r => some r
  | Event.sync_resv r => some r
  | Event.job_submit r _ => some r
  | Event.ib_schedule r _ => some r
  | Event.pipeline_move _ r => some r
  | Event.move_memcpy r => some r
  | Event.mem_space r => some r
  | Event.set_placement_caching r => some r
  | Event.tt_bind r => some r
  | Event.move_ttm r => some r
  | Event.gtt_mgr_alloc r => some r
  | Event.gart_bind _ _ _ r => some r
  | _ => none

/-- The code the last collaborator reported. -/
def last_code (tr : List Event) : Option Int :=
  (tr.filterMap event_code).getLast?

/-- Every collaborator that reports a code reported 0. -/
def codes_ok (evs : List Event) : Prop :=
  ∀ c ∈ evs.filterMap event_code, c = 0

/-- The error code `r` of a failed step is the one its last collaborator
reported, or it is the `-EINVAL` the driver itself gives for a pool it cannot
address, with no collaborator reporting an error. -/
def step_code (r : Int) (evs : List Event) : Prop :=
  last_code evs = some r ∨ (r = -EINVAL ∧ codes_ok evs)

/-- A step from world `w` to world `w1` that returned `r` and is no copy: it
leaves the bytes-moved counter alone and adds calls that are no part of the
fence protocol; if it returned 0 every collaborator reported 0, otherwise `r`
is the code of the failure. -/
def silent_step (w w1 : World) (r : Int) : Prop :=
  w1.adev.num_bytes_moved = w.adev.num_bytes_moved ∧ ∃ evs, w1.trace = w.trace ++ evs ∧
    fence_events evs = [] ∧ (r = 0 → codes_ok evs) ∧ (r ≠ 0 → step_code r evs)

/-- The fences of the jobs that were submitted with success, in order: one
for each copy issued. -/
def copies_issued (evs : List Event) : List Nat :=
  evs.filterMap (fun e => match e with
    | Event.job_submit r f => if r = 0 then some f else none
    | _ => none)

/-- The calls contain no commit of a move. -/
def not_committed (evs : List Event) : Prop :=
  ∀ f c, Event.pipeline_move f c ∉ evs

/-! ## Concrete collaborators and inputs used to instantiate the theorems -/

/-- A stand-in for `amdgpu_ttm_placement_from_domain`: one candidate for the
first domain bit that is set, without an address window. -/
def sample_placement_from_domain (abo : amdgpu_bo) (domain : Nat) : amdgpu_bo :=
  let place : ttm_place :=
    if domain &&& AMDGPU_GEM_DOMAIN_VRAM ≠ 0 then ⟨0, 0, TTM_PL_FLAG_WC ||| TTM_PL_FLAG_VRAM⟩
    else if domain &&& AMDGPU_GEM_DOMAIN_GTT ≠ 0 then ⟨0, 0, TTM_PL_FLAG_CACHED ||| TTM_PL_FLAG_TT⟩
    else ⟨0, 0, TTM_PL_FLAG_CACHED ||| TTM_PL_FLAG_SYSTEM⟩
  { abo with
    placements := [place]
    placement := ⟨1, place_ptr.abo_placements, 1, place_ptr.abo_placements⟩ }

/-- Collaborators that always succeed: a move installs the requested
placement, a reservation hands out one node at page 0 of GTT, every job gets
fence 1. -/
def env_ok : Env where
  amdgpu_ttm_bo_is_amdgpu_bo := fun _ => true
  amdgpu_ttm_placement_from_domain := sample_placement_from_domain
  ttm_bo_eviction_valuable := fun bo place =>
    !(decide (place.fpfn ≥ bo.mem.start + bo.mem.size) ||
      (decide (place.lpfn ≠ 0) && decide (place.lpfn ≤ bo.mem.start)))
  ttm_bo_move_memcpy := fun _ bo _ _ nm => (0, { bo with mem := nm }, { nm with mm_node := none })
  ttm_bo_mem_space := fun _ bo _ mem _ _ =>
    (0, bo, { mem with mm_node := some [⟨0, mem.num_pages⟩], start := 0, mem_type := TTM_PL_TT })
  ttm_tt_set_placement_caching := fun _ ttm _ => (0, ttm)
  ttm_tt_bind := fun _ ttm _ => (0, ttm)
  ttm_bo_move_ttm := fun _ bo _ _ nm => (0, { bo with mem := nm }, { nm with mm_node := none })
  ttm_bo_mem_put := fun _ bo mem => (bo, { mem with mm_node := none })
  ttm_bo_pipeline_move := fun _ bo _ _ nm => (0, { bo with mem := nm }, { nm with mm_node := none })
  amdgpu_gtt_mgr_alloc := fun _ _ mem => (0, mem)
  amdgpu_gart_bind := fun _ _ _ _ => 0
  amdgpu_job_alloc_with_ib := fun _ _ => 0
  amdgpu_sync_resv := fun _ => 0
  amdgpu_job_submit := fun _ => (0, 1)
  amdgpu_ib_schedule := fun _ => (0, 1)

/-- Collaborators as `env_ok`, except that the CPU copy fails with `-ENOMEM`
and leaves the buffer alone. -/
def env_memcpy_fails : Env :=
  { env_ok with ttm_bo_move_memcpy := fun _ bo _ _ nm => (-12, bo, nm) }

/-- A device whose copy engine is a ready ring with the SDMA limits
(`copy_max_bytes = fill_max_bytes = 0x1fffff`), the three TTM pools at GPU
offset 0 and 4 GiB of GTT. -/
def sample_adev : amdgpu_device :=
  { mman := { man := [{}, {}, {}], buffer_funcs := some ⟨0x1fffff, 7, 0x1fffff, 5⟩,
              buffer_funcs_ring := some ⟨true⟩ }
    mc := { gtt_size := 0x100000000 } }

/-- The device of `sample_adev` with its copy ring stopped. -/
def sample_adev_ring_down : amdgpu_device :=
  { sample_adev with mman := { sample_adev.mman with buffer_funcs_ring := some ⟨false⟩ } }

def sample_mem (mem_type : Nat) (nodes : Option (List drm_mm_node)) (start num_pages : Nat) :
    ttm_mem_reg :=
  { mm_node := nodes, start := start, num_pages := num_pages, mem_type := mem_type }

/-- A 16-page buffer in two VRAM fragments, pages 0..7 and 32..39. -/
def sample_vram_bo (pin_count : Nat) : amdgpu_bo :=
  { tbo := { mem := sample_mem TTM_PL_VRAM (some [⟨0, 8⟩, ⟨32, 8⟩]) AMDGPU_BO_INVALID_OFFSET 16,
             ttm := none, num_pages := 16 }
    pin_count := pin_count }

/-- A 16-page buffer without backing pages and without a node. -/
def sample_unbacked_bo : amdgpu_bo :=
  { tbo := { mem := sample_mem TTM_PL_SYSTEM none 0 16, ttm := none, num_pages := 16 }
    pin_count := 0 }

/-- A 16-page buffer with backing pages, in the pool `mem_type`, whose
placement holds no node. -/
def sample_host_bo (mem_type : Nat) : amdgpu_bo :=
  { tbo := { mem := sample_mem mem_type none 0 16, ttm := some { num_pages := 16 }, num_pages := 16 }
    pin_count := 0 }

/-- A 10-page buffer in one VRAM fragment, pages 0..9. -/
def sample_fragment_bo : ttm_buffer_object :=
  { mem := sample_mem TTM_PL_VRAM (some [⟨0, 10⟩]) AMDGPU_BO_INVALID_OFFSET 10, ttm := none,
    num_pages := 10 }

/-- A buffer of `0x100000` pages (4 GiB) in one VRAM node that starts at page
`start`. -/
def sample_4g_mem (start : Nat) : ttm_mem_reg :=
  sample_mem TTM_PL_VRAM (some [⟨start, 0x100000⟩]) start 0x100000

def sample_4g_bo : amdgpu_bo :=
  { tbo := { mem := sample_4g_mem 0, ttm := none, num_pages := 0x100000 }, pin_count := 0 }

/-- Memory whose first 4 GiB hold the byte 1 and the rest the byte 0. -/
def sample_memory : Nat → Nat :=
  fun a => if a < 0x100000000 then 1 else 0

/-- The buffer of `sample_vram_bo` after it moved to the single VRAM node of
pages 64..79. -/
def sample_vram_bo_moved : amdgpu_bo :=
  { tbo := { mem := sample_mem TTM_PL_VRAM (some [⟨64, 16⟩]) 64 16, ttm := none, num_pages := 16 }
    pin_count := 0 }

/-- A 16-page buffer in GTT with backing pages that are not bound yet. -/
def sample_gtt_bo : amdgpu_bo :=
  { tbo := { mem := sample_mem TTM_PL_TT (some [⟨5, 16⟩]) 5 16,
             ttm := some { id := 7, num_pages := 16 }, num_pages := 16 }
    pin_count := 0 }

/-- The buffer of `sample_gtt_bo`, bound at its GART offset. -/
def sample_gtt_bo_bound : amdgpu_bo :=
  { tbo := { mem := sample_mem TTM_PL_TT (some [⟨5, 16⟩]) 5 16,
             ttm := some { id := 7, num_pages := 16, offset := 0x5000, list_linked := true },
             num_pages := 16 }
    pin_count := 0 }

/-- Collaborators as `env_ok`, except that the page-table write fails with
`-ENOMEM`. -/
def env_gart_bind_fails : Env :=
  { env_ok with amdgpu_gart_bind := fun _ _ _ _ => -12 }

/-- Hardware that never acknowledges: every register reads 0. -/
def mmio_silent : MmioEnv :=
  { get_invalidate_req := fun _ vmid => 1 <<< vmid, rreg32 := fun _ _ => 0 }

/-- The device of `sample_adev` with its two hubs and a timeout of 5
microseconds. -/
def sample_adev_hubs : amdgpu_device :=
  { sample_adev with usec_timeout := 5, vmhub := [⟨0x100, 0x200⟩, ⟨0x300, 0x400⟩] }

/-- A board with 8192 MiB of VRAM behind a 256 MiB BAR, whose placement
helpers leave the sizes alone, with the GART size parameter `gart`. -/
def sample_mc_env (gart : Int) : McEnv :=
  { rreg_dram_base_address0 := 0x30, pci_resource_start := 0xE0000000,
    pci_resource_len := 0x10000000, nbio_v6_1_get_memsize := 8192, amdgpu_gart_size := gart,
    amdgpu_sriov_vf := false, mmhub_v1_0_get_fb_location := 0,
    amdgpu_vram_location := fun mc _ => mc, amdgpu_gtt_location := fun mc => mc }

/-- An unpinned VRAM buffer of `num_pages` pages laid out in `nodes`. -/
def sample_nodes_bo (nodes : List drm_mm_node) (num_pages : Nat) : amdgpu_bo :=
  { tbo := { mem := sample_mem TTM_PL_VRAM (some nodes) AMDGPU_BO_INVALID_OFFSET num_pages,
             ttm := none, num_pages := num_pages }
    pin_count := 0 }

/-- The device of `sample_adev` with the pool flags `amdgpu_init_mem_type`
sets (system and GTT mappable, VRAM fixed and mappable), a fourth pool that is
not mappable, and a CPU-visible aperture of 256 MiB at `0xE0000000`. -/
def sample_adev_aperture : amdgpu_device :=
  { sample_adev with
    mman := { sample_adev.mman with man := [{ flags := 2 }, { flags := 10 }, { flags := 3 }, {}] }
    mc := { sample_adev.mc with visible_vram_size := 0x10000000, aper_base := 0xE0000000 } }

/-- Collaborators as `env_ok`, except that every job gets a fence of its own:
the number of calls made before its submission. -/
def env_fences : Env :=
  { env_ok with amdgpu_job_submit := fun h => (0, h.length) }

/-- Collaborators as `env_ok`, except that the first job submitted gets fence
7 and every later submission fails with `-ENOMEM`. -/
def env_second_submit_fails : Env :=
  { env_ok with amdgpu_job_submit := fun h => if h.length < 4 then (0, 7) else (-12, 0) }

/-- The device of `sample_adev` with a GTT of `0x100000005000` bytes (16 TiB
and 20 KiB), more pages than a 32-bit page number counts. -/
def sample_adev_huge_gtt : amdgpu_device :=
  { sample_adev with mc := { gtt_size := 0x100000005000 } }

/-! ## Theorems -/

/-- C1. A pinned buffer is never moved: whatever placement is requested,
`amdgpu_bo_move` returns `-EINVAL` and hands back the world (placement record
`bo->mem`, bytes-moved counter, list of calls made: no blit, no memcpy) and
`*new_mem` exactly as it received them. -/
theorem bo_move_pinned_rejected (env : Env) (fuel : Nat) (evict interruptible no_wait_gpu : Bool)
    (w : World) (new_mem : ttm_mem_reg) (hpin : 0 < w.abo.pin_count) :
    amdgpu_bo_move env fuel evict interruptible no_wait_gpu w new_mem =
      .ok (-EINVAL, w, new_mem) := by
  unfold amdgpu_bo_move
  simp [hpin]

theorem bo_move_pinned_rejected_witness :
    0 < (World.mk (sample_vram_bo 2) sample_adev []).abo.pin_count ∧
    amdgpu_bo_move env_ok 8 true false false (World.mk (sample_vram_bo 2) sample_adev [])
        (sample_mem TTM_PL_TT (some [⟨4, 16⟩]) 4 16) =
      .ok (-EINVAL, World.mk (sample_vram_bo 2) sample_adev [],
        sample_mem TTM_PL_TT (some [⟨4, 16⟩]) 4 16) :=
  ⟨by decide, bo_move_pinned_rejected env_ok 8 true false false _ _ (by decide)⟩

/-- C3. System memory to GTT or GTT to system memory, for an unpinned buffer
whose placement holds no node: `amdgpu_bo_move` returns 0, makes no call at
all (the list of calls is unchanged: no blit, no memcpy), the placement record
becomes exactly the requested placement, the node reference of the request is
cleared, and the device (bytes-moved counter included) is untouched. -/
theorem bo_move_rebind_no_copy (env : Env) (fuel : Nat) (evict interruptible no_wait_gpu : Bool)
    (w : World) (new_mem : ttm_mem_reg) (hpin : w.abo.pin_count = 0)
    (hnode : w.abo.tbo.mem.mm_node = none)
    (hmove : (w.abo.tbo.mem.mem_type = TTM_PL_SYSTEM ∧ new_mem.mem_type = TTM_PL_TT) ∨
      (w.abo.tbo.mem.mem_type = TTM_PL_TT ∧ new_mem.mem_type = TTM_PL_SYSTEM)) :
    amdgpu_bo_move env fuel evict interruptible no_wait_gpu w new_mem =
      .ok (0, { w with abo := { w.abo with tbo := { w.abo.tbo with mem := new_mem } } },
        { new_mem with mm_node := none }) := by
  unfold amdgpu_bo_move amdgpu_move_null
  by_cases h1 : w.abo.tbo.mem.mem_type = TTM_PL_SYSTEM ∧ w.abo.tbo.ttm = none
  · simp [hpin, hnode, h1]
  · have h2 : (w.abo.tbo.mem.mem_type = TTM_PL_TT ∧ new_mem.mem_type = TTM_PL_SYSTEM) ∨
        (w.abo.tbo.mem.mem_type = TTM_PL_SYSTEM ∧ new_mem.mem_type = TTM_PL_TT) := hmove.symm
    simp only [hpin, gt_iff_lt, lt_self_iff_false, if_false, h1, h2, hnode, ne_eq,
      not_true_eq_false, if_true]

theorem bo_move_rebind_no_copy_witness :
    (World.mk (sample_host_bo TTM_PL_TT) sample_adev []).abo.pin_count = 0 ∧
    (World.mk (sample_host_bo TTM_PL_TT) sample_adev []).abo.tbo.mem.mm_node = none ∧
    amdgpu_bo_move env_ok 8 false false false (World.mk (sample_host_bo TTM_PL_TT) sample_adev [])
        (sample_mem TTM_PL_SYSTEM (some [⟨0, 16⟩]) 0 16) =
      .ok (0,
        { (World.mk (sample_host_bo TTM_PL_TT) sample_adev []) with
          abo := { sample_host_bo TTM_PL_TT with
            tbo := { (sample_host_bo TTM_PL_TT).tbo with
              mem := sample_mem TTM_PL_SYSTEM (some [⟨0, 16⟩]) 0 16 } } },
        { sample_mem TTM_PL_SYSTEM (some [⟨0, 16⟩]) 0 16 with mm_node := none }) :=
  ⟨rfl, rfl, bo_move_rebind_no_copy env_ok 8 false false false
    (World.mk (sample_host_bo TTM_PL_TT) sample_adev [])
    (sample_mem TTM_PL_SYSTEM (some [⟨0, 16⟩]) 0 16) rfl rfl (Or.inr ⟨rfl, rfl⟩)⟩

/-- C4. First placement of an unpinned buffer that is still unbacked (in
system memory, no backing page object, no node): for every target pool
`amdgpu_bo_move` returns 0 without making any call (no data copy); afterwards
the placement record is the requested placement, node included, and the
request no longer refers to the node. -/
theorem bo_move_first_placement (env : Env) (fuel : Nat) (evict interruptible no_wait_gpu : Bool)
    (w : World) (new_mem : ttm_mem_reg) (hpin : w.abo.pin_count = 0)
    (hsys : w.abo.tbo.mem.mem_type = TTM_PL_SYSTEM) (httm : w.abo.tbo.ttm = none)
    (hnode : w.abo.tbo.mem.mm_node = none) :
    amdgpu_bo_move env fuel evict interruptible no_wait_gpu w new_mem =
      .ok (0, { w with abo := { w.abo with tbo := { w.abo.tbo with mem := new_mem } } },
        { new_mem with mm_node := none }) := by
  unfold amdgpu_bo_move amdgpu_move_null
  simp [hpin, hsys, httm, hnode]

theorem bo_move_first_placement_witness :
    (World.mk sample_unbacked_bo sample_adev []).abo.pin_count = 0 ∧
    amdgpu_bo_move env_ok 8 false false false (World.mk sample_unbacked_bo sample_adev [])
        (sample_mem TTM_PL_VRAM (some [⟨0, 8⟩, ⟨32, 8⟩]) AMDGPU_BO_INVALID_OFFSET 16) =
      .ok (0,
        { (World.mk sample_unbacked_bo sample_adev []) with
          abo := { sample_unbacked_bo with
            tbo := { sample_unbacked_bo.tbo with
              mem := sample_mem TTM_PL_VRAM (some [⟨0, 8⟩, ⟨32, 8⟩]) AMDGPU_BO_INVALID_OFFSET 16 } } },
        { sample_mem TTM_PL_VRAM (some [⟨0, 8⟩, ⟨32, 8⟩]) AMDGPU_BO_INVALID_OFFSET 16 with
          mm_node := none }) :=
  ⟨rfl, bo_move_first_placement env_ok 8 false false false
    (World.mk sample_unbacked_bo sample_adev [])
    (sample_mem TTM_PL_VRAM (some [⟨0, 8⟩, ⟨32, 8⟩]) AMDGPU_BO_INVALID_OFFSET 16) rfl rfl rfl rfl⟩

/-- C5. With the copy engine unavailable (no `buffer_funcs`, no
`buffer_funcs_ring`, or a ring that is not ready), a move of an unpinned,
backed buffer that is not a system/GTT rebind is the CPU copy and nothing
else: `amdgpu_bo_move` makes exactly one call, `ttm_bo_move_memcpy` (no DMA
command, no job), returns the code of that call (its error when it fails, 0
when it succeeds), and hands back the buffer and `*new_mem` exactly as that
call left them. The bytes-moved counter grows by `num_pages << PAGE_SHIFT`
when the copy succeeded and is untouched when it failed. -/
theorem bo_move_engine_down_memcpy (env : Env) (fuel : Nat)
    (evict interruptible no_wait_gpu : Bool) (w : World) (new_mem : ttm_mem_reg)
    (hpin : w.abo.pin_count = 0)
    (hbacked : ¬ (w.abo.tbo.mem.mem_type = TTM_PL_SYSTEM ∧ w.abo.tbo.ttm = none))
    (hmove : ¬ ((w.abo.tbo.mem.mem_type = TTM_PL_TT ∧ new_mem.mem_type = TTM_PL_SYSTEM) ∨
      (w.abo.tbo.mem.mem_type = TTM_PL_SYSTEM ∧ new_mem.mem_type = TTM_PL_TT)))
    (hdown : w.adev.mman.buffer_funcs = none ∨ w.adev.mman.buffer_funcs_ring = none ∨
      w.adev.mman.buffer_funcs_ring = some ⟨false⟩) :
    amdgpu_bo_move env fuel evict interruptible no_wait_gpu w new_mem =
      .ok ((env.ttm_bo_move_memcpy w.trace w.abo.tbo interruptible no_wait_gpu new_mem).1,
        { abo := { w.abo with
            tbo := (env.ttm_bo_move_memcpy w.trace w.abo.tbo interruptible no_wait_gpu
              new_mem).2.1 }
          adev :=
            if (env.ttm_bo_move_memcpy w.trace w.abo.tbo interruptible no_wait_gpu
                new_mem).1 = 0 then
              { w.adev with num_bytes_moved :=
                (w.adev.num_bytes_moved +
                  ((env.ttm_bo_move_memcpy w.trace w.abo.tbo interruptible no_wait_gpu
                    new_mem).2.1.num_pages <<< PAGE_SHIFT) % U64) % U64 }
            else w.adev
          trace := w.trace ++
            [Event.move_memcpy
              (env.ttm_bo_move_memcpy w.trace w.abo.tbo interruptible no_wait_gpu new_mem).1] },
        (env.ttm_bo_move_memcpy w.trace w.abo.tbo interruptible no_wait_gpu new_mem).2.2) := by
  unfold amdgpu_bo_move
  simp only [hpin, gt_iff_lt, lt_self_iff_false, if_false, hbacked, hmove, hdown, if_true]
  unfold bo_move_memcpy
  by_cases hr : (env.ttm_bo_move_memcpy w.trace w.abo.tbo interruptible no_wait_gpu new_mem).1 = 0
  · simp [hr, hpin]
  · simp [hr, hpin]

theorem bo_move_engine_down_memcpy_witness :
    (World.mk (sample_vram_bo 0) sample_adev_ring_down []).abo.pin_count = 0 ∧
    amdgpu_bo_move env_memcpy_fails 8 false false false
        (World.mk (sample_vram_bo 0) sample_adev_ring_down [])
        (sample_mem TTM_PL_SYSTEM none 0 16) =
      .ok (-12, World.mk (sample_vram_bo 0) sample_adev_ring_down [Event.move_memcpy (-12)],
        sample_mem TTM_PL_SYSTEM none 0 16) ∧
    amdgpu_bo_move env_ok 8 false false false
        (World.mk (sample_vram_bo 0) sample_adev_ring_down [])
        (sample_mem TTM_PL_SYSTEM none 0 16) =
      .ok (0,
        World.mk
          { sample_vram_bo 0 with
            tbo := { (sample_vram_bo 0).tbo with mem := sample_mem TTM_PL_SYSTEM none 0 16 } }
          { sample_adev_ring_down with num_bytes_moved := 16 * 4096 }
          [Event.move_memcpy 0],
        sample_mem TTM_PL_SYSTEM none 0 16) :=
  ⟨rfl,
    bo_move_engine_down_memcpy env_memcpy_fails 8 false false false
      (World.mk (sample_vram_bo 0) sample_adev_ring_down [])
      (sample_mem TTM_PL_SYSTEM none 0 16) rfl (by decide) (by decide) (Or.inr (Or.inr rfl)),
    bo_move_engine_down_memcpy env_ok 8 false false false
      (World.mk (sample_vram_bo 0) sample_adev_ring_down [])
      (sample_mem TTM_PL_SYSTEM none 0 16) rfl (by decide) (by decide) (Or.inr (Or.inr rfl))⟩

/-- C6. A driver-owned buffer in VRAM, copy ring not ready:
`amdgpu_evict_flags` asks for the CPU domain and for nothing else (the GTT
domain is never requested), and returns the buffer and the placement header
exactly as `amdgpu_ttm_placement_from_domain` left them: no candidate gets an
`lpfn`. -/
theorem evict_flags_ring_down (env : Env) (adev : amdgpu_device) (abo : amdgpu_bo)
    (hown : env.amdgpu_ttm_bo_is_amdgpu_bo abo.tbo = true)
    (hvram : abo.tbo.mem.mem_type = TTM_PL_VRAM)
    (hring : adev.mman.buffer_funcs_ring = some ⟨false⟩) :
    amdgpu_evict_flags env adev abo =
      .ok ⟨env.amdgpu_ttm_placement_from_domain abo AMDGPU_GEM_DOMAIN_CPU,
        (env.amdgpu_ttm_placement_from_domain abo AMDGPU_GEM_DOMAIN_CPU).placement,
        [AMDGPU_GEM_DOMAIN_CPU]⟩ := by
  unfold amdgpu_evict_flags
  simp [hown, hvram, hring]

theorem evict_flags_ring_down_witness :
    amdgpu_evict_flags env_ok sample_adev_ring_down (sample_vram_bo 0) =
      .ok ⟨{ sample_vram_bo 0 with
          placements := [⟨0, 0, TTM_PL_FLAG_CACHED ||| TTM_PL_FLAG_SYSTEM⟩]
          placement := ⟨1, place_ptr.abo_placements, 1, place_ptr.abo_placements⟩ },
        ⟨1, place_ptr.abo_placements, 1, place_ptr.abo_placements⟩, [AMDGPU_GEM_DOMAIN_CPU]⟩ :=
  evict_flags_ring_down env_ok sample_adev_ring_down (sample_vram_bo 0) rfl rfl rfl

/-- The `for` loop of `amdgpu_evict_flags` over the indices `i .. i + n - 1`
of an array that holds them all: it ends, keeps the length, rewrites exactly
those elements by `evict_flags_step` and leaves the others alone. -/
theorem evict_flags_loop_spec (gtt_size : Nat) (n : Nat) :
    ∀ (i : Nat) (ps : List ttm_place), i + n ≤ ps.length →
      ∃ qs, evict_flags_loop gtt_size n i ps = .ok qs ∧ qs.length = ps.length ∧
        ∀ j, qs.get? j =
          if i ≤ j ∧ j < i + n then (ps.get? j).map (evict_flags_step gtt_size) else ps.get? j := by
  induction n with
  | zero =>
    intro i ps _
    refine ⟨ps, rfl, rfl, ?_⟩
    intro j
    have : ¬ (i ≤ j ∧ j < i + 0) := by omega
    rw [if_neg this]
  | succ n ih =>
    intro i ps hlen
    have hi : i < ps.length := by omega
    obtain ⟨p, hp⟩ : ∃ p, ps.get? i = some p := ⟨ps.get ⟨i, hi⟩, List.get?_eq_get hi⟩
    have hlen2 : (i + 1) + n ≤ (ps.set i (evict_flags_step gtt_size p)).length := by
      rw [List.length_set]; omega
    obtain ⟨qs, hq, hql, hqj⟩ := ih (i + 1) (ps.set i (evict_flags_step gtt_size p)) hlen2
    refine ⟨qs, ?_, ?_, ?_⟩
    · simp only [evict_flags_loop, hp]
      exact hq
    · rw [hql, List.length_set]
    · intro j
      rw [hqj j]
      by_cases hji : j = i
      · subst hji
        have h1 : ¬ (j + 1 ≤ j ∧ j < j + 1 + n) := by omega
        have h2 : j ≤ j ∧ j < j + (n + 1) := by omega
        simp only [h1, h2, if_false, if_true, hp, Option.map_some']
        simp [List.get?_eq_getElem?, List.getElem?_set, hi]
      · have hset : (ps.set i (evict_flags_step gtt_size p)).get? j = ps.get? j := by
          simp only [List.get?_eq_getElem?]
          rw [List.getElem?_set_ne (Ne.symm hji)]
        rw [hset]
        by_cases hin : i + 1 ≤ j ∧ j < i + 1 + n
        · have h2 : i ≤ j ∧ j < i + (n + 1) := by omega
          simp [hin, h2]
        · have h2 : ¬ (i ≤ j ∧ j < i + (n + 1)) := by omega
          simp [hin, h2]

/-- C7, counterexample. A device whose GTT holds `0x100000005000` bytes, that
is `0x100000005` pages. The domain placement produces one GTT candidate with
`lpfn == 0`; `amdgpu_evict_flags` stores the page count in the `unsigned`
field `lpfn`, which keeps the low 32 bits: the candidate comes back with
`lpfn = 5`, not with `gtt_size >> PAGE_SHIFT`. -/
theorem evict_flags_lpfn_truncated :
    (env_ok.amdgpu_ttm_placement_from_domain (sample_vram_bo 0)
      AMDGPU_GEM_DOMAIN_GTT).placements = [⟨0, 0, TTM_PL_FLAG_CACHED ||| TTM_PL_FLAG_TT⟩] ∧
    sample_adev_huge_gtt.mc.gtt_size >>> PAGE_SHIFT = 0x100000005 ∧
    ∃ res, amdgpu_evict_flags env_ok sample_adev_huge_gtt (sample_vram_bo 0) = .ok res ∧
      res.abo.placements = [⟨0, 5, TTM_PL_FLAG_CACHED ||| TTM_PL_FLAG_TT⟩] ∧
      (5 : Nat) ≠ 0x100000005 :=
  ⟨rfl, by decide, _, rfl, by decide, by decide⟩

/-- C7, amended. A driver-owned buffer in VRAM, copy ring ready, on a device
whose GTT page count `gtt_size >> PAGE_SHIFT` fits the 32-bit field `lpfn`:
`amdgpu_evict_flags` asks for the GTT domain only and returns the header of
that placement. Of the array the domain placement produced, a candidate
(index below `num_placement`) that carries `TTM_PL_FLAG_TT` and has `lpfn ==
0` gets `lpfn = gtt_size >> PAGE_SHIFT`; every other element (a GTT candidate
with an `lpfn`, a candidate without the GTT flag, an element past the
candidates) is exactly what the domain placement produced. -/
theorem evict_flags_ring_ready (env : Env) (adev : amdgpu_device) (abo : amdgpu_bo)
    (hown : env.amdgpu_ttm_bo_is_amdgpu_bo abo.tbo = true)
    (hvram : abo.tbo.mem.mem_type = TTM_PL_VRAM)
    (hring : adev.mman.buffer_funcs_ring = some ⟨true⟩)
    (hfit : adev.mc.gtt_size >>> PAGE_SHIFT < U32)
    (hlen : (env.amdgpu_ttm_placement_from_domain abo AMDGPU_GEM_DOMAIN_GTT).placement.num_placement
      ≤ (env.amdgpu_ttm_placement_from_domain abo AMDGPU_GEM_DOMAIN_GTT).placements.length) :
    ∃ qs,
      amdgpu_evict_flags env adev abo =
        .ok ⟨{ env.amdgpu_ttm_placement_from_domain abo AMDGPU_GEM_DOMAIN_GTT with
            placements := qs },
          (env.amdgpu_ttm_placement_from_domain abo AMDGPU_GEM_DOMAIN_GTT).placement,
          [AMDGPU_GEM_DOMAIN_GTT]⟩ ∧
      qs.length = (env.amdgpu_ttm_placement_from_domain abo AMDGPU_GEM_DOMAIN_GTT).placements.length ∧
      ∀ j p, (env.amdgpu_ttm_placement_from_domain abo AMDGPU_GEM_DOMAIN_GTT).placements.get? j
          = some p →
        qs.get? j = some
          (if j < (env.amdgpu_ttm_placement_from_domain abo
                AMDGPU_GEM_DOMAIN_GTT).placement.num_placement ∧
              p.flags &&& TTM_PL_FLAG_TT ≠ 0 ∧ p.lpfn = 0
            then { p with lpfn := adev.mc.gtt_size >>> PAGE_SHIFT } else p) := by
  obtain ⟨qs, hq, hql, hqj⟩ := evict_flags_loop_spec adev.mc.gtt_size
    (env.amdgpu_ttm_placement_from_domain abo AMDGPU_GEM_DOMAIN_GTT).placement.num_placement 0
    (env.amdgpu_ttm_placement_from_domain abo AMDGPU_GEM_DOMAIN_GTT).placements (by omega)
  refine ⟨qs, ?_, hql, ?_⟩
  · unfold amdgpu_evict_flags
    simp [hown, hvram, hring, hq]
  · intro j p hp
    rw [hqj j, hp]
    by_cases hj : j < (env.amdgpu_ttm_placement_from_domain abo
        AMDGPU_GEM_DOMAIN_GTT).placement.num_placement
    · have h0 : 0 ≤ j ∧ j < 0 + (env.amdgpu_ttm_placement_from_domain abo
          AMDGPU_GEM_DOMAIN_GTT).placement.num_placement := by omega
      rw [if_pos h0]
      simp only [Option.map_some', Option.some.injEq, evict_flags_step, hj, true_and]
      by_cases hf : p.flags &&& TTM_PL_FLAG_TT = 0
      · simp [hf]
      · by_cases hl : p.lpfn = 0
        · simp [hf, hl, Nat.mod_eq_of_lt hfit]
        · simp [hf, hl]
    · have h0 : ¬ (0 ≤ j ∧ j < 0 + (env.amdgpu_ttm_placement_from_domain abo
          AMDGPU_GEM_DOMAIN_GTT).placement.num_placement) := by omega
      rw [if_neg h0]
      simp [hj]

theorem evict_flags_ring_ready_witness :
    sample_adev.mc.gtt_size >>> PAGE_SHIFT < U32 ∧
    ∃ qs,
      amdgpu_evict_flags env_ok sample_adev (sample_vram_bo 0) =
        .ok ⟨{ env_ok.amdgpu_ttm_placement_from_domain (sample_vram_bo 0) AMDGPU_GEM_DOMAIN_GTT with
            placements := qs },
          (env_ok.amdgpu_ttm_placement_from_domain (sample_vram_bo 0)
            AMDGPU_GEM_DOMAIN_GTT).placement,
          [AMDGPU_GEM_DOMAIN_GTT]⟩ ∧
      qs.length = (env_ok.amdgpu_ttm_placement_from_domain (sample_vram_bo 0)
        AMDGPU_GEM_DOMAIN_GTT).placements.length ∧
      ∀ j p, (env_ok.amdgpu_ttm_placement_from_domain (sample_vram_bo 0)
          AMDGPU_GEM_DOMAIN_GTT).placements.get? j = some p →
        qs.get? j = some
          (if j < (env_ok.amdgpu_ttm_placement_from_domain (sample_vram_bo 0)
                AMDGPU_GEM_DOMAIN_GTT).placement.num_placement ∧
              p.flags &&& TTM_PL_FLAG_TT ≠ 0 ∧ p.lpfn = 0
            then { p with lpfn := sample_adev.mc.gtt_size >>> PAGE_SHIFT } else p) :=
  ⟨by decide, evict_flags_ring_ready env_ok sample_adev (sample_vram_bo 0) rfl rfl rfl
    (by decide) (by decide)⟩

/-- For a non-empty node that ends inside the 64-bit range and a non-empty
window, the test of the selector is the intersection of the two ranges. -/
theorem node_in_place_iff (place : ttm_place) (node : drm_mm_node) (hsize : 0 < node.size)
    (hfit : node.start + node.size < U64) (hwin : place.lpfn = 0 ∨ place.fpfn < place.lpfn) :
    node_in_place place node = true ↔ node_meets_window place node := by
  unfold node_in_place node_meets_window
  rw [Nat.mod_eq_of_lt hfit]
  simp only [Bool.and_eq_true, decide_eq_true_eq, Bool.not_eq_true', Bool.and_eq_false_imp,
    decide_eq_false_iff_not, ne_eq, not_le]
  constructor
  · rintro ⟨h1, h2⟩
    refine ⟨max node.start place.fpfn, le_max_left _ _, ?_, le_max_right _ _, ?_⟩
    · exact max_lt (by omega) h1
    · by_cases hl : place.lpfn = 0
      · exact Or.inl hl
      · right
        have := h2 hl
        rcases hwin with h | h
        · exact absurd h hl
        · exact max_lt this h
  · rintro ⟨page, h1, h2, h3, h4⟩
    refine ⟨by omega, ?_⟩
    intro hl
    rcases h4 with h | h
    · exact absurd h hl
    · omega

/-- The per-node loop of the selector on a list of non-empty nodes whose
sizes add up to the page counter: it ends at the end of the list, without
stepping past it, and answers whether some node passed the test. -/
theorem eviction_valuable_loop_spec (place : ttm_place) :
    ∀ (nodes : List drm_mm_node), (∀ node ∈ nodes, 0 < node.size) → nodes_pages nodes < U64 →
      eviction_valuable_loop place (nodes_pages nodes) nodes =
        .ok (nodes.any (node_in_place place)) := by
  intro nodes
  induction nodes with
  | nil => intro _ _; simp [eviction_valuable_loop, nodes_pages]
  | cons node rest ih =>
    intro hpos hsum
    have hnode : 0 < node.size := hpos node (List.mem_cons_self _ _)
    have hcons : nodes_pages (node :: rest) = node.size + nodes_pages rest := by
      simp [nodes_pages]
    have hne : nodes_pages (node :: rest) ≠ 0 := by omega
    rw [eviction_valuable_loop]
    simp only [hne, if_false, List.any_cons]
    by_cases hin : node_in_place place node = true
    · simp [hin]
    · have hnext : (nodes_pages (node :: rest) + U64 - node.size % U64) % U64 = nodes_pages rest := by
        have h1 : node.size % U64 = node.size := Nat.mod_eq_of_lt (by omega)
        rw [h1, hcons]
        have h2 : node.size + nodes_pages rest + U64 - node.size = nodes_pages rest + U64 := by omega
        rw [h2, Nat.add_mod_right]
        exact Nat.mod_eq_of_lt (by omega)
      simp only [hin, Bool.false_eq_true, if_false, Bool.false_or]
      rw [hnext]
      exact ih (fun n hn => hpos n (List.mem_cons_of_mem _ hn)) (by omega)

/-- C8, counterexample. The window with `fpfn = 5`, `lpfn = 3` holds no page,
so the one node of the buffer, pages 0..9, does not intersect it; the selector
answers `true` all the same. -/
theorem eviction_valuable_empty_window :
    amdgpu_ttm_bo_eviction_valuable env_ok sample_fragment_bo ⟨5, 3, 0⟩ = .ok true ∧
    ¬ ∃ node ∈ [(⟨0, 10⟩ : drm_mm_node)], node_meets_window ⟨5, 3, 0⟩ node := by
  refine ⟨rfl, ?_⟩
  rintro ⟨node, _, page, _, _, h3, h4⟩
  simp only at h3 h4
  omega

/-- C8, amended. For a VRAM buffer backed by a fragment list
(`bo->mem.start == AMDGPU_BO_INVALID_OFFSET`) whose nodes are non-empty, end
inside the 64-bit range and add up to `num_pages`, and for every window that
is not empty (`lpfn == 0`, or `fpfn < lpfn`), the selector returns, and it
returns `true` exactly when some node of the buffer intersects the window. -/
theorem eviction_valuable_iff_intersects (env : Env) (bo : ttm_buffer_object)
    (place : ttm_place) (nodes : List drm_mm_node)
    (hvram : bo.mem.mem_type = TTM_PL_VRAM) (hfrag : bo.mem.start = AMDGPU_BO_INVALID_OFFSET)
    (hnodes : bo.mem.mm_node = some nodes)
    (hpos : ∀ node ∈ nodes, 0 < node.size)
    (hfit : ∀ node ∈ nodes, node.start + node.size < U64)
    (hsum : nodes_pages nodes = bo.mem.num_pages) (hpages : bo.mem.num_pages < U64)
    (hwin : place.lpfn = 0 ∨ place.fpfn < place.lpfn) :
    ∃ b, amdgpu_ttm_bo_eviction_valuable env bo place = .ok b ∧
      (b = true ↔ ∃ node ∈ nodes, node_meets_window place node) := by
  refine ⟨nodes.any (node_in_place place), ?_, ?_⟩
  · unfold amdgpu_ttm_bo_eviction_valuable
    simp only [hvram, hfrag, and_self, if_true, hnodes, Option.getD_some]
    rw [← hsum]
    exact eviction_valuable_loop_spec place nodes hpos (by omega)
  · rw [List.any_eq_true]
    constructor
    · rintro ⟨node, hmem, hin⟩
      exact ⟨node, hmem, (node_in_place_iff place node (hpos node hmem) (hfit node hmem) hwin).1 hin⟩
    · rintro ⟨node, hmem, hmeet⟩
      exact ⟨node, hmem, (node_in_place_iff place node (hpos node hmem) (hfit node hmem) hwin).2 hmeet⟩

theorem eviction_valuable_iff_intersects_witness :
    (sample_vram_bo 0).tbo.mem.mm_node = some [⟨0, 8⟩, ⟨32, 8⟩] ∧
    ∃ b, amdgpu_ttm_bo_eviction_valuable env_ok (sample_vram_bo 0).tbo ⟨16, 24, 0⟩ = .ok b ∧
      (b = true ↔ ∃ node ∈ [(⟨0, 8⟩ : drm_mm_node), ⟨32, 8⟩], node_meets_window ⟨16, 24, 0⟩ node) :=
  ⟨rfl, eviction_valuable_iff_intersects env_ok (sample_vram_bo 0).tbo ⟨16, 24, 0⟩
    [⟨0, 8⟩, ⟨32, 8⟩] rfl rfl rfl (by decide) (by decide) rfl (by decide) (by decide)⟩

/-- C9, the code at the failing input. A copy of `0xFFFFF000` bytes (the
`1048575` pages of one chunk of `amdgpu_move_blit`) with the SDMA limit
`copy_max_bytes = 0x1fffff` needs `ceil (0xFFFFF000 / 0x1fffff) = 2048`
commands; `DIV_ROUND_UP` adds `max_bytes - 1` in 32 bits, the sum wraps, and
`amdgpu_copy_buffer` submits a job that holds no copy command. -/
theorem copy_buffer_round_up_wraps :
    (0xFFFFF000 + 0x1fffff - 1) / 0x1fffff = 2048 ∧
    DIV_ROUND_UP 0xFFFFF000 0x1fffff = 0 ∧
    amdgpu_copy_buffer env_ok (World.mk (sample_vram_bo 0) sample_adev []) 0 0x100000000
        0xFFFFF000 true false =
      .ok (0,
        World.mk (sample_vram_bo 0) sample_adev
          [Event.job_alloc 0 0, Event.sync_resv 0, Event.job_submit 0 1],
        some 1) ∧
    copy_commands [Event.job_alloc 0 0, Event.sync_resv 0, Event.job_submit 0 1] = [] := by
  refine ⟨by norm_num, by decide, rfl, rfl⟩

/-- C10, the code at the failing input. A 4 GiB buffer in one VRAM node (pages
`0 .. 0xFFFFF`, all bytes 1) is blitted to another node (pages `0x100000 ..
0x1FFFFF`, all bytes 0) and back. Both moves succeed and are committed by
`ttm_bo_pipeline_move`, yet `cur_pages * PAGE_SIZE = 2 ^ 32` is cut to the
`uint32_t` parameter `byte_count = 0`: no copy command is issued, and the
first byte of the buffer in the second node is still 0, not the 1 of the
first node. -/
theorem move_blit_4g_node_copies_nothing :
    ∃ w1 nm1 w2 nm2,
      amdgpu_move_blit env_ok 4 false (World.mk sample_4g_bo sample_adev [])
        (sample_4g_mem 0x100000) = .ok (0, w1, nm1) ∧
      w1.abo.tbo.mem = sample_4g_mem 0x100000 ∧
      amdgpu_move_blit env_ok 4 false w1 (sample_4g_mem 0) = .ok (0, w2, nm2) ∧
      w2.abo.tbo.mem = sample_4g_mem 0 ∧
      copy_commands w2.trace = [] ∧
      exec_trace sample_memory w2.trace 0 = 1 ∧
      exec_trace sample_memory w2.trace 0x100000000 = 0 := by
  refine ⟨_, _, _, _, rfl, rfl, rfl, rfl, rfl, rfl, rfl⟩

/-! ### What the copy loop does below the wrap -/

theorem copy_commands_append (xs ys : List Event) :
    copy_commands (xs ++ ys) = copy_commands xs ++ copy_commands ys := by
  induction xs with
  | nil => rfl
  | cons x xs ih => cases x <;> simp [copy_commands, ih]

/-- Below the 32-bit wrap `DIV_ROUND_UP` is the ceiling of the quotient. -/
theorem DIV_ROUND_UP_no_wrap (n d : Nat) (h : n + d - 1 < U32) :
    DIV_ROUND_UP n d = (n + d - 1) / d := by
  unfold DIV_ROUND_UP
  rw [Nat.mod_eq_of_lt h]

/-- Lengths of the commands the loop of `amdgpu_copy_buffer` emits when it
runs the ceiling number of times: `byte_count / max_bytes` commands of
`max_bytes` bytes, then one command for the remainder if there is one. -/
theorem copy_buffer_loop_lengths (max_bytes : Nat) (hmax : 0 < max_bytes) (n : Nat) :
    ∀ (src dst byte_count : Nat), n = (byte_count + max_bytes - 1) / max_bytes →
      (copy_commands (copy_buffer_loop max_bytes n src dst byte_count)).map (fun c => c.2.2) =
        List.replicate (byte_count / max_bytes) max_bytes ++
          (if byte_count % max_bytes = 0 then [] else [byte_count % max_bytes]) := by
  induction n with
  | zero =>
    intro src dst byte_count hn
    have h0 : byte_count = 0 := by
      by_contra hb
      have h1 : max_bytes ≤ byte_count + max_bytes - 1 := by omega
      have h2 := Nat.div_le_div_right (c := max_bytes) h1
      rw [Nat.div_self hmax] at h2
      omega
    subst h0
    simp [copy_buffer_loop, copy_commands]
  | succ n ih =>
    intro src dst byte_count hn
    simp only [copy_buffer_loop, copy_commands, List.map_cons]
    by_cases hlt : byte_count < max_bytes
    · have hn0 : n = 0 := by
        have h1 : (byte_count + max_bytes - 1) / max_bytes ≤ 1 := by
          rw [Nat.div_le_iff_le_mul_add_pred hmax]; omega
        omega
      have hb : byte_count ≠ 0 := by
        intro h0
        subst h0
        have h1 : (0 + max_bytes - 1) / max_bytes = 0 := Nat.div_eq_of_lt (by omega)
        omega
      subst hn0
      have hmin : min byte_count max_bytes = byte_count := min_eq_left (by omega)
      simp [copy_buffer_loop, copy_commands, hmin, Nat.div_eq_of_lt hlt, Nat.mod_eq_of_lt hlt, hb]
    · have hge : max_bytes ≤ byte_count := by omega
      have hmin : min byte_count max_bytes = max_bytes := min_eq_right hge
      rw [hmin]
      have hdiv : (byte_count + max_bytes - 1) / max_bytes =
          (byte_count - max_bytes + max_bytes - 1) / max_bytes + 1 := by
        have h1 : byte_count + max_bytes - 1 = (byte_count - max_bytes + max_bytes - 1) + max_bytes := by
          omega
        rw [h1, Nat.add_div_right _ hmax]
      have hn2 : n = (byte_count - max_bytes + max_bytes - 1) / max_bytes := by omega
      rw [ih _ _ (byte_count - max_bytes) hn2]
      have hq : byte_count / max_bytes = (byte_count - max_bytes) / max_bytes + 1 := by
        have h1 : byte_count = (byte_count - max_bytes) + max_bytes := by omega
        conv_lhs => rw [h1]
        rw [Nat.add_div_right _ hmax]
      have hr : byte_count % max_bytes = (byte_count - max_bytes) % max_bytes := by
        have h1 : byte_count = (byte_count - max_bytes) + max_bytes := by omega
        conv_lhs => rw [h1]
        rw [Nat.add_mod_right]
      rw [hq, hr, List.replicate_succ, List.cons_append]

/-- Below the wrap (`byte_count + copy_max_bytes - 1 < 2 ^ 32`) and with a job
that is allocated, synchronised and submitted, `amdgpu_copy_buffer` returns 0
after emitting `byte_count / copy_max_bytes` commands of `copy_max_bytes`
bytes and, if `byte_count` is no multiple of the limit, one last command of
the remainder: the ceiling number of commands, none longer than the limit. -/
theorem copy_buffer_below_wrap (env : Env) (w : World) (funcs : amdgpu_buffer_funcs)
    (src_offset dst_offset byte_count : Nat) (resv : Bool)
    (hfuncs : w.adev.mman.buffer_funcs = some funcs) (hmax : 0 < funcs.copy_max_bytes)
    (hmax32 : funcs.copy_max_bytes < U32)
    (hcount : byte_count + funcs.copy_max_bytes - 1 < U32)
    (halloc : ∀ h n, env.amdgpu_job_alloc_with_ib h n = 0)
    (hsync : ∀ h, env.amdgpu_sync_resv h = 0)
    (hsubmit : ∀ h, (env.amdgpu_job_submit h).1 = 0) :
    ∃ w1 fence,
      amdgpu_copy_buffer env w src_offset dst_offset byte_count resv false =
        .ok (0, w1, some fence) ∧
      ∃ cmds, copy_commands w1.trace = copy_commands w.trace ++ cmds ∧
        cmds.map (fun c => c.2.2) =
          List.replicate (byte_count / funcs.copy_max_bytes) funcs.copy_max_bytes ++
            (if byte_count % funcs.copy_max_bytes = 0 then []
              else [byte_count % funcs.copy_max_bytes]) := by
  have hb : byte_count % U32 = byte_count := Nat.mod_eq_of_lt (by omega)
  have hm : funcs.copy_max_bytes % U32 = funcs.copy_max_bytes := Nat.mod_eq_of_lt hmax32
  have hm0 : funcs.copy_max_bytes ≠ 0 := by omega
  unfold amdgpu_copy_buffer
  simp only [hfuncs, hb, hm, hm0, if_false, halloc, hsync, hsubmit, ne_eq, not_true_eq_false,
    ite_self, Bool.false_eq_true]
  refine ⟨_, _, rfl, _, ?_, copy_buffer_loop_lengths funcs.copy_max_bytes hmax _ (src_offset % U64)
      (dst_offset % U64) byte_count (DIV_ROUND_UP_no_wrap _ _ hcount)⟩
  cases resv <;> simp [copy_commands_append, copy_commands]

/-! ### Memory after the copy commands, below the wrap -/

theorem exec_trace_append (xs ys : List Event) :
    ∀ m : Nat → Nat, exec_trace m (xs ++ ys) = exec_trace (exec_trace m xs) ys := by
  induction xs with
  | nil => intro m; rfl
  | cons x xs ih => intro m; cases x <;> simp [exec_trace, ih]

theorem exec_copy_zero (m : Nat → Nat) (src dst : Nat) : exec_copy m src dst 0 = m := by
  funext a
  simp [exec_copy]

/-- Two copies in a row, the second continuing where the first stopped, are
one copy of the joined length when source and destination do not overlap. -/
theorem exec_copy_split (m : Nat → Nat) (src dst len cur : Nat) (hcur : cur ≤ len)
    (hdisj : src + len ≤ dst ∨ dst + len ≤ src) :
    exec_copy (exec_copy m src dst cur) (src + cur) (dst + cur) (len - cur) =
      exec_copy m src dst len := by
  funext a
  unfold exec_copy
  by_cases h1 : dst + cur ≤ a ∧ a < dst + cur + (len - cur)
  · have h2 : dst ≤ a ∧ a < dst + len := by omega
    have h3 : ¬ (dst ≤ src + cur + (a - (dst + cur)) ∧ src + cur + (a - (dst + cur)) < dst + cur) := by
      omega
    have h4 : src + cur + (a - (dst + cur)) = src + (a - dst) := by omega
    rw [h4] at h3
    simp only [h1, h2, h3, and_self, if_true, if_false, h4]
  · by_cases h2 : dst ≤ a ∧ a < dst + cur
    · have h3 : dst ≤ a ∧ a < dst + len := by omega
      simp only [h1, h2, h3, and_self, if_true, if_false]
    · have h3 : ¬ (dst ≤ a ∧ a < dst + len) := by omega
      simp only [h1, h2, h3, if_false]

/-- The commands of the loop of `amdgpu_copy_buffer`, run in order, are one
copy of `byte_count` bytes, provided the loop runs often enough, no address
wraps and source and destination do not overlap. -/
theorem exec_copy_buffer_loop (max_bytes : Nat) (hmax : 0 < max_bytes) (n : Nat) :
    ∀ (src dst byte_count : Nat) (m : Nat → Nat), byte_count ≤ n * max_bytes →
      src + byte_count < U64 → dst + byte_count < U64 →
      (src + byte_count ≤ dst ∨ dst + byte_count ≤ src) →
      exec_trace m (copy_buffer_loop max_bytes n src dst byte_count) =
        exec_copy m src dst byte_count := by
  induction n with
  | zero =>
    intro src dst byte_count m hn _ _ _
    have h0 : byte_count = 0 := by omega
    subst h0
    simp [copy_buffer_loop, exec_trace, exec_copy_zero]
  | succ n ih =>
    intro src dst byte_count m hn hs hd hdisj
    have hcur : min byte_count max_bytes ≤ byte_count := min_le_left _ _
    have hs2 : (src + min byte_count max_bytes) % U64 = src + min byte_count max_bytes :=
      Nat.mod_eq_of_lt (by omega)
    have hd2 : (dst + min byte_count max_bytes) % U64 = dst + min byte_count max_bytes :=
      Nat.mod_eq_of_lt (by omega)
    simp only [copy_buffer_loop, exec_trace, hs2, hd2]
    have hrest : byte_count - min byte_count max_bytes ≤ n * max_bytes := by
      rcases le_total byte_count max_bytes with h | h
      · rw [min_eq_left h]; omega
      · rw [min_eq_right h]
        have : (n + 1) * max_bytes = n * max_bytes + max_bytes := by ring
        omega
    rw [ih _ _ _ _ hrest (by omega) (by omega) (by omega)]
    exact exec_copy_split m src dst byte_count _ hcur hdisj

theorem le_div_round_up_mul (n d : Nat) (hd : 0 < d) : n ≤ (n + d - 1) / d * d := by
  have h := Nat.lt_div_mul_add (a := n + d - 1) hd
  omega

/-- One call of `amdgpu_copy_buffer` below the wrap, with a scheduler that
never refuses: it returns 0 and a fence, leaves buffer and device alone, and
what it adds to the list of calls acts on memory as one copy of `byte_count`
bytes from `src_offset` to `dst_offset`. -/
theorem copy_buffer_exec (env : Env) (w : World) (funcs : amdgpu_buffer_funcs)
    (src_offset dst_offset byte_count : Nat) (resv : Bool)
    (hfuncs : w.adev.mman.buffer_funcs = some funcs) (hmax : 0 < funcs.copy_max_bytes)
    (hmax32 : funcs.copy_max_bytes < U32)
    (hcount : byte_count + funcs.copy_max_bytes - 1 < U32) (henv : env_jobs_succeed env)
    (hsrc : src_offset + byte_count < U64) (hdst : dst_offset + byte_count < U64)
    (hdisj : src_offset + byte_count ≤ dst_offset ∨ dst_offset + byte_count ≤ src_offset) :
    ∃ w1 fence,
      amdgpu_copy_buffer env w src_offset dst_offset byte_count resv false =
        .ok (0, w1, some fence) ∧
      w1.abo = w.abo ∧ w1.adev = w.adev ∧
      ∃ evs, w1.trace = w.trace ++ evs ∧
        ∀ m, exec_trace m evs = exec_copy m src_offset dst_offset byte_count := by
  obtain ⟨halloc, hsync, hsubmit⟩ := henv
  have hb : byte_count % U32 = byte_count := Nat.mod_eq_of_lt (by omega)
  have hm : funcs.copy_max_bytes % U32 = funcs.copy_max_bytes := Nat.mod_eq_of_lt hmax32
  have hm0 : funcs.copy_max_bytes ≠ 0 := by omega
  have hs : src_offset % U64 = src_offset := Nat.mod_eq_of_lt (by omega)
  have hd : dst_offset % U64 = dst_offset := Nat.mod_eq_of_lt (by omega)
  have hloop : ∀ m, exec_trace m (copy_buffer_loop funcs.copy_max_bytes
      (DIV_ROUND_UP byte_count funcs.copy_max_bytes) src_offset dst_offset byte_count) =
      exec_copy m src_offset dst_offset byte_count := by
    intro m
    apply exec_copy_buffer_loop _ hmax _ _ _ _ _ _ hsrc hdst hdisj
    rw [DIV_ROUND_UP_no_wrap _ _ hcount]
    exact le_div_round_up_mul _ _ hmax
  unfold amdgpu_copy_buffer
  simp only [hfuncs, hb, hm, hm0, hs, hd, if_false, halloc, hsync, hsubmit, ne_eq,
    not_true_eq_false, ite_self, Bool.false_eq_true]
  refine ⟨_, _, rfl, ?_, ?_, ?_⟩
  · cases resv <;> rfl
  · cases resv <;> rfl
  · cases resv
    · simp only [Bool.false_eq_true, if_false, List.append_assoc]
      refine ⟨_, rfl, ?_⟩
      intro m
      rw [exec_trace_append, exec_trace_append]
      simp only [exec_trace, hloop]
    · simp only [if_true, List.append_assoc]
      refine ⟨_, rfl, ?_⟩
      intro m
      rw [exec_trace_append, exec_trace_append, exec_trace_append]
      simp only [exec_trace, hloop]

/-! ### The walk of `amdgpu_move_blit` over two VRAM node lists -/

theorem mm_node_addr_vram_eq (w : World) (mem : ttm_mem_reg) (i : Nat)
    (nodes : List drm_mm_node) (node : drm_mm_node) (man : ttm_mem_type_manager)
    (hn : mem.mm_node = some nodes) (hi : nodes.get? i = some node)
    (hman : w.adev.mman.man.get? mem.mem_type = some man)
    (hfit : node_lo man.gpu_offset node < U64) :
    mm_node_addr_vram w i mem = .ok (node_lo man.gpu_offset node) := by
  unfold mm_node_addr_vram mm_node_at
  simp only [hn, hi, hman]
  unfold node_lo at hfit ⊢
  have h1 : node.start <<< PAGE_SHIFT = node.start * PAGE_SIZE := by
    rw [Nat.shiftLeft_eq]; rfl
  have h2 : node.start * PAGE_SIZE % U64 = node.start * PAGE_SIZE :=
    Nat.mod_eq_of_lt (by omega)
  rw [h1, h2, Nat.mod_eq_of_lt hfit]

theorem drop_eq_cons_get (xs : List drm_mm_node) (i : Nat) (x : drm_mm_node)
    (rest : List drm_mm_node) (h : xs.drop i = x :: rest) :
    xs.get? i = some x ∧ xs.drop (i + 1) = rest := by
  constructor
  · have := List.getElem?_drop (L := xs) (i := i) (j := 0)
    rw [h] at this
    simpa using this.symm
  · have h2 : xs.drop (i + 1) = (xs.drop i).drop 1 := by
      rw [List.drop_drop]
    rw [h2, h]
    rfl

theorem nodes_pages_cons (x : drm_mm_node) (xs : List drm_mm_node) :
    nodes_pages (x :: xs) = x.size + nodes_pages xs := by
  simp [nodes_pages]

/-- The source cursor after a chunk of `cur` pages, when pages remain: the
step succeeds, changes neither world nor destination cursor, and the cursor
stands at the head of the advanced list. -/
theorem advance_old_vram (env : Env) (w : World) (v : blit_vars) (A EA : List drm_mm_node)
    (man : ttm_mem_type_manager) (max_bytes cur : Nat)
    (htype : w.abo.tbo.mem.mem_type = TTM_PL_VRAM) (hA : w.abo.tbo.mem.mm_node = some A)
    (hman : w.adev.mman.man.get? TTM_PL_VRAM = some man)
    (hside : side_at man.gpu_offset A v.old_mm v.old_start v.old_size EA)
    (hle : cur ≤ v.old_size) (hsmall : nodes_small max_bytes man.gpu_offset EA)
    (hrest : cur < nodes_pages EA) :
    ∃ v1, move_blit_advance_old env cur v w = .ok (0, v1, w) ∧
      side_at man.gpu_offset A v1.old_mm v1.old_start v1.old_size (nodes_advance cur EA) ∧
      v1.new_mm = v.new_mm ∧ v1.new_start = v.new_start ∧ v1.new_size = v.new_size ∧
      v1.num_pages = v.num_pages := by
  obtain ⟨p, hEA, haddr⟩ := hside
  subst hEA
  unfold move_blit_advance_old
  by_cases hz : v.old_size - cur = 0
  · have hcur : cur = v.old_size := by omega
    rw [nodes_pages_cons] at hrest
    simp only at hrest
    cases hd : A.drop (v.old_mm + 1) with
    | nil => rw [hd] at hrest; simp [nodes_pages] at hrest; omega
    | cons nd rest =>
      obtain ⟨hget, hdrop⟩ := drop_eq_cons_get A (v.old_mm + 1) nd rest hd
      have hnd : nd ∈ (⟨p, v.old_size⟩ : drm_mm_node) :: A.drop (v.old_mm + 1) := by
        rw [hd]; simp
      have hfit : node_lo man.gpu_offset nd < U64 := by
        have := (hsmall nd hnd).2.2
        unfold node_hi at this
        unfold node_lo
        have h5 : nd.start * PAGE_SIZE ≤ (nd.start + nd.size) * PAGE_SIZE :=
          Nat.mul_le_mul_right _ (by omega)
        omega
      have haddr2 := mm_node_addr_vram_eq w w.abo.tbo.mem (v.old_mm + 1) A nd man hA hget
        (by rw [htype]; exact hman) hfit
      have hTT : ¬ (TTM_PL_VRAM = TTM_PL_TT) := by decide
      refine ⟨{ v with old_mm := v.old_mm + 1, old_start := node_lo man.gpu_offset nd,
                        old_size := nd.size }, ?_, ?_, rfl, rfl, rfl, rfl⟩
      · simp only [hz, if_true, old_mm_node_addr, amdgpu_mm_node_addr, hTT, if_false, htype,
          haddr2, ne_eq, not_true_eq_false, mm_node_at, hA, hget]
      · refine ⟨nd.start, ?_, rfl⟩
        simp only [nodes_advance, hz, if_true, hd]
        rw [← hdrop]
  · refine ⟨{ v with old_size := v.old_size - cur,
                      old_start := (v.old_start + (cur * PAGE_SIZE) % U64) % U64 }, ?_, ?_,
      rfl, rfl, rfl, rfl⟩
    · simp only [hz, if_false]
    · refine ⟨p + cur, ?_, ?_⟩
      · simp only [nodes_advance, hz, if_false]
      · have hhi := (hsmall ⟨p, v.old_size⟩ (List.mem_cons_self _ _)).2.2
        unfold node_hi at hhi
        simp only at hhi ⊢
        have h1 : (p + cur) * PAGE_SIZE ≤ (p + v.old_size) * PAGE_SIZE :=
          Nat.mul_le_mul_right _ (by omega)
        have h2 : (p + cur) * PAGE_SIZE = p * PAGE_SIZE + cur * PAGE_SIZE := by ring
        have h3 : cur * PAGE_SIZE % U64 = cur * PAGE_SIZE := Nat.mod_eq_of_lt (by omega)
        have h4 : (p * PAGE_SIZE + man.gpu_offset + cur * PAGE_SIZE) % U64 =
            p * PAGE_SIZE + man.gpu_offset + cur * PAGE_SIZE := Nat.mod_eq_of_lt (by omega)
        rw [haddr, h3, h4]
        omega

/-- The destination cursor after a chunk of `cur` pages, when pages remain. -/
theorem advance_new_vram (env : Env) (w : World) (v : blit_vars) (new_mem : ttm_mem_reg)
    (B EB : List drm_mm_node) (man : ttm_mem_type_manager) (max_bytes cur : Nat)
    (htype : new_mem.mem_type = TTM_PL_VRAM) (hB : new_mem.mm_node = some B)
    (hman : w.adev.mman.man.get? TTM_PL_VRAM = some man)
    (hside : side_at man.gpu_offset B v.new_mm v.new_start v.new_size EB)
    (hle : cur ≤ v.new_size) (hsmall : nodes_small max_bytes man.gpu_offset EB)
    (hrest : cur < nodes_pages EB) :
    ∃ v1, move_blit_advance_new env cur v w new_mem = .ok (0, v1, w, new_mem) ∧
      side_at man.gpu_offset B v1.new_mm v1.new_start v1.new_size (nodes_advance cur EB) ∧
      v1.old_mm = v.old_mm ∧ v1.old_start = v.old_start ∧ v1.old_size = v.old_size ∧
      v1.num_pages = v.num_pages := by
  obtain ⟨p, hEB, haddr⟩ := hside
  subst hEB
  unfold move_blit_advance_new
  by_cases hz : v.new_size - cur = 0
  · have hcur : cur = v.new_size := by omega
    rw [nodes_pages_cons] at hrest
    simp only at hrest
    cases hd : B.drop (v.new_mm + 1) with
    | nil => rw [hd] at hrest; simp [nodes_pages] at hrest; omega
    | cons nd rest =>
      obtain ⟨hget, hdrop⟩ := drop_eq_cons_get B (v.new_mm + 1) nd rest hd
      have hnd : nd ∈ (⟨p, v.new_size⟩ : drm_mm_node) :: B.drop (v.new_mm + 1) := by
        rw [hd]; simp
      have hfit : node_lo man.gpu_offset nd < U64 := by
        have := (hsmall nd hnd).2.2
        unfold node_hi at this
        unfold node_lo
        have h5 : nd.start * PAGE_SIZE ≤ (nd.start + nd.size) * PAGE_SIZE :=
          Nat.mul_le_mul_right _ (by omega)
        omega
      have haddr2 := mm_node_addr_vram_eq w new_mem (v.new_mm + 1) B nd man hB hget
        (by rw [htype]; exact hman) hfit
      have hTT : ¬ (TTM_PL_VRAM = TTM_PL_TT) := by decide
      refine ⟨{ v with new_mm := v.new_mm + 1, new_start := node_lo man.gpu_offset nd,
                        new_size := nd.size }, ?_, ?_, rfl, rfl, rfl, rfl⟩
      · simp only [hz, if_true, amdgpu_mm_node_addr, hTT, if_false, htype,
          haddr2, ne_eq, not_true_eq_false, mm_node_at, hB, hget]
      · refine ⟨nd.start, ?_, rfl⟩
        simp only [nodes_advance, hz, if_true, hd]
        rw [← hdrop]
  · refine ⟨{ v with new_size := v.new_size - cur,
                      new_start := (v.new_start + (cur * PAGE_SIZE) % U64) % U64 }, ?_, ?_,
      rfl, rfl, rfl, rfl⟩
    · simp only [hz, if_false]
    · refine ⟨p + cur, ?_, ?_⟩
      · simp only [nodes_advance, hz, if_false]
      · have hhi := (hsmall ⟨p, v.new_size⟩ (List.mem_cons_self _ _)).2.2
        unfold node_hi at hhi
        simp only at hhi ⊢
        have h1 : (p + cur) * PAGE_SIZE ≤ (p + v.new_size) * PAGE_SIZE :=
          Nat.mul_le_mul_right _ (by omega)
        have h2 : (p + cur) * PAGE_SIZE = p * PAGE_SIZE + cur * PAGE_SIZE := by ring
        have h3 : cur * PAGE_SIZE % U64 = cur * PAGE_SIZE := Nat.mod_eq_of_lt (by omega)
        have h4 : (p * PAGE_SIZE + man.gpu_offset + cur * PAGE_SIZE) % U64 =
            p * PAGE_SIZE + man.gpu_offset + cur * PAGE_SIZE := Nat.mod_eq_of_lt (by omega)
        rw [haddr, h3, h4]
        omega

/-! ### Facts about advanced node lists and byte addresses -/

theorem nodes_advance_pages (cur : Nat) (x : drm_mm_node) (xs : List drm_mm_node)
    (h : cur ≤ x.size) : nodes_pages (nodes_advance cur (x :: xs)) = nodes_pages (x :: xs) - cur := by
  unfold nodes_advance
  by_cases hz : x.size - cur = 0
  · simp only [hz, if_true, nodes_pages_cons]; omega
  · simp only [hz, if_false, nodes_pages_cons]; omega

/-- Every node of the advanced list lies inside a node of the list, and is
non-empty when those are. -/
theorem nodes_advance_within (g cur : Nat) (x : drm_mm_node) (xs : List drm_mm_node)
    (h : cur ≤ x.size) :
    ∀ y ∈ nodes_advance cur (x :: xs),
      (y ∈ xs) ∨ (node_lo g x + cur * PAGE_SIZE = node_lo g y ∧ node_hi g y = node_hi g x ∧
        0 < y.size ∧ y.size ≤ x.size) := by
  intro y hy
  unfold nodes_advance at hy
  by_cases hz : x.size - cur = 0
  · simp only [hz, if_true] at hy
    exact Or.inl hy
  · simp only [hz, if_false, List.mem_cons] at hy
    rcases hy with hy | hy
    · right
      subst hy
      unfold node_lo node_hi
      simp only
      have h1 : x.start + cur + (x.size - cur) = x.start + x.size := by omega
      rw [h1]
      refine ⟨by ring, rfl, by omega, by omega⟩
    · exact Or.inl hy

theorem nodes_advance_small (max_bytes g cur : Nat) (x : drm_mm_node) (xs : List drm_mm_node)
    (h : cur ≤ x.size) (hs : nodes_small max_bytes g (x :: xs)) :
    nodes_small max_bytes g (nodes_advance cur (x :: xs)) := by
  intro y hy
  rcases nodes_advance_within g cur x xs h y hy with hin | ⟨_, hhi, hpos, hle⟩
  · exact hs y (List.mem_cons_of_mem _ hin)
  · obtain ⟨_, h2, h3⟩ := hs x (List.mem_cons_self _ _)
    refine ⟨hpos, ?_, by rw [hhi]; exact h3⟩
    have : y.size * PAGE_SIZE ≤ x.size * PAGE_SIZE := Nat.mul_le_mul_right _ hle
    omega

theorem nodes_advance_length (cur : Nat) (x : drm_mm_node) (xs : List drm_mm_node) :
    (nodes_advance cur (x :: xs)).length ≤ (x :: xs).length ∧
      (x.size - cur = 0 → (nodes_advance cur (x :: xs)).length = xs.length) := by
  unfold nodes_advance
  by_cases hz : x.size - cur = 0
  · simp [hz]
  · simp [hz]

theorem phys_advance (g cur : Nat) (x : drm_mm_node) (xs : List drm_mm_node) (j : Nat)
    (h : cur ≤ x.size) (hj : cur * PAGE_SIZE ≤ j) :
    phys g (x :: xs) j = phys g (nodes_advance cur (x :: xs)) (j - cur * PAGE_SIZE) := by
  unfold nodes_advance
  by_cases hz : x.size - cur = 0
  · have hc : cur = x.size := by omega
    subst hc
    have : ¬ j < x.size * PAGE_SIZE := by omega
    simp only [hz, if_true, phys, this, if_false]
  · simp only [hz, if_false, phys]
    have hmul : (x.size - cur) * PAGE_SIZE = x.size * PAGE_SIZE - cur * PAGE_SIZE :=
      Nat.sub_mul _ _ _
    have hle : cur * PAGE_SIZE ≤ x.size * PAGE_SIZE := Nat.mul_le_mul_right _ h
    by_cases hlt : j < x.size * PAGE_SIZE
    · have h2 : j - cur * PAGE_SIZE < (x.size - cur) * PAGE_SIZE := by omega
      simp only [hlt, h2, if_true]
      unfold node_lo
      simp only
      have h3 : (x.start + cur) * PAGE_SIZE = x.start * PAGE_SIZE + cur * PAGE_SIZE := by ring
      omega
    · have h2 : ¬ j - cur * PAGE_SIZE < (x.size - cur) * PAGE_SIZE := by omega
      simp only [hlt, h2, if_false]
      congr 1
      omega

/-- Below the size of the buffer, `phys` lands inside one of the nodes. -/
theorem phys_in_node (g : Nat) :
    ∀ (nodes : List drm_mm_node) (j : Nat), j < nodes_pages nodes * PAGE_SIZE →
      ∃ y ∈ nodes, node_lo g y ≤ phys g nodes j ∧ phys g nodes j < node_hi g y := by
  intro nodes
  induction nodes with
  | nil => intro j hj; simp [nodes_pages] at hj
  | cons x xs ih =>
    intro j hj
    rw [nodes_pages_cons, Nat.add_mul] at hj
    by_cases hlt : j < x.size * PAGE_SIZE
    · refine ⟨x, List.mem_cons_self _ _, ?_⟩
      simp only [phys, hlt, if_true]
      unfold node_hi node_lo
      have : (x.start + x.size) * PAGE_SIZE = x.start * PAGE_SIZE + x.size * PAGE_SIZE := by ring
      omega
    · obtain ⟨y, hy, h1, h2⟩ := ih (j - x.size * PAGE_SIZE) (by omega)
      refine ⟨y, List.mem_cons_of_mem _ hy, ?_⟩
      simp only [phys, hlt, if_false]
      exact ⟨h1, h2⟩

theorem exec_copy_inside (m : Nat → Nat) (src dst len j : Nat) (hj : j < len) :
    exec_copy m src dst len (dst + j) = m (src + j) := by
  unfold exec_copy
  have h : dst ≤ dst + j ∧ dst + j < dst + len := by omega
  simp only [h, and_self, if_true, Nat.add_sub_cancel_left]

theorem exec_copy_outside (m : Nat → Nat) (src dst len a : Nat) (ha : a < dst ∨ dst + len ≤ a) :
    exec_copy m src dst len a = m a := by
  unfold exec_copy
  have h : ¬ (dst ≤ a ∧ a < dst + len) := by omega
  simp only [h, if_false]

theorem node_hi_eq (g : Nat) (x : drm_mm_node) :
    node_hi g x = node_lo g x + x.size * PAGE_SIZE := by
  unfold node_hi node_lo
  ring

/-- The first chunk of a walk: its `cur` pages are the first bytes of both
lists, its destination lies in no node of the advanced destination list, and
it touches no byte of the source list. -/
theorem first_chunk_facts (g cur : Nat) (a b : drm_mm_node) (ta tb : List drm_mm_node)
    (hca : cur ≤ a.size) (hcb : cur ≤ b.size)
    (hapart : ∀ x ∈ a :: ta, ∀ y ∈ b :: tb, node_apart g x y)
    (hpair : (b :: tb).Pairwise (node_apart g))
    (hposb : ∀ y ∈ b :: tb, 0 < y.size) :
    (∀ j, j < cur * PAGE_SIZE → phys g (a :: ta) j = node_lo g a + j ∧
      phys g (b :: tb) j = node_lo g b + j) ∧
    (∀ j, j < cur * PAGE_SIZE → outside g (nodes_advance cur (b :: tb)) (node_lo g b + j)) ∧
    (∀ x ∈ a :: ta, ∀ c, node_lo g x ≤ c → c < node_hi g x →
      c < node_lo g b ∨ node_lo g b + cur * PAGE_SIZE ≤ c) ∧
    (∀ c, outside g (b :: tb) c → c < node_lo g b ∨ node_lo g b + cur * PAGE_SIZE ≤ c) := by
  have hla : cur * PAGE_SIZE ≤ a.size * PAGE_SIZE := Nat.mul_le_mul_right _ hca
  have hlb : cur * PAGE_SIZE ≤ b.size * PAGE_SIZE := Nat.mul_le_mul_right _ hcb
  refine ⟨?_, ?_, ?_, ?_⟩
  · intro j hj
    have h1 : j < a.size * PAGE_SIZE := by omega
    have h2 : j < b.size * PAGE_SIZE := by omega
    simp only [phys, h1, h2, if_true, and_self]
  · intro j hj y hy
    rcases nodes_advance_within g cur b tb hcb y hy with hin | ⟨hlo, _, _, _⟩
    · have hap := (List.pairwise_cons.1 hpair).1 y hin
      have hpy := hposb y (List.mem_cons_of_mem _ hin)
      have hyy := node_hi_eq g y
      have hbb := node_hi_eq g b
      have : 0 < y.size * PAGE_SIZE := Nat.mul_pos hpy (by decide)
      rcases hap with h | h
      · left; omega
      · right; omega
    · left; omega
  · intro x hx c h1 h2
    have hap := hapart x hx b (List.mem_cons_self _ _)
    have hbb := node_hi_eq g b
    rcases hap with h | h
    · left; omega
    · right; omega
  · intro c hc
    have := hc b (List.mem_cons_self _ _)
    have hbb := node_hi_eq g b
    rcases this with h | h
    · left; exact h
    · right; omega

theorem nodes_advance_sub (g cur : Nat) (x : drm_mm_node) (xs : List drm_mm_node)
    (h : cur ≤ x.size) :
    ∀ y ∈ nodes_advance cur (x :: xs),
      ∃ z ∈ x :: xs, node_lo g z ≤ node_lo g y ∧ node_hi g y ≤ node_hi g z := by
  intro y hy
  rcases nodes_advance_within g cur x xs h y hy with hin | ⟨hlo, hhi, _, _⟩
  · exact ⟨y, List.mem_cons_of_mem _ hin, le_refl _, le_refl _⟩
  · exact ⟨x, List.mem_cons_self _ _, by omega, by omega⟩

theorem node_apart_mono (g : Nat) (z z1 y y1 : drm_mm_node)
    (h1 : node_lo g z ≤ node_lo g y) (h2 : node_hi g y ≤ node_hi g z)
    (h3 : node_lo g z1 ≤ node_lo g y1) (h4 : node_hi g y1 ≤ node_hi g z1)
    (h : node_apart g z z1) : node_apart g y y1 := by
  unfold node_apart at h ⊢
  omega

theorem nodes_advance_apart (g cur : Nat) (a b : drm_mm_node) (ta tb : List drm_mm_node)
    (hca : cur ≤ a.size) (hcb : cur ≤ b.size)
    (hapart : ∀ x ∈ a :: ta, ∀ y ∈ b :: tb, node_apart g x y) :
    ∀ x ∈ nodes_advance cur (a :: ta), ∀ y ∈ nodes_advance cur (b :: tb), node_apart g x y := by
  intro x hx y hy
  obtain ⟨z, hz, h1, h2⟩ := nodes_advance_sub g cur a ta hca x hx
  obtain ⟨z1, hz1, h3, h4⟩ := nodes_advance_sub g cur b tb hcb y hy
  exact node_apart_mono g z z1 x y h1 h2 h3 h4 (hapart z hz z1 hz1)

theorem nodes_advance_pairwise (g cur : Nat) (b : drm_mm_node) (tb : List drm_mm_node)
    (hcb : cur ≤ b.size) (hpair : (b :: tb).Pairwise (node_apart g)) :
    (nodes_advance cur (b :: tb)).Pairwise (node_apart g) := by
  obtain ⟨hhead, htail⟩ := List.pairwise_cons.1 hpair
  unfold nodes_advance
  by_cases hz : b.size - cur = 0
  · simp only [hz, if_true]
    exact htail
  · simp only [hz, if_false]
    refine List.pairwise_cons.2 ⟨?_, htail⟩
    intro y hy
    have hlo : node_lo g b ≤ node_lo g ⟨b.start + cur, b.size - cur⟩ := by
      unfold node_lo
      simp only
      have : b.start * PAGE_SIZE ≤ (b.start + cur) * PAGE_SIZE := Nat.mul_le_mul_right _ (by omega)
      omega
    have hhi : node_hi g ⟨b.start + cur, b.size - cur⟩ ≤ node_hi g b := by
      unfold node_hi
      simp only
      have h1 : b.start + cur + (b.size - cur) = b.start + b.size := by omega
      rw [h1]
    exact node_apart_mono g b y _ y hlo hhi (le_refl _) (le_refl _) (hhead y hy)

theorem outside_advance (g cur : Nat) (b : drm_mm_node) (tb : List drm_mm_node)
    (hcb : cur ≤ b.size) (c : Nat) (h : outside g (b :: tb) c) :
    outside g (nodes_advance cur (b :: tb)) c := by
  intro y hy
  obtain ⟨z, hz, h1, h2⟩ := nodes_advance_sub g cur b tb hcb y hy
  rcases h z hz with h3 | h3
  · left; omega
  · right; omega

theorem U32_lt_U64 : U32 < U64 := by decide

/-- The loop of `amdgpu_move_blit` between two VRAM node lists, below the
32-bit limits and with a scheduler that never refuses. `EA` and `EB` are what
is left of source and destination. The loop ends with code 0 within
`|EA| + |EB| - 1` iterations, leaves buffer and device alone, holds a fence,
and the copy commands it added move byte `j` of `EA` to byte `j` of `EB`,
for every `j` below the size left, and write nowhere else. -/
theorem move_blit_loop_exec (env : Env) (funcs : amdgpu_buffer_funcs)
    (man : ttm_mem_type_manager) (A B : List drm_mm_node) (henv : env_jobs_succeed env)
    (hmax : 0 < funcs.copy_max_bytes) (hmax32 : funcs.copy_max_bytes < U32) :
    ∀ (fuel : Nat) (v : blit_vars) (w : World) (new_mem : ttm_mem_reg)
      (EA EB : List drm_mm_node),
      w.adev.mman.buffer_funcs = some funcs →
      w.adev.mman.man.get? TTM_PL_VRAM = some man →
      w.abo.tbo.mem.mem_type = TTM_PL_VRAM → w.abo.tbo.mem.mm_node = some A →
      new_mem.mem_type = TTM_PL_VRAM → new_mem.mm_node = some B →
      side_at man.gpu_offset A v.old_mm v.old_start v.old_size EA →
      side_at man.gpu_offset B v.new_mm v.new_start v.new_size EB →
      nodes_small funcs.copy_max_bytes man.gpu_offset EA →
      nodes_small funcs.copy_max_bytes man.gpu_offset EB →
      nodes_pages EA = v.num_pages → nodes_pages EB = v.num_pages → v.num_pages < U64 →
      (∀ x ∈ EA, ∀ y ∈ EB, node_apart man.gpu_offset x y) →
      EB.Pairwise (node_apart man.gpu_offset) →
      EA.length + EB.length ≤ fuel + 1 →
      ∃ v1 w1, amdgpu_move_blit_loop env fuel v w new_mem = .ok (0, v1, w1, new_mem) ∧
        w1.abo = w.abo ∧ w1.adev = w.adev ∧ (∃ f, v1.fence = some f) ∧
        ∃ evs, w1.trace = w.trace ++ evs ∧ ∀ m : Nat → Nat,
          (∀ j, j < v.num_pages * PAGE_SIZE →
            exec_trace m evs (phys man.gpu_offset EB j) = m (phys man.gpu_offset EA j)) ∧
          (∀ c, outside man.gpu_offset EB c → exec_trace m evs c = m c) := by
  intro fuel
  induction fuel with
  | zero =>
    intro v w new_mem EA EB _ _ _ _ _ _ hsa hsb _ _ _ _ _ _ _ hfuel
    obtain ⟨pa, hEA, _⟩ := hsa
    obtain ⟨pb, hEB, _⟩ := hsb
    subst hEA; subst hEB
    simp only [List.length_cons] at hfuel
    omega
  | succ f ih =>
    intro v w new_mem EA EB hfuncs hman htA hA htB hB hsa hsb hsmA hsmB hpA hpB hlt hapart hpair
      hfuel
    obtain ⟨pa, hEA, haddrA⟩ := id hsa
    obtain ⟨pb, hEB, haddrB⟩ := id hsb
    subst hEA; subst hEB
    obtain ⟨hposa, hsma, hhia⟩ := hsmA _ (List.mem_cons_self _ _)
    obtain ⟨hposb, hsmb, hhib⟩ := hsmB _ (List.mem_cons_self _ _)
    simp only at hposa hsma hposb hsmb
    rw [nodes_pages_cons] at hpA hpB
    simp only at hpA hpB
    have hca : min v.old_size v.new_size ≤ v.old_size := min_le_left _ _
    have hcb : min v.old_size v.new_size ≤ v.new_size := min_le_right _ _
    have hcpos : 0 < min v.old_size v.new_size := lt_min hposa hposb
    have hnp : v.num_pages ≠ 0 := by omega
    have hmodN : (v.num_pages + U64 - min v.old_size v.new_size) % U64 =
        v.num_pages - min v.old_size v.new_size := by
      have h1 : v.num_pages + U64 - min v.old_size v.new_size =
          (v.num_pages - min v.old_size v.new_size) + U64 := by omega
      rw [h1, Nat.add_mod_right]
      exact Nat.mod_eq_of_lt (by omega)
    have hla : min v.old_size v.new_size * PAGE_SIZE ≤ v.old_size * PAGE_SIZE :=
      Nat.mul_le_mul_right _ hca
    have hlb : min v.old_size v.new_size * PAGE_SIZE ≤ v.new_size * PAGE_SIZE :=
      Nat.mul_le_mul_right _ hcb
    have h3264 := U32_lt_U64
    have hbytes : min v.old_size v.new_size * PAGE_SIZE % U64 =
        min v.old_size v.new_size * PAGE_SIZE := Nat.mod_eq_of_lt (by omega)
    have hnhia := node_hi_eq man.gpu_offset ⟨pa, v.old_size⟩
    have hnhib := node_hi_eq man.gpu_offset ⟨pb, v.new_size⟩
    have hloa : node_lo man.gpu_offset ⟨pa, v.old_size⟩ = v.old_start := by
      rw [haddrA]; rfl
    have hlob : node_lo man.gpu_offset ⟨pb, v.new_size⟩ = v.new_start := by
      rw [haddrB]; rfl
    simp only at hnhia hnhib
    have hab := hapart _ (List.mem_cons_self _ _) _ (List.mem_cons_self _ _)
    unfold node_apart at hab
    obtain ⟨w1, fence, hcopy, habo1, hadev1, evs1, htr1, hex1⟩ :=
      copy_buffer_exec env w funcs v.old_start v.new_start
        (min v.old_size v.new_size * PAGE_SIZE) w.abo.tbo.resv hfuncs hmax hmax32 (by omega) henv
        (by omega) (by omega) (by omega)
    obtain ⟨hf1, hf2, hf3, hf4⟩ := first_chunk_facts man.gpu_offset (min v.old_size v.new_size)
      ⟨pa, v.old_size⟩ ⟨pb, v.new_size⟩ (A.drop (v.old_mm + 1)) (B.drop (v.new_mm + 1)) hca hcb
      hapart hpair (fun y hy => (hsmB y hy).1)
    rw [hloa, hlob] at hf1
    rw [hlob] at hf2 hf3 hf4
    rw [amdgpu_move_blit_loop]
    simp only [hnp, if_false, hbytes, hcopy, ne_eq, not_true_eq_false, hmodN]
    by_cases hdone : v.num_pages - min v.old_size v.new_size = 0
    · simp only [hdone, if_true]
      refine ⟨_, _, rfl, habo1, hadev1, ⟨fence, rfl⟩,
        evs1 ++ [Event.fence_put v.fence], ?_, ?_⟩
      · simp only [htr1, List.append_assoc]
      · intro m
        have hexec : exec_trace m (evs1 ++ [Event.fence_put v.fence]) =
            exec_copy m v.old_start v.new_start (min v.old_size v.new_size * PAGE_SIZE) := by
          rw [exec_trace_append, hex1]; rfl
        rw [hexec]
        constructor
        · intro j hj
          have hj2 : j < min v.old_size v.new_size * PAGE_SIZE := by
            have : v.num_pages = min v.old_size v.new_size := by omega
            rw [this] at hj; exact hj
          rw [(hf1 j hj2).1, (hf1 j hj2).2]
          exact exec_copy_inside m _ _ _ j hj2
        · intro c hc
          exact exec_copy_outside m _ _ _ c (hf4 c hc)
    · simp only [hdone, if_false]
      have hw2A : ({ w1 with trace := w1.trace ++ [Event.fence_put v.fence] } : World).abo = w.abo :=
        habo1
      have hw2D : ({ w1 with trace := w1.trace ++ [Event.fence_put v.fence] } : World).adev = w.adev :=
        hadev1
      obtain ⟨v2, hadvo, hside2, hnm, hns, hnz, hnp2⟩ :=
        advance_old_vram env { w1 with trace := w1.trace ++ [Event.fence_put v.fence] }
          { v with fence := some fence, num_pages := v.num_pages - min v.old_size v.new_size }
          A (⟨pa, v.old_size⟩ :: A.drop (v.old_mm + 1)) man funcs.copy_max_bytes
          (min v.old_size v.new_size) (by rw [hw2A]; exact htA) (by rw [hw2A]; exact hA)
          (by rw [hw2D]; exact hman) hsa hca hsmA (by rw [nodes_pages_cons]; simp only; omega)
      simp only at hnm hns hnz hnp2
      obtain ⟨v3, hadvn, hside3, hom, hos, hoz, hnp3⟩ :=
        advance_new_vram env { w1 with trace := w1.trace ++ [Event.fence_put v.fence] } v2 new_mem
          B (⟨pb, v.new_size⟩ :: B.drop (v.new_mm + 1)) man funcs.copy_max_bytes
          (min v.old_size v.new_size) htB hB (by rw [hw2D]; exact hman)
          (by rw [hnm, hns, hnz]; exact hsb) (by rw [hnz]; exact hcb) hsmB
          (by rw [nodes_pages_cons]; simp only; omega)
      have hpagesA := nodes_advance_pages (min v.old_size v.new_size) ⟨pa, v.old_size⟩
        (A.drop (v.old_mm + 1)) hca
      have hpagesB := nodes_advance_pages (min v.old_size v.new_size) ⟨pb, v.new_size⟩
        (B.drop (v.new_mm + 1)) hcb
      rw [nodes_pages_cons] at hpagesA hpagesB
      simp only at hpagesA hpagesB
      have hv3 : v3.num_pages = v.num_pages - min v.old_size v.new_size := by
        rw [hnp3, hnp2]
      have hlenA := nodes_advance_length (min v.old_size v.new_size) ⟨pa, v.old_size⟩
        (A.drop (v.old_mm + 1))
      have hlenB := nodes_advance_length (min v.old_size v.new_size) ⟨pb, v.new_size⟩
        (B.drop (v.new_mm + 1))
      simp only [List.length_cons] at hlenA hlenB hfuel
      have hfuel2 : (nodes_advance (min v.old_size v.new_size)
            (⟨pa, v.old_size⟩ :: A.drop (v.old_mm + 1))).length +
          (nodes_advance (min v.old_size v.new_size)
            (⟨pb, v.new_size⟩ :: B.drop (v.new_mm + 1))).length ≤ f + 1 := by
        rcases le_total v.old_size v.new_size with h | h
        · have h1 := hlenA.2 (by rw [min_eq_left h]; omega)
          omega
        · have h1 := hlenB.2 (by rw [min_eq_right h]; omega)
          omega
      obtain ⟨v4, w4, hloop, habo4, hadev4, hfence4, evs4, htr4, hex4⟩ :=
        ih v3 { w1 with trace := w1.trace ++ [Event.fence_put v.fence] } new_mem
          (nodes_advance (min v.old_size v.new_size) (⟨pa, v.old_size⟩ :: A.drop (v.old_mm + 1)))
          (nodes_advance (min v.old_size v.new_size) (⟨pb, v.new_size⟩ :: B.drop (v.new_mm + 1)))
          (by rw [hw2D]; exact hfuncs) (by rw [hw2D]; exact hman) (by rw [hw2A]; exact htA)
          (by rw [hw2A]; exact hA) htB hB (by rw [hom, hos, hoz]; exact hside2) hside3
          (nodes_advance_small _ _ _ _ _ hca hsmA) (nodes_advance_small _ _ _ _ _ hcb hsmB)
          (by rw [hv3, hpagesA]; omega) (by rw [hv3, hpagesB]; omega) (by rw [hv3]; omega)
          (nodes_advance_apart _ _ _ _ _ _ hca hcb hapart)
          (nodes_advance_pairwise _ _ _ _ hcb hpair) hfuel2
      unfold move_blit_advance
      simp only [hadvo, ne_eq, not_true_eq_false, if_false, hadvn, hloop]
      refine ⟨v4, w4, rfl, by rw [habo4]; exact habo1, by rw [hadev4]; exact hadev1, hfence4,
        evs1 ++ [Event.fence_put v.fence] ++ evs4, ?_, ?_⟩
      · rw [htr4]
        simp only [htr1, List.append_assoc]
      · intro m
        have hexec : exec_trace m (evs1 ++ [Event.fence_put v.fence] ++ evs4) =
            exec_trace (exec_copy m v.old_start v.new_start
              (min v.old_size v.new_size * PAGE_SIZE)) evs4 := by
          rw [exec_trace_append, exec_trace_append, hex1]; rfl
        rw [hexec]
        obtain ⟨hin4, hout4⟩ := hex4
          (exec_copy m v.old_start v.new_start (min v.old_size v.new_size * PAGE_SIZE))
        rw [hv3] at hin4
        constructor
        · intro j hj
          by_cases hj2 : j < min v.old_size v.new_size * PAGE_SIZE
          · rw [(hf1 j hj2).1, (hf1 j hj2).2, hout4 _ (hf2 j hj2)]
            exact exec_copy_inside m _ _ _ j hj2
          · have hj3 : min v.old_size v.new_size * PAGE_SIZE ≤ j := by omega
            have hj4 : j - min v.old_size v.new_size * PAGE_SIZE <
                (v.num_pages - min v.old_size v.new_size) * PAGE_SIZE := by
              rw [Nat.sub_mul]; omega
            rw [phys_advance _ _ _ _ j hcb hj3, phys_advance _ _ _ _ j hca hj3, hin4 _ hj4]
            obtain ⟨x, hx, hx1, hx2⟩ := phys_in_node man.gpu_offset
              (nodes_advance (min v.old_size v.new_size)
                (⟨pa, v.old_size⟩ :: A.drop (v.old_mm + 1)))
              (j - min v.old_size v.new_size * PAGE_SIZE) (by rw [hpagesA]; rw [hpA]; exact hj4)
            obtain ⟨z, hz, hz1, hz2⟩ := nodes_advance_sub man.gpu_offset _ _ _ hca x hx
            exact exec_copy_outside m _ _ _ _ (hf3 z hz _ (by omega) (by omega))
        · intro c hc
          rw [hout4 c (outside_advance _ _ _ _ hcb c hc)]
          exact exec_copy_outside m _ _ _ c (hf4 c hc)

theorem mm_node_addr_vram_ok (env : Env) (w : World) (mem : ttm_mem_reg) (i addr : Nat)
    (nodes : List drm_mm_node) (node : drm_mm_node) (man : ttm_mem_type_manager)
    (ht : mem.mem_type = TTM_PL_VRAM) (hn : mem.mm_node = some nodes)
    (hi : nodes.get? i = some node) (hman : w.adev.mman.man.get? TTM_PL_VRAM = some man)
    (hfit : node_lo man.gpu_offset node < U64) :
    amdgpu_mm_node_addr env w i mem addr = .ok (0, w, mem, node_lo man.gpu_offset node) := by
  have haddr := mm_node_addr_vram_eq w mem i nodes node man hn hi (by rw [ht]; exact hman) hfit
  have hTT : ¬ (TTM_PL_VRAM = TTM_PL_TT) := by decide
  unfold amdgpu_mm_node_addr
  simp only [ht, hTT, if_false, if_true, haddr]

theorem old_mm_node_addr_vram_ok (env : Env) (w : World) (i addr : Nat)
    (nodes : List drm_mm_node) (node : drm_mm_node) (man : ttm_mem_type_manager)
    (ht : w.abo.tbo.mem.mem_type = TTM_PL_VRAM) (hn : w.abo.tbo.mem.mm_node = some nodes)
    (hi : nodes.get? i = some node) (hman : w.adev.mman.man.get? TTM_PL_VRAM = some man)
    (hfit : node_lo man.gpu_offset node < U64) :
    old_mm_node_addr env w i addr = .ok (0, w, node_lo man.gpu_offset node) := by
  unfold old_mm_node_addr
  rw [mm_node_addr_vram_ok env w w.abo.tbo.mem i addr nodes node man ht hn hi hman hfit]

theorem mm_node_at_ok (mem : ttm_mem_reg) (i : Nat) (nodes : List drm_mm_node)
    (node : drm_mm_node) (hn : mem.mm_node = some nodes) (hi : nodes.get? i = some node) :
    mm_node_at mem i = .ok node := by
  unfold mm_node_at
  simp only [hn, hi]

/-- `amdgpu_move_blit` between two VRAM node lists `A` (the buffer) and `B`
(the request), below the 32-bit limits, ring ready, scheduler never refusing,
enough fuel: the function returns what `ttm_bo_pipeline_move` returns, and the
copy commands it issued move byte `j` of `A` to byte `j` of `B` for every `j`
of the buffer and write nowhere outside `B`. -/
theorem move_blit_exec (env : Env) (fuel : Nat) (evict : Bool) (w : World)
    (new_mem : ttm_mem_reg) (funcs : amdgpu_buffer_funcs) (man : ttm_mem_type_manager)
    (A B : List drm_mm_node) (henv : env_jobs_succeed env)
    (hring : w.adev.mman.buffer_funcs_ring = some ⟨true⟩)
    (hfuncs : w.adev.mman.buffer_funcs = some funcs)
    (hmax : 0 < funcs.copy_max_bytes) (hmax32 : funcs.copy_max_bytes < U32)
    (hman : w.adev.mman.man.get? TTM_PL_VRAM = some man)
    (htA : w.abo.tbo.mem.mem_type = TTM_PL_VRAM) (hA : w.abo.tbo.mem.mm_node = some A)
    (htB : new_mem.mem_type = TTM_PL_VRAM) (hB : new_mem.mm_node = some B)
    (hsmA : nodes_small funcs.copy_max_bytes man.gpu_offset A)
    (hsmB : nodes_small funcs.copy_max_bytes man.gpu_offset B)
    (hpA : nodes_pages A = new_mem.num_pages) (hpB : nodes_pages B = new_mem.num_pages)
    (hpos : 0 < new_mem.num_pages) (hlt : new_mem.num_pages < U64)
    (hapart : ∀ x ∈ A, ∀ y ∈ B, node_apart man.gpu_offset x y)
    (hpair : B.Pairwise (node_apart man.gpu_offset))
    (hfuel : A.length + B.length ≤ fuel + 1) :
    ∃ r w1 new_mem1, amdgpu_move_blit env fuel evict w new_mem = .ok (r, w1, new_mem1) ∧
      ∃ evs, w1.trace = w.trace ++ evs ∧ ∀ m : Nat → Nat,
        (∀ j, j < new_mem.num_pages * PAGE_SIZE →
          exec_trace m evs (phys man.gpu_offset B j) = m (phys man.gpu_offset A j)) ∧
        (∀ c, outside man.gpu_offset B c → exec_trace m evs c = m c) := by
  cases A with
  | nil => simp [nodes_pages] at hpA; omega
  | cons a ta =>
  cases B with
  | nil => simp [nodes_pages] at hpB; omega
  | cons b tb =>
  have hfa : node_lo man.gpu_offset a < U64 := by
    have h1 := (hsmA a (List.mem_cons_self _ _)).2.2
    have h2 := node_hi_eq man.gpu_offset a
    omega
  have hfb : node_lo man.gpu_offset b < U64 := by
    have h1 := (hsmB b (List.mem_cons_self _ _)).2.2
    have h2 := node_hi_eq man.gpu_offset b
    omega
  have haddrA := old_mm_node_addr_vram_ok env w 0 0 (a :: ta) a man htA hA rfl hman hfa
  have haddrB := mm_node_addr_vram_ok env w new_mem 0 0 (b :: tb) b man htB hB rfl hman hfb
  have hnodeA := mm_node_at_ok w.abo.tbo.mem 0 (a :: ta) a hA rfl
  have hnodeB := mm_node_at_ok new_mem 0 (b :: tb) b hB rfl
  obtain ⟨v1, w1, hloop, habo1, hadev1, _, evs, htr, hex⟩ :=
    move_blit_loop_exec env funcs man (a :: ta) (b :: tb) henv hmax hmax32 fuel
      ⟨0, node_lo man.gpu_offset a, a.size, 0, node_lo man.gpu_offset b, b.size,
        new_mem.num_pages, none⟩ w new_mem (a :: ta) (b :: tb) hfuncs hman htA hA htB hB
      ⟨a.start, rfl, rfl⟩ ⟨b.start, rfl, rfl⟩ hsmA hsmB hpA hpB hlt hapart hpair hfuel
  unfold amdgpu_move_blit
  simp only [hring, Bool.not_true, Bool.false_eq_true, if_false, haddrA, haddrB, hnodeA, hnodeB,
    ne_eq, not_true_eq_false, hloop]
  refine ⟨_, _, _, rfl, evs ++ [Event.pipeline_move v1.fence
    (env.ttm_bo_pipeline_move w1.trace w1.abo.tbo v1.fence evict new_mem).1,
    Event.fence_put v1.fence], ?_, ?_⟩
  · simp only [htr, List.append_assoc]
  · intro m
    have hexec : exec_trace m (evs ++ [Event.pipeline_move v1.fence
        (env.ttm_bo_pipeline_move w1.trace w1.abo.tbo v1.fence evict new_mem).1,
        Event.fence_put v1.fence]) = exec_trace m evs := by
      rw [exec_trace_append]; rfl
    rw [hexec]
    exact hex m

theorem phys_outside (g : Nat) (A B : List drm_mm_node) (j : Nat)
    (hj : j < nodes_pages B * PAGE_SIZE) (hapart : ∀ x ∈ A, ∀ y ∈ B, node_apart g x y) :
    outside g A (phys g B j) := by
  obtain ⟨y, hy, h1, h2⟩ := phys_in_node g B j hj
  intro x hx
  have := hapart x hx y hy
  unfold node_apart at this
  omega

/-- Round trip below the 32-bit limits. `A` and `B` are disjoint VRAM node
lists of `n` pages each, every node non-empty and short enough that neither
the conversion of `cur_pages * PAGE_SIZE` to `uint32_t` nor `DIV_ROUND_UP`
loses anything. The copy commands `amdgpu_move_blit` issues for `A -> B`,
followed by those it issues for `B -> A`, leave every byte of the buffer in
`A` as it was, and byte `j` of `B` equal to byte `j` of `A`, whatever memory
held before. -/
theorem move_blit_round_trip_below_limits (env : Env) (fuel : Nat) (evict : Bool)
    (wab wba : World) (to_b to_a : ttm_mem_reg) (funcs : amdgpu_buffer_funcs)
    (man : ttm_mem_type_manager) (A B : List drm_mm_node) (n : Nat)
    (henv : env_jobs_succeed env)
    (hready1 : blit_ready wab funcs man) (hready2 : blit_ready wba funcs man)
    (hbo1 : placed_in_vram wab.abo.tbo.mem A) (hreq1 : placed_in_vram to_b B)
    (hbo2 : placed_in_vram wba.abo.tbo.mem B) (hreq2 : placed_in_vram to_a A)
    (hn1 : to_b.num_pages = n) (hn2 : to_a.num_pages = n)
    (hsmA : nodes_small funcs.copy_max_bytes man.gpu_offset A)
    (hsmB : nodes_small funcs.copy_max_bytes man.gpu_offset B)
    (hpA : nodes_pages A = n) (hpB : nodes_pages B = n) (hpos : 0 < n) (hlt : n < U64)
    (hapart : ∀ x ∈ A, ∀ y ∈ B, node_apart man.gpu_offset x y)
    (hpairA : A.Pairwise (node_apart man.gpu_offset))
    (hpairB : B.Pairwise (node_apart man.gpu_offset))
    (hfuel : A.length + B.length ≤ fuel + 1) :
    ∃ r1 w1 m1 evs1 r2 w2 m2 evs2,
      amdgpu_move_blit env fuel evict wab to_b = .ok (r1, w1, m1) ∧
      w1.trace = wab.trace ++ evs1 ∧
      amdgpu_move_blit env fuel evict wba to_a = .ok (r2, w2, m2) ∧
      w2.trace = wba.trace ++ evs2 ∧
      ∀ (m : Nat → Nat) (j : Nat), j < n * PAGE_SIZE →
        exec_trace (exec_trace m evs1) evs2 (phys man.gpu_offset A j) =
          m (phys man.gpu_offset A j) ∧
        exec_trace (exec_trace m evs1) evs2 (phys man.gpu_offset B j) =
          m (phys man.gpu_offset A j) := by
  obtain ⟨hr1, hf1, hmax, hmax32, hman1⟩ := hready1
  obtain ⟨hr2, hf2, _, _, hman2⟩ := hready2
  have hapart2 : ∀ x ∈ B, ∀ y ∈ A, node_apart man.gpu_offset x y := by
    intro x hx y hy
    have := hapart y hy x hx
    unfold node_apart at this ⊢
    omega
  obtain ⟨r1, w1, m1, hrun1, evs1, htr1, hex1⟩ :=
    move_blit_exec env fuel evict wab to_b funcs man A B henv hr1 hf1 hmax hmax32 hman1
      hbo1.1 hbo1.2 hreq1.1 hreq1.2 hsmA hsmB (by rw [hn1]; exact hpA) (by rw [hn1]; exact hpB)
      (by rw [hn1]; exact hpos) (by rw [hn1]; exact hlt) hapart hpairB hfuel
  obtain ⟨r2, w2, m2, hrun2, evs2, htr2, hex2⟩ :=
    move_blit_exec env fuel evict wba to_a funcs man B A henv hr2 hf2 hmax hmax32 hman2
      hbo2.1 hbo2.2 hreq2.1 hreq2.2 hsmB hsmA (by rw [hn2]; exact hpB) (by rw [hn2]; exact hpA)
      (by rw [hn2]; exact hpos) (by rw [hn2]; exact hlt) hapart2 hpairA (by omega)
  refine ⟨r1, w1, m1, evs1, r2, w2, m2, evs2, hrun1, htr1, hrun2, htr2, ?_⟩
  intro m j hj
  rw [hn1] at hex1
  rw [hn2] at hex2
  obtain ⟨hin1, _⟩ := hex1 m
  obtain ⟨hin2, hout2⟩ := hex2 (exec_trace m evs1)
  constructor
  · rw [hin2 j hj, hin1 j hj]
  · rw [hout2 _ (phys_outside man.gpu_offset A B j (by rw [hpB]; exact hj) hapart), hin1 j hj]

/-- The round trip theorem applies: a 16-page buffer in the two fragments
0..7 and 32..39, moved to the node 64..79 and back. -/
theorem move_blit_round_trip_sample :
    ∃ r1 w1 m1 evs1 r2 w2 m2 evs2,
      amdgpu_move_blit env_ok 8 false (World.mk (sample_vram_bo 0) sample_adev [])
        (sample_mem TTM_PL_VRAM (some [⟨64, 16⟩]) 64 16) = .ok (r1, w1, m1) ∧
      w1.trace = [] ++ evs1 ∧
      amdgpu_move_blit env_ok 8 false (World.mk sample_vram_bo_moved sample_adev [])
        (sample_mem TTM_PL_VRAM (some [⟨0, 8⟩, ⟨32, 8⟩]) AMDGPU_BO_INVALID_OFFSET 16) =
          .ok (r2, w2, m2) ∧
      w2.trace = [] ++ evs2 ∧
      ∀ (m : Nat → Nat) (j : Nat), j < 16 * PAGE_SIZE →
        exec_trace (exec_trace m evs1) evs2 (phys 0 [⟨0, 8⟩, ⟨32, 8⟩] j) =
          m (phys 0 [⟨0, 8⟩, ⟨32, 8⟩] j) ∧
        exec_trace (exec_trace m evs1) evs2 (phys 0 [⟨64, 16⟩] j) =
          m (phys 0 [⟨0, 8⟩, ⟨32, 8⟩] j) :=
  move_blit_round_trip_below_limits env_ok 8 false (World.mk (sample_vram_bo 0) sample_adev [])
    (World.mk sample_vram_bo_moved sample_adev [])
    (sample_mem TTM_PL_VRAM (some [⟨64, 16⟩]) 64 16)
    (sample_mem TTM_PL_VRAM (some [⟨0, 8⟩, ⟨32, 8⟩]) AMDGPU_BO_INVALID_OFFSET 16)
    ⟨0x1fffff, 7, 0x1fffff, 5⟩ {} [⟨0, 8⟩, ⟨32, 8⟩] [⟨64, 16⟩] 16
    ⟨fun _ _ => rfl, fun _ => rfl, fun _ => rfl⟩
    ⟨rfl, rfl, by decide, by decide, rfl⟩ ⟨rfl, rfl, by decide, by decide, rfl⟩
    ⟨rfl, rfl⟩ ⟨rfl, rfl⟩ ⟨rfl, rfl⟩ ⟨rfl, rfl⟩ rfl rfl
    (by unfold nodes_small node_hi; decide) (by unfold nodes_small node_hi; decide)
    rfl rfl (by decide) (by decide)
    (by unfold node_apart node_hi node_lo; decide)
    (by unfold node_apart node_hi node_lo; decide)
    (by unfold node_apart node_hi node_lo; decide) (by decide)

/-! ### Address-space binder -/

/-- With a backing page object the flag computation never dereferences NULL. -/
theorem pte_flags_defined (adev : amdgpu_device) (gtt : amdgpu_ttm_tt) (mem : ttm_mem_reg) :
    ∃ flags, amdgpu_ttm_tt_pte_flags adev (some gtt) (some mem) = .ok flags := by
  unfold amdgpu_ttm_tt_pte_flags
  by_cases h1 : mem.mem_type = TTM_PL_TT <;>
    by_cases h2 : gtt.caching_state = ttm_caching_state.tt_cached <;>
    by_cases h3 : amdgpu_ttm_tt_is_readonly (some gtt) = true <;>
    simp [h1, h2, h3]

/-- C11. Binding is idempotent. For a buffer that has no backing page object
or is already bound, `amdgpu_ttm_bind` returns 0 and hands back world and
placement untouched: no GTT address space is allocated, no page-table entry is
written (the list of calls is the same), the bound list and the recorded GART
offset are the same. And after any call that returned 0, a second call is such
a no-op, so binding twice leaves the state binding once left. -/
theorem ttm_bind_idempotent (env : Env) (w : World) (bo_mem : ttm_mem_reg) :
    (w.abo.tbo.ttm = none ∨ amdgpu_ttm_is_bound w.abo.tbo.ttm = true →
      amdgpu_ttm_bind env w bo_mem = .ok (0, w, bo_mem)) ∧
    (∀ w1 mem1, amdgpu_ttm_bind env w bo_mem = .ok (0, w1, mem1) →
      ∀ mem2, amdgpu_ttm_bind env w1 mem2 = .ok (0, w1, mem2)) := by
  have hnoop : ∀ (w0 : World) (m0 : ttm_mem_reg),
      (w0.abo.tbo.ttm = none ∨ amdgpu_ttm_is_bound w0.abo.tbo.ttm = true) →
      amdgpu_ttm_bind env w0 m0 = .ok (0, w0, m0) := by
    intro w0 m0 h
    unfold amdgpu_ttm_bind
    cases httm : w0.abo.tbo.ttm with
    | none => rfl
    | some gtt =>
      rw [httm] at h
      rcases h with h | h
      · cases h
      · simp only [h, if_true]
  refine ⟨hnoop w bo_mem, ?_⟩
  intro w1 mem1 hrun mem2
  apply hnoop
  unfold amdgpu_ttm_bind at hrun
  cases httm : w.abo.tbo.ttm with
  | none =>
    rw [httm] at hrun
    simp only [Except.ok.injEq, Prod.mk.injEq, true_and] at hrun
    left
    rw [← hrun.1]
    exact httm
  | some gtt =>
    rw [httm] at hrun
    simp only at hrun
    split_ifs at hrun with hb ha
    · simp only [Except.ok.injEq, Prod.mk.injEq, true_and] at hrun
      right
      rw [← hrun.1, httm]
      exact hb
    · simp only [Except.ok.injEq, Prod.mk.injEq] at hrun
      exact absurd hrun.1 ha
    · obtain ⟨flags, hflags⟩ := pte_flags_defined
        ({ w with trace := w.trace ++ [Event.gtt_mgr_alloc
          (env.amdgpu_gtt_mgr_alloc w.trace w.abo.tbo bo_mem).1] } : World).adev gtt
        (env.amdgpu_gtt_mgr_alloc w.trace w.abo.tbo bo_mem).2
      rw [hflags] at hrun
      simp only at hrun
      split_ifs at hrun with hg
      · simp only [Except.ok.injEq, Prod.mk.injEq] at hrun
        exact absurd hrun.1 hg
      · simp only [Except.ok.injEq, Prod.mk.injEq, true_and] at hrun
        right
        rw [← hrun.1]
        rfl

theorem ttm_bind_idempotent_witness :
    amdgpu_ttm_is_bound (World.mk sample_gtt_bo_bound sample_adev []).abo.tbo.ttm = true ∧
    amdgpu_ttm_bind env_ok (World.mk sample_gtt_bo_bound sample_adev [])
        sample_gtt_bo_bound.tbo.mem =
      .ok (0, World.mk sample_gtt_bo_bound sample_adev [], sample_gtt_bo_bound.tbo.mem) :=
  ⟨rfl, (ttm_bind_idempotent env_ok (World.mk sample_gtt_bo_bound sample_adev [])
    sample_gtt_bo_bound.tbo.mem).1 (Or.inr rfl)⟩

/-- C12. For a buffer with a backing page object that is not bound,
`amdgpu_ttm_bind` returns a code `r` such that: when `r` is an error, it is
the code of the step that failed (the GTT allocation, which then is the only
call made, or the page-table write `amdgpu_gart_bind` after a successful
allocation), the bound list of the device is unchanged and the buffer is still
unbound; when `r` is 0, both steps were made and returned 0, and the buffer is
at the tail of the bound list and bound. -/
theorem ttm_bind_failure_leaves_unbound (env : Env) (w : World) (bo_mem : ttm_mem_reg)
    (gtt : amdgpu_ttm_tt) (httm : w.abo.tbo.ttm = some gtt) (hunbound : gtt.list_linked = false) :
    ∃ r w1 mem1, amdgpu_ttm_bind env w bo_mem = .ok (r, w1, mem1) ∧
      (r ≠ 0 →
        (w1.trace = w.trace ++ [Event.gtt_mgr_alloc r] ∨
          ∃ offset pages flags, w1.trace =
            w.trace ++ [Event.gtt_mgr_alloc 0, Event.gart_bind offset pages flags r]) ∧
        w1.adev.gtt_list = w.adev.gtt_list ∧ amdgpu_ttm_is_bound w1.abo.tbo.ttm = false) ∧
      (r = 0 →
        (∃ offset pages flags, w1.trace =
          w.trace ++ [Event.gtt_mgr_alloc 0, Event.gart_bind offset pages flags 0]) ∧
        w1.adev.gtt_list = w.adev.gtt_list ++ [gtt.id] ∧
        amdgpu_ttm_is_bound w1.abo.tbo.ttm = true) := by
  obtain ⟨flags, hflags⟩ := pte_flags_defined
    ({ w with trace := w.trace ++ [Event.gtt_mgr_alloc
      (env.amdgpu_gtt_mgr_alloc w.trace w.abo.tbo bo_mem).1] } : World).adev gtt
    (env.amdgpu_gtt_mgr_alloc w.trace w.abo.tbo bo_mem).2
  unfold amdgpu_ttm_bind
  simp only [httm, amdgpu_ttm_is_bound, hunbound, Bool.false_eq_true, if_false]
  by_cases ha : (env.amdgpu_gtt_mgr_alloc w.trace w.abo.tbo bo_mem).1 = 0
  · simp only [ha, ne_eq, not_true_eq_false, if_false]
    rw [ha] at hflags
    rw [hflags]
    simp only
    split_ifs with hg
    · refine ⟨_, _, _, rfl, ?_, ?_⟩
      · intro h0
        exact absurd rfl h0
      · intro _
        refine ⟨⟨((env.amdgpu_gtt_mgr_alloc w.trace w.abo.tbo bo_mem).2.start <<< PAGE_SHIFT) % U64,
          gtt.num_pages, flags, ?_⟩, rfl, rfl⟩
        simp only [List.append_assoc, List.singleton_append, hg]
    · refine ⟨_, _, _, rfl, ?_, ?_⟩
      · intro _
        refine ⟨Or.inr ⟨((env.amdgpu_gtt_mgr_alloc w.trace w.abo.tbo bo_mem).2.start <<<
          PAGE_SHIFT) % U64, gtt.num_pages, flags,
          by simp only [List.append_assoc, List.singleton_append]⟩, rfl, ?_⟩
        simp only [hunbound]
      · intro h0
        exact absurd h0 hg
  · simp only [ha, ne_eq, not_false_eq_true, if_true]
    refine ⟨_, _, _, rfl, ?_, ?_⟩
    · intro _
      exact ⟨Or.inl rfl, rfl, by simp only [httm, hunbound]⟩
    · intro h0
      exact absurd h0 ha

theorem ttm_bind_failure_leaves_unbound_witness :
    ∃ r w1 mem1, amdgpu_ttm_bind env_gart_bind_fails (World.mk sample_gtt_bo sample_adev [])
        sample_gtt_bo.tbo.mem = .ok (r, w1, mem1) ∧
      (r ≠ 0 →
        (w1.trace = [] ++ [Event.gtt_mgr_alloc r] ∨
          ∃ offset pages flags, w1.trace =
            [] ++ [Event.gtt_mgr_alloc 0, Event.gart_bind offset pages flags r]) ∧
        w1.adev.gtt_list = sample_adev.gtt_list ∧ amdgpu_ttm_is_bound w1.abo.tbo.ttm = false) ∧
      (r = 0 →
        (∃ offset pages flags, w1.trace =
          [] ++ [Event.gtt_mgr_alloc 0, Event.gart_bind offset pages flags 0]) ∧
        w1.adev.gtt_list = sample_adev.gtt_list ++ [7] ∧
        amdgpu_ttm_is_bound w1.abo.tbo.ttm = true) :=
  ttm_bind_failure_leaves_unbound env_gart_bind_fails (World.mk sample_gtt_bo sample_adev [])
    sample_gtt_bo.tbo.mem { id := 7, num_pages := 16 } rfl rfl

theorem mmio_reads_append (xs ys : List MmioEvent) :
    mmio_reads (xs ++ ys) = mmio_reads xs + mmio_reads ys := by
  unfold mmio_reads
  exact List.countP_append _ _ _

theorem mmio_writes_append (xs ys : List MmioEvent) :
    mmio_writes (xs ++ ys) = mmio_writes xs + mmio_writes ys := by
  unfold mmio_writes
  exact List.countP_append _ _ _

/-- A polling loop with `n` iterations left only adds events, none of them a
write, at most `n` of them reads. -/
theorem flush_poll_counts (env : MmioEnv) (ack_reg vmid : Nat) (pause : MmioEvent)
    (hpause : mmio_reads [pause] = 0 ∧ mmio_writes [pause] = 0) (n : Nat) :
    ∀ tr, ∃ evs, (flush_poll env ack_reg vmid pause n tr).2 = tr ++ evs ∧
      mmio_writes evs = 0 ∧ mmio_reads evs ≤ n := by
  induction n with
  | zero =>
    intro tr
    exact ⟨[], by simp [flush_poll], rfl, le_refl _⟩
  | succ n ih =>
    intro tr
    unfold flush_poll
    simp only
    split_ifs with h
    · exact ⟨[MmioEvent.rreg ack_reg (env.rreg32 tr ack_reg % U32)], rfl, rfl, by
        simp [mmio_reads]⟩
    · obtain ⟨evs, he, hw, hr⟩ := ih (tr ++ [MmioEvent.rreg ack_reg (env.rreg32 tr ack_reg % U32)]
        ++ [pause])
      refine ⟨[MmioEvent.rreg ack_reg (env.rreg32 tr ack_reg % U32)] ++ [pause] ++ evs, ?_, ?_, ?_⟩
      · rw [he]; simp only [List.append_assoc]
      · rw [mmio_writes_append, mmio_writes_append, hw, hpause.2]; rfl
      · rw [mmio_reads_append, mmio_reads_append, hpause.1]
        have : mmio_reads [MmioEvent.rreg ack_reg (env.rreg32 tr ack_reg % U32)] = 1 := rfl
        omega

/-- One hub: the events added hold exactly one register write and at most
`100 + usec_timeout` register reads. -/
theorem flush_hub_counts (env : MmioEnv) (adev : amdgpu_device) (vmid i : Nat)
    (hub : amdgpu_vmhub) (tr : List MmioEvent) :
    ∃ evs, flush_hub env adev vmid i hub tr = tr ++ evs ∧ mmio_writes evs = 1 ∧
      mmio_reads evs ≤ 100 + adev.usec_timeout := by
  obtain ⟨fast, hf, hfw, hfr⟩ := flush_poll_counts env ((hub.vm_inv_eng0_ack + 17) % U32) vmid
    MmioEvent.cpu_relax ⟨rfl, rfl⟩ 100
    (tr ++ [MmioEvent.wreg ((hub.vm_inv_eng0_req + 17) % U32) (env.get_invalidate_req i vmid % U32)])
  obtain ⟨slow, hs, hsw, hsr⟩ := flush_poll_counts env ((hub.vm_inv_eng0_ack + 17) % U32) vmid
    (MmioEvent.udelay 1) ⟨rfl, rfl⟩ adev.usec_timeout
    (flush_poll env ((hub.vm_inv_eng0_ack + 17) % U32) vmid MmioEvent.cpu_relax 100
      (tr ++ [MmioEvent.wreg ((hub.vm_inv_eng0_req + 17) % U32)
        (env.get_invalidate_req i vmid % U32)])).2
  have hw1 : mmio_writes [MmioEvent.wreg ((hub.vm_inv_eng0_req + 17) % U32)
      (env.get_invalidate_req i vmid % U32)] = 1 := rfl
  have hr1 : mmio_reads [MmioEvent.wreg ((hub.vm_inv_eng0_req + 17) % U32)
      (env.get_invalidate_req i vmid % U32)] = 0 := rfl
  unfold flush_hub
  simp only
  split_ifs with h1 h2
  · refine ⟨[MmioEvent.wreg ((hub.vm_inv_eng0_req + 17) % U32)
      (env.get_invalidate_req i vmid % U32)] ++ fast, ?_, ?_, ?_⟩
    · rw [hf]; simp only [List.append_assoc]
    · rw [mmio_writes_append, hw1, hfw]
    · rw [mmio_reads_append, hr1]; omega
  · refine ⟨[MmioEvent.wreg ((hub.vm_inv_eng0_req + 17) % U32)
      (env.get_invalidate_req i vmid % U32)] ++ fast ++ slow, ?_, ?_, ?_⟩
    · rw [hs, hf]; simp only [List.append_assoc]
    · rw [mmio_writes_append, mmio_writes_append, hw1, hfw, hsw]
    · rw [mmio_reads_append, mmio_reads_append, hr1]; omega
  · refine ⟨[MmioEvent.wreg ((hub.vm_inv_eng0_req + 17) % U32)
      (env.get_invalidate_req i vmid % U32)] ++ fast ++ slow ++ [MmioEvent.drm_error_timeout],
      ?_, ?_, ?_⟩
    · rw [hs, hf]; simp only [List.append_assoc]
    · rw [mmio_writes_append, mmio_writes_append, mmio_writes_append, hw1, hfw, hsw]; rfl
    · rw [mmio_reads_append, mmio_reads_append, mmio_reads_append, hr1]
      have : mmio_reads [MmioEvent.drm_error_timeout] = 0 := rfl
      omega

/-- The loop over `n` hubs that are all in the array: it ends, with `n`
writes and at most `n * (100 + usec_timeout)` reads added. -/
theorem flush_hubs_counts (env : MmioEnv) (adev : amdgpu_device) (vmid : Nat) (n : Nat) :
    ∀ (i : Nat) (tr : List MmioEvent), i + n ≤ adev.vmhub.length →
      ∃ evs, flush_hubs env adev vmid n i tr = .ok (tr ++ evs) ∧ mmio_writes evs = n ∧
        mmio_reads evs ≤ n * (100 + adev.usec_timeout) := by
  induction n with
  | zero =>
    intro i tr _
    exact ⟨[], by simp [flush_hubs], rfl, by simp [mmio_reads]⟩
  | succ n ih =>
    intro i tr hlen
    have hi : i < adev.vmhub.length := by omega
    obtain ⟨hub, hhub⟩ : ∃ hub, adev.vmhub.get? i = some hub :=
      ⟨adev.vmhub.get ⟨i, hi⟩, List.get?_eq_get hi⟩
    obtain ⟨e1, h1, hw1, hr1⟩ := flush_hub_counts env adev vmid i hub tr
    obtain ⟨e2, h2, hw2, hr2⟩ := ih (i + 1) (flush_hub env adev vmid i hub tr) (by omega)
    refine ⟨e1 ++ e2, ?_, ?_, ?_⟩
    · simp only [flush_hubs, hhub]
      rw [h2, h1, List.append_assoc]
    · rw [mmio_writes_append, hw1, hw2]; omega
    · rw [mmio_reads_append]
      have : (n + 1) * (100 + adev.usec_timeout) =
          n * (100 + adev.usec_timeout) + (100 + adev.usec_timeout) := by ring
      omega

/-- C14. The flush terminates for every behaviour of the acknowledgment
register and every `usec_timeout`. For each hub the events it adds hold
exactly one register write (the invalidate request) and at most
`100 + usec_timeout` register reads; the whole call, on a device with its
`AMDGPU_MAX_VMHUBS` hubs, returns after `AMDGPU_MAX_VMHUBS` writes and at most
`AMDGPU_MAX_VMHUBS * (100 + usec_timeout)` reads. -/
theorem flush_gpu_tlb_bounded (env : MmioEnv) (adev : amdgpu_device) (vmid : Nat)
    (hhubs : adev.vmhub.length = AMDGPU_MAX_VMHUBS) :
    (∀ i hub tr, ∃ evs, flush_hub env adev vmid i hub tr = tr ++ evs ∧ mmio_writes evs = 1 ∧
      mmio_reads evs ≤ 100 + adev.usec_timeout) ∧
    ∃ tr, gmc_v9_0_gart_flush_gpu_tlb env adev vmid = .ok tr ∧
      mmio_writes tr = AMDGPU_MAX_VMHUBS ∧
      mmio_reads tr ≤ AMDGPU_MAX_VMHUBS * (100 + adev.usec_timeout) := by
  refine ⟨fun i hub tr => flush_hub_counts env adev vmid i hub tr, ?_⟩
  obtain ⟨evs, he, hw, hr⟩ := flush_hubs_counts env adev vmid AMDGPU_MAX_VMHUBS 0
    [MmioEvent.hdp_flush, MmioEvent.spin_lock] (by omega)
  refine ⟨[MmioEvent.hdp_flush, MmioEvent.spin_lock] ++ evs ++ [MmioEvent.spin_unlock], ?_, ?_, ?_⟩
  · unfold gmc_v9_0_gart_flush_gpu_tlb
    rw [he]
  · rw [mmio_writes_append, mmio_writes_append, hw]; rfl
  · rw [mmio_reads_append, mmio_reads_append]
    have h1 : mmio_reads [MmioEvent.hdp_flush, MmioEvent.spin_lock] = 0 := rfl
    have h2 : mmio_reads [MmioEvent.spin_unlock] = 0 := rfl
    omega

theorem flush_gpu_tlb_bounded_witness :
    ∃ tr, gmc_v9_0_gart_flush_gpu_tlb mmio_silent sample_adev_hubs 3 = .ok tr ∧
      mmio_writes tr = AMDGPU_MAX_VMHUBS ∧
      mmio_reads tr ≤ AMDGPU_MAX_VMHUBS * (100 + sample_adev_hubs.usec_timeout) :=
  (flush_gpu_tlb_bounded mmio_silent sample_adev_hubs 3 rfl).2

/-! ### Device bring-up -/

/-- C15. `gmc_v9_0_mc_init` returns 0 and hands to `gmc_v9_0_vram_gtt_location`
a GTT size that is, without an override (`amdgpu_gart_size == -1`), the larger
of 1 GiB and the VRAM size in bytes (the memory size in MiB times `2 ^ 20`),
and with an override of `g` MiB, `0 <= g < 2 ^ 31`, exactly `g << 20` bytes.
When the placement helpers called afterwards keep the GTT size, it is the GTT
size of the device after the call. -/
theorem mc_init_gtt_size (env : McEnv) (adev : amdgpu_device)
    (hmem : env.nbio_v6_1_get_memsize < U32) :
    (gmc_v9_0_mc_init env adev).1 = 0 ∧
    (gmc_v9_0_mc_init env adev).2.mc =
      gmc_v9_0_vram_gtt_location env (gmc_v9_0_mc_init_sizes env adev).mc ∧
    (gmc_v9_0_mc_init_sizes env adev).mc.mc_vram_size = env.nbio_v6_1_get_memsize * 2 ^ 20 ∧
    (env.amdgpu_gart_size = -1 →
      (gmc_v9_0_mc_init_sizes env adev).mc.gtt_size =
        max (2 ^ 30) (env.nbio_v6_1_get_memsize * 2 ^ 20)) ∧
    (0 ≤ env.amdgpu_gart_size → env.amdgpu_gart_size < 2 ^ 31 →
      (gmc_v9_0_mc_init_sizes env adev).mc.gtt_size = env.amdgpu_gart_size.toNat <<< 20) ∧
    ((∀ mc, (gmc_v9_0_vram_gtt_location env mc).gtt_size = mc.gtt_size) →
      (gmc_v9_0_mc_init env adev).2.mc.gtt_size = (gmc_v9_0_mc_init_sizes env adev).mc.gtt_size) := by
  have hU32 : U32 = 2 ^ 32 := rfl
  have hU64 : U64 = 2 ^ 64 := rfl
  have hvram : ((env.nbio_v6_1_get_memsize % U32) * 1024 * 1024) % U64 =
      env.nbio_v6_1_get_memsize * 2 ^ 20 := by
    rw [Nat.mod_eq_of_lt hmem, Nat.mod_eq_of_lt (by omega)]
    omega
  refine ⟨rfl, rfl, ?_, ?_, ?_, ?_⟩
  · simp only [gmc_v9_0_mc_init_sizes, hvram]
  · intro hg
    simp only [gmc_v9_0_mc_init_sizes, hvram, hg, if_true]
    rfl
  · intro h0 h1
    have hne : env.amdgpu_gart_size ≠ -1 := by omega
    have hmod : (env.amdgpu_gart_size % (U64 : Int)).toNat = env.amdgpu_gart_size.toNat := by
      rw [Int.emod_eq_of_lt h0 (by rw [hU64]; push_cast; omega)]
    have hlt : env.amdgpu_gart_size.toNat < 2 ^ 31 := by omega
    simp only [gmc_v9_0_mc_init_sizes, hne, if_false, hmod]
    apply Nat.mod_eq_of_lt
    rw [Nat.shiftLeft_eq, hU64]
    have : env.amdgpu_gart_size.toNat * 2 ^ 20 < 2 ^ 31 * 2 ^ 20 :=
      Nat.mul_lt_mul_of_pos_right hlt (by norm_num)
    omega
  · intro hframe
    exact hframe _

theorem mc_init_gtt_size_witness :
    (gmc_v9_0_mc_init (sample_mc_env (-1)) sample_adev).2.mc.gtt_size = 8192 * 2 ^ 20 ∧
    (gmc_v9_0_mc_init (sample_mc_env 256) sample_adev).2.mc.gtt_size = 256 <<< 20 := by
  have h1 := mc_init_gtt_size (sample_mc_env (-1)) sample_adev (by decide)
  have h2 := mc_init_gtt_size (sample_mc_env 256) sample_adev (by decide)
  constructor
  · rw [h1.2.2.2.2.2 (fun _ => rfl), h1.2.2.2.1 rfl]
    decide
  · rw [h2.2.2.2.2.2 (fun _ => rfl), h2.2.2.2.2.1 (by decide) (by decide)]
    rfl

/-- C16. `amdgpu_ttm_set_active_vram_size` on a device whose memory manager is
not initialised returns the device as it was. Otherwise the device it returns
differs from the old one in the array of pool managers only, the array has
the same length, every entry but `TTM_PL_VRAM` is the old entry, and the VRAM
entry is the old entry with `size` replaced by `size >> PAGE_SHIFT`. The
function receives the device only: no buffer and no node is in its reach. -/
theorem set_active_vram_size_frame (adev : amdgpu_device) (size : Nat) :
    (adev.mman.initialized = false → amdgpu_ttm_set_active_vram_size adev size = .ok adev) ∧
    (adev.mman.initialized = true → size < U64 →
      ∀ man, adev.mman.man.get? TTM_PL_VRAM = some man →
      ∃ adev1, amdgpu_ttm_set_active_vram_size adev size = .ok adev1 ∧
        adev1 = { adev with mman := { adev.mman with man := adev1.mman.man } } ∧
        adev1.mman.man.length = adev.mman.man.length ∧
        adev1.mman.man.get? TTM_PL_VRAM = some { man with size := size >>> PAGE_SHIFT } ∧
        ∀ i, i ≠ TTM_PL_VRAM → adev1.mman.man.get? i = adev.mman.man.get? i) := by
  constructor
  · intro h
    unfold amdgpu_ttm_set_active_vram_size
    simp [h]
  · intro h hsize man hman
    unfold amdgpu_ttm_set_active_vram_size
    simp only [h, not_true_eq_false, if_false, hman, Nat.mod_eq_of_lt hsize]
    refine ⟨_, rfl, rfl, ?_, ?_, ?_⟩
    · simp only [List.length_set]
    · have hlt : TTM_PL_VRAM < adev.mman.man.length := by
        by_contra hge
        have := List.get?_eq_none.2 (not_lt.1 hge)
        rw [this] at hman
        cases hman
      simp only [List.get?_eq_getElem?, List.getElem?_set, hlt, if_true]
    · intro i hi
      simp only [List.get?_eq_getElem?]
      rw [List.getElem?_set_ne (Ne.symm hi)]

theorem set_active_vram_size_frame_witness :
    ∃ adev1, amdgpu_ttm_set_active_vram_size sample_adev 0x10000000 = .ok adev1 ∧
      adev1 = { sample_adev with mman := { sample_adev.mman with man := adev1.mman.man } } ∧
      adev1.mman.man.length = sample_adev.mman.man.length ∧
      adev1.mman.man.get? TTM_PL_VRAM = some { size := 0x10000000 >>> PAGE_SHIFT } ∧
      ∀ i, i ≠ TTM_PL_VRAM → adev1.mman.man.get? i = sample_adev.mman.man.get? i :=
  (set_active_vram_size_frame sample_adev 0x10000000).2 rfl (by decide) {} rfl

/-! ### Fill, eviction of pinned buffers, display collaborators -/

/-- C17, the code at the failing input. A buffer of `0x100000` pages (4 GiB)
in one VRAM node is filled with the pattern 0: `mm_node->size << PAGE_SHIFT`
is `2 ^ 32`, the `uint32_t byte_count` receives 0, the inner loop does not
run, and `amdgpu_fill_buffer` submits a job without a single fill command and
returns 0. None of the `2 ^ 32` bytes of the buffer is written. -/
theorem fill_buffer_4g_node_fills_nothing :
    sample_4g_bo.tbo.num_pages <<< PAGE_SHIFT = 2 ^ 32 ∧
    amdgpu_fill_buffer env_ok 4 (World.mk sample_4g_bo sample_adev []) 0 true =
      .ok (0, World.mk sample_4g_bo sample_adev
        [Event.job_alloc 256 0, Event.sync_resv 0, Event.job_submit 0 1], some 1) ∧
    fill_commands [Event.job_alloc 256 0, Event.sync_resv 0, Event.job_submit 0 1] = [] := by
  refine ⟨by decide, rfl, rfl⟩

/-- C18, counterexample. The buffer of `sample_vram_bo` with pin count 2 and a
window without bounds: the selector reports it as worth evicting. -/
theorem eviction_valuable_pinned_true :
    0 < (sample_vram_bo 2).pin_count ∧
    amdgpu_ttm_bo_eviction_valuable env_ok (sample_vram_bo 2).tbo ⟨0, 0, 0⟩ = .ok true :=
  ⟨by decide, rfl⟩

/-- C18, amended. `amdgpu_ttm_bo_eviction_valuable` does not look at the pin
count: for a buffer with pin count above 0 it answers what it answers for the
same buffer unpinned. For a pinned VRAM buffer backed by a fragment list whose
nodes are non-empty and add up to `num_pages`, that answer is `true` exactly
when some node passes the window test. -/
theorem eviction_valuable_ignores_pin (env : Env) (abo : amdgpu_bo) (place : ttm_place)
    (nodes : List drm_mm_node) (_hpin : 0 < abo.pin_count)
    (hvram : abo.tbo.mem.mem_type = TTM_PL_VRAM)
    (hfrag : abo.tbo.mem.start = AMDGPU_BO_INVALID_OFFSET)
    (hnodes : abo.tbo.mem.mm_node = some nodes) (hpos : ∀ node ∈ nodes, 0 < node.size)
    (hsum : nodes_pages nodes = abo.tbo.mem.num_pages) (hpages : abo.tbo.mem.num_pages < U64) :
    amdgpu_ttm_bo_eviction_valuable env abo.tbo place =
      amdgpu_ttm_bo_eviction_valuable env ({ abo with pin_count := 0 }).tbo place ∧
    amdgpu_ttm_bo_eviction_valuable env abo.tbo place =
      .ok (nodes.any (node_in_place place)) := by
  refine ⟨rfl, ?_⟩
  unfold amdgpu_ttm_bo_eviction_valuable
  simp only [hvram, hfrag, and_self, if_true, hnodes, Option.getD_some]
  rw [← hsum]
  exact eviction_valuable_loop_spec place nodes hpos (by omega)

theorem eviction_valuable_ignores_pin_witness :
    0 < (sample_vram_bo 2).pin_count ∧
    amdgpu_ttm_bo_eviction_valuable env_ok (sample_vram_bo 2).tbo ⟨16, 24, 0⟩ =
      .ok ([(⟨0, 8⟩ : drm_mm_node), ⟨32, 8⟩].any (node_in_place ⟨16, 24, 0⟩)) :=
  ⟨by decide, (eviction_valuable_ignores_pin env_ok (sample_vram_bo 2) ⟨16, 24, 0⟩
    [⟨0, 8⟩, ⟨32, 8⟩] (by decide) rfl rfl rfl (by decide) rfl (by decide)).2⟩

/-- C19, the code at the failing inputs. A CRTC state in which only
`planes_changed` is set needs no modeset according to the function, and a
state in which only `connectors_changed` is set needs one: the third flag the
function reads is `connectors_changed`, not the `planes_changed` its
documentation names. -/
theorem crtc_needs_modeset_reads_connectors :
    drm_atomic_crtc_needs_modeset { planes_changed := true } = false ∧
    drm_atomic_crtc_needs_modeset { connectors_changed := true } = true :=
  ⟨rfl, rfl⟩

/-- The commands of the copy loop tile what they cover: while the addresses
stay below `2 ^ 64`, command `k` starts where command `k - 1` ended, no command
is longer than the limit, and the lengths together with the byte count left
after the loop make up the byte count the loop started with. -/
theorem copy_buffer_loop_tiles (max_bytes : Nat) (n : Nat) :
    ∀ src_offset dst_offset byte_count : Nat,
      src_offset + byte_count < U64 → dst_offset + byte_count < U64 →
      ∃ lens : List Nat,
        copy_commands (copy_buffer_loop max_bytes n src_offset dst_offset byte_count) =
          copy_tiles src_offset dst_offset lens ∧
        lens.sum + copy_buffer_rest max_bytes n byte_count = byte_count ∧
        ∀ len ∈ lens, len ≤ max_bytes := by
  induction n with
  | zero =>
    intro s d b _ _
    exact ⟨[], rfl, by simp [copy_buffer_rest], by simp⟩
  | succ n ih =>
    intro s d b hs hd
    have hcur : min b max_bytes ≤ b := Nat.min_le_left _ _
    obtain ⟨lens, hc, hsum, hle⟩ := ih ((s + min b max_bytes) % U64)
      ((d + min b max_bytes) % U64) (b - min b max_bytes)
      (by rw [Nat.mod_eq_of_lt (by omega)]; omega) (by rw [Nat.mod_eq_of_lt (by omega)]; omega)
    rw [Nat.mod_eq_of_lt (by omega), Nat.mod_eq_of_lt (by omega)] at hc
    refine ⟨min b max_bytes :: lens, ?_, ?_, ?_⟩
    · simp only [copy_buffer_loop, copy_commands, copy_tiles]
      rw [Nat.mod_eq_of_lt (by omega), Nat.mod_eq_of_lt (by omega), hc]
    · simp only [List.sum_cons, copy_buffer_rest]
      omega
    · intro len hlen
      rcases List.mem_cons.1 hlen with h | h
      · rw [h]; exact Nat.min_le_right _ _
      · exact hle len h

/-- After `n` iterations with `byte_count <= n * max_bytes` nothing is left. -/
theorem copy_buffer_rest_zero (max_bytes : Nat) (n : Nat) :
    ∀ byte_count : Nat, byte_count ≤ n * max_bytes → copy_buffer_rest max_bytes n byte_count = 0 := by
  induction n with
  | zero =>
    intro b hb
    simp only [copy_buffer_rest]
    omega
  | succ n ih =>
    intro b hb
    simp only [copy_buffer_rest]
    apply ih
    have : (n + 1) * max_bytes = n * max_bytes + max_bytes := by ring
    omega

/-- Below the wrap of the round-up (`byte_count + copy_max_bytes - 1 < 2 ^ 32`)
and with a scheduler that never refuses, the copy commands of
`amdgpu_copy_buffer` tile the request: they start at `src_offset` and
`dst_offset`, each continues where the one before ended, none is longer than
`copy_max_bytes`, their lengths add up to `byte_count`, and the loop leaves a
byte count of 0. -/
theorem copy_buffer_tiles_below_wrap (env : Env) (w : World) (funcs : amdgpu_buffer_funcs)
    (src_offset dst_offset byte_count : Nat) (resv : Bool)
    (hfuncs : w.adev.mman.buffer_funcs = some funcs) (hmax : 0 < funcs.copy_max_bytes)
    (hmax32 : funcs.copy_max_bytes < U32)
    (hcount : byte_count + funcs.copy_max_bytes - 1 < U32) (henv : env_jobs_succeed env)
    (hsrc : src_offset + byte_count < U64) (hdst : dst_offset + byte_count < U64) :
    ∃ w1 fence lens,
      amdgpu_copy_buffer env w src_offset dst_offset byte_count resv false =
        .ok (0, w1, some fence) ∧
      copy_commands w1.trace = copy_commands w.trace ++ copy_tiles src_offset dst_offset lens ∧
      lens.sum = byte_count ∧ (∀ len ∈ lens, len ≤ funcs.copy_max_bytes) ∧
      copy_buffer_rest funcs.copy_max_bytes (DIV_ROUND_UP byte_count funcs.copy_max_bytes)
        byte_count = 0 := by
  obtain ⟨halloc, hsync, hsubmit⟩ := henv
  have hb : byte_count % U32 = byte_count := Nat.mod_eq_of_lt (by omega)
  have hm : funcs.copy_max_bytes % U32 = funcs.copy_max_bytes := Nat.mod_eq_of_lt hmax32
  have hm0 : funcs.copy_max_bytes ≠ 0 := by omega
  have hs : src_offset % U64 = src_offset := Nat.mod_eq_of_lt (by omega)
  have hd : dst_offset % U64 = dst_offset := Nat.mod_eq_of_lt (by omega)
  have hrest := copy_buffer_rest_zero funcs.copy_max_bytes
    (DIV_ROUND_UP byte_count funcs.copy_max_bytes) byte_count
    (by rw [DIV_ROUND_UP_no_wrap _ _ hcount]; exact le_div_round_up_mul _ _ hmax)
  obtain ⟨lens, hc, hsum, hle⟩ := copy_buffer_loop_tiles funcs.copy_max_bytes
    (DIV_ROUND_UP byte_count funcs.copy_max_bytes) src_offset dst_offset byte_count hsrc hdst
  rw [hrest] at hsum
  unfold amdgpu_copy_buffer
  simp only [hfuncs, hb, hm, hm0, hs, hd, if_false, halloc, hsync, hsubmit, ne_eq,
    not_true_eq_false, ite_self, Bool.false_eq_true]
  refine ⟨_, _, lens, rfl, ?_, by omega, hle, hrest⟩
  rw [← hc]
  cases resv <;> simp [copy_commands_append, copy_commands]

/-- C21, the code at the failing input. A copy of `0xFFFFFFFF` bytes with the
SDMA limit `copy_max_bytes = 0x1fffff`: `DIV_ROUND_UP` wraps in 32 bits and
gives `num_loops = 0`, the loop does not run, the job is submitted without a
copy command and the call returns 0. The lengths of the commands add up to 0,
not to `byte_count`, and the byte count left after the loop is the whole
request. -/
theorem copy_buffer_wrap_leaves_request :
    DIV_ROUND_UP 0xFFFFFFFF 0x1fffff = 0 ∧
    copy_buffer_rest 0x1fffff (DIV_ROUND_UP 0xFFFFFFFF 0x1fffff) 0xFFFFFFFF = 0xFFFFFFFF ∧
    ∃ w1 fence,
      amdgpu_copy_buffer env_ok (World.mk (sample_vram_bo 0) sample_adev []) 0x1000 0x200000000
        0xFFFFFFFF false false = .ok (0, w1, fence) ∧
      copy_commands w1.trace = [] ∧
      ((copy_commands w1.trace).map (fun c => c.2.2)).sum = 0 :=
  ⟨by decide, by decide, _, _, rfl, rfl, rfl⟩

/-! ### Chunks of `amdgpu_move_blit` at and above 4 GiB -/

/-- C22, the code at the failing input. A buffer of `0x100001` pages (4 GiB
and one page) in one VRAM node is blitted to another single node. Both nodes
hold `0x100001` pages, so the one chunk of the walk is `cur_pages = 0x100001`
pages long; `amdgpu_copy_buffer` receives `cur_pages * PAGE_SIZE` cut to 32
bits, `4096`, and the only copy command issued moves one page. The loop takes
all `0x100001` pages off `num_pages`, the move is committed and returns 0:
page 0 of the buffer arrived, page 1 did not. -/
theorem move_blit_chunk_cut_to_one_page :
    min 0x100001 0x100001 * PAGE_SIZE = 2 ^ 32 + 4096 ∧
    ∃ w1 nm1,
      amdgpu_move_blit env_ok 4 false
        (World.mk (sample_nodes_bo [⟨0, 0x100001⟩] 0x100001) sample_adev [])
        (sample_mem TTM_PL_VRAM (some [⟨0x200000, 0x100001⟩]) 0x200000 0x100001) =
          .ok (0, w1, nm1) ∧
      w1.abo.tbo.mem.mm_node = some [⟨0x200000, 0x100001⟩] ∧
      copy_commands w1.trace = [(0, 0x200000000, 4096)] ∧
      exec_trace sample_memory w1.trace (phys 0 [⟨0x200000, 0x100001⟩] 0) = 1 ∧
      sample_memory (phys 0 [⟨0, 0x100001⟩] 4096) = 1 ∧
      exec_trace sample_memory w1.trace (phys 0 [⟨0x200000, 0x100001⟩] 4096) = 0 :=
  ⟨by decide, _, _, rfl, rfl, rfl, by decide, by decide, by decide⟩

/-- C27, the code at the failing input. A buffer of `0x200000` pages (8 GiB)
in one VRAM node is blitted to two nodes of `0x100000` pages each. The walk
makes two chunks of `cur_pages = 0x100000` pages; for each, `cur_pages *
PAGE_SIZE` is `2 ^ 32`, the `uint32_t` parameter `byte_count` receives 0, and
the job submitted for the chunk holds no copy command. The loop takes
`0x100000` pages off `num_pages` for each chunk, the move is committed and
returns 0 with no byte copied. -/
theorem move_blit_chunk_length_truncated :
    min 0x200000 0x100000 * PAGE_SIZE = 2 ^ 32 ∧
    ((min 0x200000 0x100000 * PAGE_SIZE) % U64) % U32 = 0 ∧
    ∃ w1 nm1,
      amdgpu_move_blit env_ok 4 false
        (World.mk (sample_nodes_bo [⟨0, 0x200000⟩] 0x200000) sample_adev [])
        (sample_mem TTM_PL_VRAM (some [⟨0x200000, 0x100000⟩, ⟨0x400000, 0x100000⟩])
          AMDGPU_BO_INVALID_OFFSET 0x200000) = .ok (0, w1, nm1) ∧
      w1.trace =
        [Event.job_alloc 0 0, Event.sync_resv 0, Event.job_submit 0 1, Event.fence_put none,
         Event.job_alloc 0 0, Event.sync_resv 0, Event.job_submit 0 1,
         Event.fence_put (some 1), Event.pipeline_move (some 1) 0, Event.fence_put (some 1)] ∧
      copy_commands w1.trace = [] :=
  ⟨by decide, by decide, _, _, rfl, rfl, rfl⟩

/-! ### The two passes of `amdgpu_fill_buffer` -/

theorem fill_commands_append (xs ys : List Event) :
    fill_commands (xs ++ ys) = fill_commands xs ++ fill_commands ys := by
  induction xs with
  | nil => rfl
  | cons x xs ih => cases x <;> simp [fill_commands, ih]

/-- The inner loop of the second pass emits the true ceiling of `byte_count /
max_bytes` commands: it runs until `byte_count` is 0. -/
theorem fill_buffer_emit_count (max_bytes src_data : Nat) (hmax : 0 < max_bytes) (n : Nat) :
    ∀ dst_addr byte_count : Nat, byte_count ≤ n →
      (fill_commands (fill_buffer_emit max_bytes src_data n dst_addr byte_count)).length =
        (byte_count + max_bytes - 1) / max_bytes := by
  induction n with
  | zero =>
    intro d b hb
    have hb0 : b = 0 := by omega
    subst hb0
    simp only [fill_buffer_emit, fill_commands, List.length_nil]
    exact (Nat.div_eq_of_lt (by omega)).symm
  | succ n ih =>
    intro d b hb
    by_cases hb0 : b = 0
    · subst hb0
      simp only [fill_buffer_emit, if_true, fill_commands, List.length_nil]
      exact (Nat.div_eq_of_lt (by omega)).symm
    · simp only [fill_buffer_emit, hb0, if_false, fill_commands, List.length_cons]
      rw [ih _ _ (by omega)]
      by_cases hle : b ≤ max_bytes
      · rw [Nat.min_eq_left hle, Nat.sub_self, Nat.div_eq_of_lt (by omega)]
        have h1 : b + max_bytes - 1 = (b - 1) + max_bytes := by omega
        rw [h1, Nat.add_div_right _ hmax, Nat.div_eq_of_lt (by omega)]
      · have hlt : max_bytes < b := by omega
        rw [Nat.min_eq_right (le_of_lt hlt)]
        have h1 : b + max_bytes - 1 = (b - max_bytes + max_bytes - 1) + max_bytes := by omega
        rw [h1, Nat.add_div_right _ hmax]

/-- What the two passes count for one node of `byte_count` bytes (a 32-bit
value): the second pass emits the ceiling of `byte_count / max_bytes`
commands, the first pass adds `DIV_ROUND_UP (byte_count, max_bytes)`, and the
two agree as long as `byte_count + max_bytes - 1` does not wrap. -/
theorem fill_buffer_node_counts (max_bytes src_data dst_addr byte_count : Nat)
    (hmax : 0 < max_bytes) :
    (fill_commands (fill_buffer_emit max_bytes src_data byte_count dst_addr byte_count)).length =
        (byte_count + max_bytes - 1) / max_bytes ∧
      (byte_count + max_bytes - 1 < U32 →
        DIV_ROUND_UP byte_count max_bytes = (byte_count + max_bytes - 1) / max_bytes) :=
  ⟨fill_buffer_emit_count max_bytes src_data hmax byte_count dst_addr byte_count (le_refl _),
    fun h => DIV_ROUND_UP_no_wrap _ _ h⟩

/-- C28, the code at the failing input. A buffer of `0xFFFFF` pages (4 GiB
less one page) in one VRAM node, fill limit `0x1fffff`, `fill_num_dw = 5`.
The first pass computes `DIV_ROUND_UP (0xFFFFF000, 0x1fffff)` in 32 bits,
which wraps to 0: `num_loops = 0`, `num_dw = 0 * 5 + 64 = 64`, and the job is
allocated with `64 * 4 = 256` bytes. The second pass runs until `byte_count`
is 0 and emits 2048 fill commands, `2048 * 5` words, into that job. -/
theorem fill_buffer_emits_past_allocation :
    fill_buffer_num_loops 0x1fffff 0xFFFFF [⟨0, 0xFFFFF⟩] 0 = .ok 0 ∧
    ∃ w1 fence,
      amdgpu_fill_buffer env_ok 4
        (World.mk (sample_nodes_bo [⟨0, 0xFFFFF⟩] 0xFFFFF) sample_adev []) 0 true =
          .ok (0, w1, fence) ∧
      w1.trace.take 2 = [Event.job_alloc ((0 * 5 + 64) * 4) 0, Event.sync_resv 0] ∧
      (fill_commands w1.trace).length = 2048 ∧
      0 * 5 + 64 < (fill_commands w1.trace).length * 5 := by
  have hcount : (fill_commands (fill_buffer_emit 0x1fffff 0 0xFFFFF000 0 0xFFFFF000)).length =
      2048 := by
    rw [fill_buffer_emit_count 0x1fffff 0 (by decide) 0xFFFFF000 0 0xFFFFF000 (le_refl _)]
  have hlen : (fill_commands ([Event.job_alloc 256 0, Event.sync_resv 0] ++
      fill_buffer_emit 0x1fffff 0 0xFFFFF000 0 0xFFFFF000 ++ [Event.job_submit 0 1])).length =
      2048 := by
    rw [fill_commands_append, fill_commands_append, List.length_append, List.length_append,
      hcount]
    rfl
  refine ⟨rfl, World.mk (sample_nodes_bo [⟨0, 0xFFFFF⟩] 0xFFFFF) sample_adev
    ([Event.job_alloc 256 0, Event.sync_resv 0] ++
      fill_buffer_emit 0x1fffff 0 0xFFFFF000 0 0xFFFFF000 ++ [Event.job_submit 0 1]),
    some 1, rfl, rfl, hlen, ?_⟩
  rw [hlen]
  decide

/-! ### The eviction selector stays inside the node array -/

/-- While the nodes passed hold no more pages than the counter started with,
no subtraction wraps: the counter is the true difference. -/
theorem eviction_counter_eq (passed : List drm_mm_node) :
    ∀ n : Nat, nodes_pages passed ≤ n → n < U64 →
      eviction_counter n passed = n - nodes_pages passed := by
  induction passed with
  | nil => intro n _ _; simp [eviction_counter, nodes_pages]
  | cons x xs ih =>
    intro n hle hlt
    rw [nodes_pages_cons] at hle
    have hx : x.size % U64 = x.size := Nat.mod_eq_of_lt (by omega)
    have hstep : (n + U64 - x.size % U64) % U64 = n - x.size := by
      rw [hx]
      have : n + U64 - x.size = (n - x.size) + U64 := by omega
      rw [this, Nat.add_mod_right, Nat.mod_eq_of_lt (by omega)]
    have := ih (n - x.size) (by omega) (by omega)
    unfold eviction_counter at this ⊢
    rw [List.foldl_cons, hstep, this, nodes_pages_cons]
    omega

/-- The loop, after it went past nodes that all fail the window test, is in
the state the counter arithmetic gives: counter `eviction_counter n passed`,
next node the first of `rest`. -/
theorem eviction_valuable_loop_skip (place : ttm_place) (passed : List drm_mm_node) :
    ∀ (n : Nat) (rest : List drm_mm_node), (∀ x ∈ passed, node_in_place place x = false) →
      (∀ x ∈ passed, 0 < x.size) → nodes_pages passed ≤ n → n < U64 →
      eviction_valuable_loop place n (passed ++ rest) =
        eviction_valuable_loop place (eviction_counter n passed) rest := by
  induction passed with
  | nil => intro n rest _ _ _ _; rfl
  | cons x xs ih =>
    intro n rest hout hpos hle hlt
    rw [nodes_pages_cons] at hle
    have hxpos := hpos x (List.mem_cons_self _ _)
    have hn0 : n ≠ 0 := by omega
    have hx : x.size % U64 = x.size := Nat.mod_eq_of_lt (by omega)
    have hstep : (n + U64 - x.size % U64) % U64 = n - x.size := by
      rw [hx]
      have : n + U64 - x.size = (n - x.size) + U64 := by omega
      rw [this, Nat.add_mod_right, Nat.mod_eq_of_lt (by omega)]
    have hxo := hout x (List.mem_cons_self _ _)
    rw [List.cons_append, eviction_valuable_loop]
    simp only [hn0, if_false, hxo, Bool.false_eq_true]
    rw [ih _ rest (fun y hy => hout y (List.mem_cons_of_mem _ hy))
      (fun y hy => hpos y (List.mem_cons_of_mem _ hy)) (by rw [hstep]; omega)
      (by rw [hstep]; omega)]
    rfl

/-- C29. For a VRAM buffer backed by a fragment list whose nodes are non-empty
and add up to `bo->mem.num_pages`, the loop of
`amdgpu_ttm_bo_eviction_valuable` ends with an answer that depends on the
buffer's own nodes only (it never steps past the last node, which the model
reports as a fault). Before each node it inspects, the counter holds exactly
the pages of that node and the nodes after it, so `num_pages -= node->size`
never wraps, and after the last node the counter is 0. The loop that went
past failing nodes is in the state this counter describes. -/
theorem eviction_valuable_stays_in_nodes (env : Env) (bo : ttm_buffer_object)
    (place : ttm_place) (nodes : List drm_mm_node)
    (hvram : bo.mem.mem_type = TTM_PL_VRAM) (hfrag : bo.mem.start = AMDGPU_BO_INVALID_OFFSET)
    (hnodes : bo.mem.mm_node = some nodes) (hpos : ∀ node ∈ nodes, 0 < node.size)
    (hsum : nodes_pages nodes = bo.mem.num_pages) (hlt : bo.mem.num_pages < U64) :
    amdgpu_ttm_bo_eviction_valuable env bo place = .ok (nodes.any (node_in_place place)) ∧
    eviction_counter bo.mem.num_pages nodes = 0 ∧
    ∀ passed node rest, nodes = passed ++ node :: rest →
      eviction_counter bo.mem.num_pages passed = nodes_pages (node :: rest) ∧
      node.size ≤ eviction_counter bo.mem.num_pages passed ∧
      ((∀ x ∈ passed, node_in_place place x = false) →
        amdgpu_ttm_bo_eviction_valuable env bo place =
          eviction_valuable_loop place (eviction_counter bo.mem.num_pages passed)
            (node :: rest)) := by
  have hrun : amdgpu_ttm_bo_eviction_valuable env bo place =
      eviction_valuable_loop place bo.mem.num_pages nodes := by
    unfold amdgpu_ttm_bo_eviction_valuable
    simp only [hvram, hfrag, and_self, if_true, hnodes, Option.getD_some]
  refine ⟨?_, ?_, ?_⟩
  · rw [hrun, ← hsum]
    exact eviction_valuable_loop_spec place nodes hpos (by omega)
  · rw [eviction_counter_eq nodes _ (by omega) hlt]
    omega
  · intro passed node rest hsplit
    have hpages : nodes_pages nodes = nodes_pages passed + nodes_pages (node :: rest) := by
      rw [hsplit]
      simp [nodes_pages]
    have hcnt := eviction_counter_eq passed bo.mem.num_pages (by omega) hlt
    have hnode : node.size ≤ nodes_pages (node :: rest) := by
      rw [nodes_pages_cons]
      omega
    refine ⟨by omega, by omega, ?_⟩
    intro hout
    rw [hrun, hsplit]
    exact eviction_valuable_loop_skip place passed bo.mem.num_pages (node :: rest) hout
      (fun x hx => hpos x (by rw [hsplit]; exact List.mem_append_left _ hx)) (by omega) hlt

theorem eviction_valuable_stays_in_nodes_witness :
    amdgpu_ttm_bo_eviction_valuable env_ok (sample_vram_bo 0).tbo ⟨40, 48, 0⟩ =
        .ok ([(⟨0, 8⟩ : drm_mm_node), ⟨32, 8⟩].any (node_in_place ⟨40, 48, 0⟩)) ∧
      eviction_counter 16 [⟨0, 8⟩, ⟨32, 8⟩] = 0 :=
  ⟨(eviction_valuable_stays_in_nodes env_ok (sample_vram_bo 0).tbo ⟨40, 48, 0⟩
      [⟨0, 8⟩, ⟨32, 8⟩] rfl rfl rfl (by decide) rfl (by decide)).1,
    (eviction_valuable_stays_in_nodes env_ok (sample_vram_bo 0).tbo ⟨40, 48, 0⟩
      [⟨0, 8⟩, ⟨32, 8⟩] rfl rfl rfl (by decide) rfl (by decide)).2.1⟩

/-! ### CPU access to a placement -/

/-- C30. `amdgpu_ttm_io_mem_reserve` on a placement whose pool has a manager.
For a VRAM placement in a mappable pool the call returns 0 exactly when
`start` is not `AMDGPU_BO_INVALID_OFFSET` and `(start << PAGE_SHIFT) +
(num_pages << PAGE_SHIFT)`, in `unsigned long` arithmetic, is at most
`visible_vram_size`; then `bus.offset = start << PAGE_SHIFT`, `bus.base =
aper_base` and `is_iomem` is set; every other VRAM placement gets `-EINVAL`.
While `start` and `num_pages` are below `2 ^ 51` nothing wraps and the test is
`(start + num_pages) * PAGE_SIZE <= visible_vram_size`. System memory in a
mappable pool gets 0 with `is_iomem` clear; a pool that is not mappable, or
mappable and none of system, GTT, VRAM, gets `-EINVAL`. -/
theorem io_mem_reserve_spec (adev : amdgpu_device) (mem : ttm_mem_reg)
    (man : ttm_mem_type_manager) (hman : adev.mman.man.get? mem.mem_type = some man) :
    ∃ r mem1, amdgpu_ttm_io_mem_reserve adev mem = .ok (r, mem1) ∧
      (r = 0 ∨ r = -EINVAL) ∧
      (man.flags &&& TTM_MEMTYPE_FLAG_MAPPABLE ≠ 0 → mem.mem_type = TTM_PL_VRAM →
        (r = 0 ↔ (mem.start ≠ AMDGPU_BO_INVALID_OFFSET ∧
          ((mem.start <<< PAGE_SHIFT) % U64 + (mem.num_pages <<< PAGE_SHIFT) % U64) % U64 ≤
            adev.mc.visible_vram_size)) ∧
        (r = 0 → mem1.bus.offset = (mem.start <<< PAGE_SHIFT) % U64 ∧
          mem1.bus.base = adev.mc.aper_base ∧ mem1.bus.is_iomem = true) ∧
        (mem.start < 2 ^ 51 → mem.num_pages < 2 ^ 51 →
          (r = 0 ↔ (mem.start + mem.num_pages) * PAGE_SIZE ≤ adev.mc.visible_vram_size))) ∧
      (man.flags &&& TTM_MEMTYPE_FLAG_MAPPABLE ≠ 0 → mem.mem_type = TTM_PL_SYSTEM →
        r = 0 ∧ mem1.bus.is_iomem = false) ∧
      (man.flags &&& TTM_MEMTYPE_FLAG_MAPPABLE = 0 → r = -EINVAL) ∧
      (mem.mem_type ≠ TTM_PL_SYSTEM → mem.mem_type ≠ TTM_PL_TT → mem.mem_type ≠ TTM_PL_VRAM →
        r = -EINVAL) := by
  have hE : (-EINVAL : Int) ≠ 0 := by decide
  have hSV : TTM_PL_SYSTEM ≠ TTM_PL_VRAM := by decide
  have hTV : TTM_PL_TT ≠ TTM_PL_VRAM := by decide
  have hTS : TTM_PL_TT ≠ TTM_PL_SYSTEM := by decide
  have hVS : TTM_PL_VRAM ≠ TTM_PL_SYSTEM := by decide
  have hVT : TTM_PL_VRAM ≠ TTM_PL_TT := by decide
  have hnowrap : mem.start < 2 ^ 51 → mem.num_pages < 2 ^ 51 →
      ((mem.start <<< PAGE_SHIFT) % U64 + (mem.num_pages <<< PAGE_SHIFT) % U64) % U64 =
        (mem.start + mem.num_pages) * PAGE_SIZE := by
    intro h1 h2
    have hU : U64 = 2 ^ 64 := rfl
    have hP : PAGE_SIZE = 4096 := rfl
    have hP2 : (2 : Nat) ^ PAGE_SHIFT = 4096 := by decide
    have e1 : (mem.start * 4096) % U64 = mem.start * 4096 := Nat.mod_eq_of_lt (by omega)
    have e2 : (mem.num_pages * 4096) % U64 = mem.num_pages * 4096 :=
      Nat.mod_eq_of_lt (by omega)
    have e3 : (mem.start * 4096 + mem.num_pages * 4096) % U64 =
        mem.start * 4096 + mem.num_pages * 4096 := Nat.mod_eq_of_lt (by omega)
    rw [Nat.shiftLeft_eq, Nat.shiftLeft_eq, hP2, e1, e2, e3, hP]
    ring
  by_cases hmap : man.flags &&& TTM_MEMTYPE_FLAG_MAPPABLE = 0
  · have hrun : amdgpu_ttm_io_mem_reserve adev mem =
        .ok (-EINVAL,
          { mem with
            bus :=
              { size := (mem.num_pages <<< PAGE_SHIFT) % U64 } }) := by
      unfold amdgpu_ttm_io_mem_reserve
      simp only [hman]
      simp only [hmap, if_true]
    exact ⟨_, _, hrun, Or.inr rfl, fun h => absurd hmap h, fun h => absurd hmap h,
      fun _ => rfl, fun _ _ _ => rfl⟩
  · by_cases hs : mem.mem_type = TTM_PL_SYSTEM
    · have hrun : amdgpu_ttm_io_mem_reserve adev mem =
          .ok (0,
            { mem with
              bus :=
                { size := (mem.num_pages <<< PAGE_SHIFT) % U64 } }) := by
        unfold amdgpu_ttm_io_mem_reserve
        simp only [hman]
        simp only [hmap, hs, if_true, if_false]
      exact ⟨_, _, hrun, Or.inl rfl, fun _ h => absurd (hs.symm.trans h) hSV,
        fun _ _ => ⟨rfl, rfl⟩, fun h => absurd h hmap, fun h => absurd hs h⟩
    · by_cases ht : mem.mem_type = TTM_PL_TT
      · have hrun : amdgpu_ttm_io_mem_reserve adev mem =
            .ok (0,
              { mem with
                bus :=
                  { size := (mem.num_pages <<< PAGE_SHIFT) % U64 } }) := by
          unfold amdgpu_ttm_io_mem_reserve
          simp only [hman]
          simp only [hmap, ht, hTS, ne_eq, not_false_eq_true, if_true, if_false]
        exact ⟨_, _, hrun, Or.inl rfl, fun _ h => absurd (ht.symm.trans h) hTV,
          fun _ h => absurd h hs, fun h => absurd h hmap, fun _ h => absurd ht h⟩
      · by_cases hv : mem.mem_type = TTM_PL_VRAM
        · by_cases hst : mem.start = AMDGPU_BO_INVALID_OFFSET
          · have hrun : amdgpu_ttm_io_mem_reserve adev mem =
                .ok (-EINVAL,
                  { mem with
                    bus :=
                      { size := (mem.num_pages <<< PAGE_SHIFT) % U64 } }) := by
              unfold amdgpu_ttm_io_mem_reserve
              simp only [hman]
              simp only [hmap, hv, hVS, hVT, hst, if_true, if_false]
            refine ⟨_, _, hrun, Or.inr rfl, ?_, fun _ h => absurd h hs, fun h => absurd h hmap,
              fun _ _ h => absurd hv h⟩
            intro _ _
            refine ⟨⟨fun h => absurd h hE, fun h => absurd hst h.1⟩, fun h => absurd h hE, ?_⟩
            intro h51 _
            rw [hst] at h51
            exact absurd h51 (by decide)
          · by_cases hvis : ((mem.start <<< PAGE_SHIFT) % U64 +
                (mem.num_pages <<< PAGE_SHIFT) % U64) % U64 > adev.mc.visible_vram_size
            · have hrun : amdgpu_ttm_io_mem_reserve adev mem =
                  .ok (-EINVAL,
                    { mem with
                      bus :=
                        { size := (mem.num_pages <<< PAGE_SHIFT) % U64
                          offset := (mem.start <<< PAGE_SHIFT) % U64 } }) := by
                unfold amdgpu_ttm_io_mem_reserve
                simp only [hman]
                simp only [hmap, hv, hVS, hVT, hst, hvis, if_true, if_false]
              refine ⟨_, _, hrun, Or.inr rfl, ?_, fun _ h => absurd h hs,
                fun h => absurd h hmap, fun _ _ h => absurd hv h⟩
              intro _ _
              refine ⟨⟨fun h => absurd h hE, fun h => ?_⟩, fun h => absurd h hE, ?_⟩
              · have := h.2
                omega
              · intro h1 h2
                rw [hnowrap h1 h2] at hvis
                exact ⟨fun h => absurd h hE, fun h => by omega⟩
            · have hrun : amdgpu_ttm_io_mem_reserve adev mem =
                  .ok (0,
                    { mem with
                      bus :=
                        { size := (mem.num_pages <<< PAGE_SHIFT) % U64
                          offset := (mem.start <<< PAGE_SHIFT) % U64
                          base := adev.mc.aper_base
                          is_iomem := true } }) := by
                unfold amdgpu_ttm_io_mem_reserve
                simp only [hman]
                simp only [hmap, hv, hVS, hVT, hst, hvis, if_true, if_false]
              refine ⟨_, _, hrun, Or.inl rfl, ?_, fun _ h => absurd h hs,
                fun h => absurd h hmap, fun _ _ h => absurd hv h⟩
              intro _ _
              refine ⟨⟨fun _ => ⟨hst, by omega⟩, fun _ => rfl⟩, fun _ => ⟨rfl, rfl, rfl⟩, ?_⟩
              intro h1 h2
              rw [hnowrap h1 h2] at hvis
              exact ⟨fun _ => by omega, fun _ => rfl⟩
        · have hrun : amdgpu_ttm_io_mem_reserve adev mem =
              .ok (-EINVAL,
                { mem with
                  bus :=
                    { size := (mem.num_pages <<< PAGE_SHIFT) % U64 } }) := by
            unfold amdgpu_ttm_io_mem_reserve
            simp only [hman]
            simp only [hmap, hs, ht, hv, if_false]
          exact ⟨_, _, hrun, Or.inr rfl, fun _ h => absurd h hv, fun _ h => absurd h hs,
            fun h => absurd h hmap, fun _ _ _ => rfl⟩

theorem io_mem_reserve_spec_witness :
    sample_adev_aperture.mman.man.get? TTM_PL_VRAM = some { flags := 3 } ∧
    ∃ r mem1,
      amdgpu_ttm_io_mem_reserve sample_adev_aperture
        (sample_mem TTM_PL_VRAM (some [⟨64, 16⟩]) 64 16) = .ok (r, mem1) ∧
      (r = 0 ∨ r = -EINVAL) := by
  obtain ⟨r, mem1, hrun, hcode, _⟩ := io_mem_reserve_spec sample_adev_aperture
    (sample_mem TTM_PL_VRAM (some [⟨64, 16⟩]) 64 16) { flags := 3 } rfl
  exact ⟨rfl, r, mem1, hrun, hcode⟩

/-! ### The two phases of the TLB flush -/

/-- The statement `tmp &= 1 << vmid; if (tmp)` tests bit `vmid` of the value
read, for every `vmid` a 32-bit shift can take. -/
theorem flush_ack_bit_ne_zero (vmid tmp : Nat) (hvmid : vmid < 32) :
    flush_ack_bit vmid tmp ≠ 0 ↔ tmp.testBit vmid = true := by
  have hlt : 2 ^ vmid < U32 := Nat.pow_lt_pow_right (by decide) hvmid
  have hpos : 0 < 2 ^ vmid := Nat.pos_pow_of_pos _ (by decide)
  unfold flush_ack_bit
  rw [Nat.one_shiftLeft, Nat.mod_eq_of_lt hlt, Nat.and_two_pow]
  cases tmp.testBit vmid
  · simp
  · simp only [Bool.toNat_true, Nat.one_mul, ne_eq, iff_true]
    omega

theorem ack_seen_append (vmid : Nat) (xs ys : List MmioEvent) :
    ack_seen vmid (xs ++ ys) = (ack_seen vmid xs || ack_seen vmid ys) := by
  unfold ack_seen
  rw [List.any_append]

/-- One polling loop with a bound of `n` iterations: it adds reads of the
acknowledgment register, each read that saw the bit clear followed by one
pause; it stops at the first read that sees bit `vmid` set, and otherwise
after `n` reads. The flag it returns says whether a read saw the bit. -/
theorem flush_poll_spec (env : MmioEnv) (ack_reg vmid : Nat) (pause : MmioEvent)
    (hvmid : vmid < 32) (hpr : mmio_reads [pause] = 0) (hpa : ack_seen vmid [pause] = false)
    (n : Nat) :
    ∀ tr : List MmioEvent, ∃ evs,
      flush_poll env ack_reg vmid pause n tr = (ack_seen vmid evs, tr ++ evs) ∧
      (∀ e ∈ evs, e = pause ∨ ∃ val, e = MmioEvent.rreg ack_reg val) ∧
      mmio_reads evs ≤ n ∧ (ack_seen vmid evs = false → mmio_reads evs = n) ∧
      evs.count pause + (if ack_seen vmid evs then 1 else 0) = mmio_reads evs := by
  induction n with
  | zero =>
    intro tr
    exact ⟨[], by simp [flush_poll, ack_seen], by simp, by simp [mmio_reads],
      by simp [mmio_reads], by simp [mmio_reads, ack_seen]⟩
  | succ n ih =>
    intro tr
    have hpc : [MmioEvent.rreg ack_reg (env.rreg32 tr ack_reg % U32)].count pause = 0 := by
      rw [List.count_eq_zero]
      intro hmem
      rw [List.mem_singleton] at hmem
      rw [hmem] at hpr
      simp [mmio_reads] at hpr
    by_cases hbit : flush_ack_bit vmid (env.rreg32 tr ack_reg % U32) ≠ 0
    · have hset := (flush_ack_bit_ne_zero vmid _ hvmid).1 hbit
      have hseen : ack_seen vmid [MmioEvent.rreg ack_reg (env.rreg32 tr ack_reg % U32)] = true := by
        simp [ack_seen, hset]
      refine ⟨[MmioEvent.rreg ack_reg (env.rreg32 tr ack_reg % U32)], ?_, ?_, ?_, ?_, ?_⟩
      · rw [hseen]
        simp only [flush_poll]
        rw [if_pos hbit]
      · intro e he
        rw [List.mem_singleton] at he
        exact Or.inr ⟨_, he⟩
      · simp [mmio_reads]
      · intro h
        rw [hseen] at h
        cases h
      · rw [hseen, hpc]
        simp [mmio_reads]
    · have hclear : (env.rreg32 tr ack_reg % U32).testBit vmid = false := by
        cases hb : (env.rreg32 tr ack_reg % U32).testBit vmid
        · rfl
        · exact absurd ((flush_ack_bit_ne_zero vmid _ hvmid).2 hb) hbit
      have hseen : ack_seen vmid [MmioEvent.rreg ack_reg (env.rreg32 tr ack_reg % U32)] = false := by
        simp [ack_seen, hclear]
      obtain ⟨evs, hrun, hmem, hle, hfull, hcount⟩ :=
        ih (tr ++ [MmioEvent.rreg ack_reg (env.rreg32 tr ack_reg % U32)] ++ [pause])
      have hreads : mmio_reads ([MmioEvent.rreg ack_reg (env.rreg32 tr ack_reg % U32)] ++
          ([pause] ++ evs)) = mmio_reads evs + 1 := by
        rw [mmio_reads_append, mmio_reads_append, hpr]
        simp [mmio_reads]
        omega
      have hacked : ack_seen vmid ([MmioEvent.rreg ack_reg (env.rreg32 tr ack_reg % U32)] ++
          ([pause] ++ evs)) = ack_seen vmid evs := by
        rw [ack_seen_append, ack_seen_append, hseen, hpa]
        simp
      refine ⟨[MmioEvent.rreg ack_reg (env.rreg32 tr ack_reg % U32)] ++ ([pause] ++ evs),
        ?_, ?_, ?_, ?_, ?_⟩
      · rw [hacked]
        simp only [flush_poll]
        rw [if_neg hbit, hrun]
        simp only [List.append_assoc]
      · intro e he
        rcases List.mem_append.1 he with h | h
        · rw [List.mem_singleton] at h
          exact Or.inr ⟨_, h⟩
        · rcases List.mem_append.1 h with h2 | h2
          · rw [List.mem_singleton] at h2
            exact Or.inl h2
          · exact hmem e h2
      · rw [hreads]
        omega
      · intro h
        rw [hacked] at h
        rw [hreads, hfull h]
      · rw [hacked, hreads, List.count_append, List.count_append, hpc]
        simp only [List.count_singleton_self]
        omega

/-- C25. For every hub, history and behaviour of the acknowledgment register,
the body of the flush is one request write followed by a fast phase, a slow
phase and at most one log entry. Both phases hold only reads of the
acknowledgment register and their pauses (`cpu_relax`, `udelay (1)`), so the
request is never written again; a read sees the acknowledgment when bit
`vmid` of its value is set. The fast phase makes at most 100 reads. If one of
them saw the bit, there is no slow phase and no log entry. If none did, all
100 reads were made and the slow phase runs: at most `usec_timeout` reads,
one microsecond delay after each read that saw the bit clear, ended by the
first read that sees the bit or after `usec_timeout` reads. The timeout is
logged exactly when no read of either phase saw the bit. In every case the
function goes on: with the two hubs of the device it returns normally, the
events being those of hub 0, then those of hub 1, then the unlock. -/
theorem flush_gpu_tlb_two_phase (env : MmioEnv) (adev : amdgpu_device) (vmid : Nat)
    (hub0 hub1 : amdgpu_vmhub) (hvmid : vmid < 32) (hhubs : adev.vmhub = [hub0, hub1]) :
    (∀ (i : Nat) (hub : amdgpu_vmhub) (tr : List MmioEvent), ∃ fast slow log,
      flush_hub env adev vmid i hub tr =
        tr ++ [MmioEvent.wreg ((hub.vm_inv_eng0_req + 17) % U32)
          (env.get_invalidate_req i vmid % U32)] ++ fast ++ slow ++ log ∧
      (∀ e ∈ fast, e = MmioEvent.cpu_relax ∨
        ∃ val, e = MmioEvent.rreg ((hub.vm_inv_eng0_ack + 17) % U32) val) ∧
      (∀ e ∈ slow, e = MmioEvent.udelay 1 ∨
        ∃ val, e = MmioEvent.rreg ((hub.vm_inv_eng0_ack + 17) % U32) val) ∧
      mmio_reads fast ≤ 100 ∧ mmio_reads slow ≤ adev.usec_timeout ∧
      slow.count (MmioEvent.udelay 1) + (if ack_seen vmid slow then 1 else 0) =
        mmio_reads slow ∧
      (ack_seen vmid fast = true → slow = [] ∧ log = []) ∧
      (ack_seen vmid fast = false → mmio_reads fast = 100 ∧
        (ack_seen vmid slow = true ∨ mmio_reads slow = adev.usec_timeout)) ∧
      (log = [MmioEvent.drm_error_timeout] ↔
        (ack_seen vmid fast = false ∧ ack_seen vmid slow = false)) ∧
      (log = [] ∨ log = [MmioEvent.drm_error_timeout])) ∧
    gmc_v9_0_gart_flush_gpu_tlb env adev vmid =
      .ok (flush_hub env adev vmid 1 hub1
        (flush_hub env adev vmid 0 hub0 [MmioEvent.hdp_flush, MmioEvent.spin_lock]) ++
          [MmioEvent.spin_unlock]) := by
  constructor
  · intro i hub tr
    obtain ⟨fast, hfast, hfm, hfle, hffull, _⟩ := flush_poll_spec env
      ((hub.vm_inv_eng0_ack + 17) % U32) vmid MmioEvent.cpu_relax hvmid rfl rfl 100
      (tr ++ [MmioEvent.wreg ((hub.vm_inv_eng0_req + 17) % U32)
        (env.get_invalidate_req i vmid % U32)])
    cases hsf : ack_seen vmid fast
    · obtain ⟨slow, hslow, hsm, hsle, hsfull, hscount⟩ := flush_poll_spec env
        ((hub.vm_inv_eng0_ack + 17) % U32) vmid (MmioEvent.udelay 1) hvmid rfl rfl
        adev.usec_timeout
        (tr ++ [MmioEvent.wreg ((hub.vm_inv_eng0_req + 17) % U32)
          (env.get_invalidate_req i vmid % U32)] ++ fast)
      cases hss : ack_seen vmid slow
      · refine ⟨fast, slow, [MmioEvent.drm_error_timeout], ?_, hfm, hsm, hfle, hsle, hscount,
          ?_, ?_, ?_, Or.inr rfl⟩
        · unfold flush_hub
          simp only [hfast, hsf, hslow, hss, if_false, Bool.false_eq_true]
        · intro h; rw [hsf] at h; cases h
        · intro _; exact ⟨hffull hsf, Or.inr (hsfull hss)⟩
        · rw [hsf, hss]; simp
      · refine ⟨fast, slow, [], ?_, hfm, hsm, hfle, hsle, hscount, ?_, ?_, ?_, Or.inl rfl⟩
        · unfold flush_hub
          simp only [hfast, hsf, hslow, hss, if_true, if_false, Bool.false_eq_true,
            List.append_nil]
        · intro h; rw [hsf] at h; cases h
        · intro _; exact ⟨hffull hsf, Or.inl hss⟩
        · rw [hsf, hss]; simp
    · refine ⟨fast, [], [], ?_, hfm, by simp, hfle, by simp [mmio_reads], by simp [mmio_reads, ack_seen],
        fun _ => ⟨rfl, rfl⟩, ?_, ?_, Or.inl rfl⟩
      · unfold flush_hub
        simp only [hfast, hsf, if_true, List.append_nil]
      · intro h; rw [hsf] at h; cases h
      · rw [hsf]; simp
  · unfold gmc_v9_0_gart_flush_gpu_tlb AMDGPU_MAX_VMHUBS
    simp only [flush_hubs, hhubs, List.get?]

theorem flush_gpu_tlb_two_phase_witness :
    gmc_v9_0_gart_flush_gpu_tlb mmio_silent sample_adev_hubs 3 =
      .ok (flush_hub mmio_silent sample_adev_hubs 3 1 ⟨0x300, 0x400⟩
        (flush_hub mmio_silent sample_adev_hubs 3 0 ⟨0x100, 0x200⟩
          [MmioEvent.hdp_flush, MmioEvent.spin_lock]) ++ [MmioEvent.spin_unlock]) :=
  (flush_gpu_tlb_two_phase mmio_silent sample_adev_hubs 3 ⟨0x100, 0x200⟩ ⟨0x300, 0x400⟩
    (by decide) rfl).2

/-! ### The fence protocol of `amdgpu_move_blit` -/

theorem fence_events_append (xs ys : List Event) :
    fence_events (xs ++ ys) = fence_events xs ++ fence_events ys := by
  unfold fence_events
  rw [List.filter_append]

theorem fence_chain_append (fs gs : List Nat) :
    ∀ prev, fence_chain prev (fs ++ gs) =
      fence_chain prev fs ++ fence_chain (last_fence prev fs) gs := by
  induction fs with
  | nil => intro prev; rfl
  | cons f fs ih =>
    intro prev
    show Event.job_submit 0 f :: Event.fence_put prev :: fence_chain (some f) (fs ++ gs) = _
    rw [ih]
    rfl

theorem last_fence_append (fs gs : List Nat) :
    ∀ prev, last_fence prev (fs ++ gs) = last_fence (last_fence prev fs) gs := by
  induction fs with
  | nil => intro prev; rfl
  | cons f fs ih =>
    intro prev
    show last_fence (some f) (fs ++ gs) = _
    rw [ih]
    rfl

/-- After at least one copy the fence held is the fence of the last copy. -/
theorem last_fence_concat (fs : List Nat) (f : Nat) (prev : Option Nat) :
    last_fence prev (fs ++ [f]) = some f := by
  rw [last_fence_append]
  rfl

theorem last_code_append_of_some (xs ys : List Event) (r : Int)
    (h : last_code ys = some r) : last_code (xs ++ ys) = some r := by
  unfold last_code at h ⊢
  rw [List.filterMap_append, List.getLast?_append, h]
  rfl

theorem last_code_append_of_nil (xs ys : List Event)
    (h : ys.filterMap event_code = []) : last_code (xs ++ ys) = last_code xs := by
  unfold last_code
  rw [List.filterMap_append, h, List.append_nil]

theorem codes_ok_nil : codes_ok [] := by
  intro c hc
  simp at hc

theorem codes_ok_append (xs ys : List Event) (hx : codes_ok xs) (hy : codes_ok ys) :
    codes_ok (xs ++ ys) := by
  intro c hc
  rw [List.filterMap_append, List.mem_append] at hc
  rcases hc with h | h
  · exact hx c h
  · exact hy c h

theorem codes_ok_of_silent (xs : List Event) (h : xs.filterMap event_code = []) :
    codes_ok xs := by
  intro c hc
  rw [h] at hc
  simp at hc

theorem step_code_append (r : Int) (xs ys : List Event) (hx : codes_ok xs)
    (h : step_code r ys) : step_code r (xs ++ ys) := by
  rcases h with h | h
  · exact Or.inl (last_code_append_of_some xs ys r h)
  · exact Or.inr ⟨h.1, codes_ok_append xs ys hx h.2⟩

theorem step_code_append_nil (r : Int) (xs ys : List Event) (h : step_code r xs)
    (hys : ys.filterMap event_code = []) : step_code r (xs ++ ys) := by
  rcases h with h | h
  · exact Or.inl (by rw [last_code_append_of_nil xs ys hys]; exact h)
  · exact Or.inr ⟨h.1, codes_ok_append xs ys h.2 (codes_ok_of_silent ys hys)⟩

theorem silent_step_refl (w : World) : silent_step w w 0 :=
  ⟨rfl, [], by simp, rfl, fun _ => codes_ok_nil, fun h => absurd rfl h⟩

theorem silent_step_einval (w : World) : silent_step w w (-EINVAL) :=
  ⟨rfl, [], by simp, rfl, fun _ => codes_ok_nil, fun _ => Or.inr ⟨rfl, codes_ok_nil⟩⟩

theorem silent_step_trans (w w1 w2 : World) (r : Int) (h1 : silent_step w w1 0)
    (h2 : silent_step w1 w2 r) : silent_step w w2 r := by
  obtain ⟨hc1, evs1, ht1, hf1, hok1, _⟩ := h1
  obtain ⟨hc2, evs2, ht2, hf2, hok2, hcode2⟩ := h2
  refine ⟨hc2.trans hc1, evs1 ++ evs2, by rw [ht2, ht1, List.append_assoc], ?_, ?_, ?_⟩
  · rw [fence_events_append, hf1, hf2]
    rfl
  · intro hr
    exact codes_ok_append _ _ (hok1 rfl) (hok2 hr)
  · intro hr
    exact step_code_append r _ _ (hok1 rfl) (hcode2 hr)

theorem copies_issued_append (xs ys : List Event) :
    copies_issued (xs ++ ys) = copies_issued xs ++ copies_issued ys := by
  unfold copies_issued
  rw [List.filterMap_append]

/-- The copies a list of calls issued can be read off its fence protocol. -/
theorem copies_issued_fence_events (evs : List Event) :
    copies_issued (fence_events evs) = copies_issued evs := by
  induction evs with
  | nil => rfl
  | cons e evs ih =>
    cases e with
    | job_submit r f =>
      by_cases hr : r = 0
      · simp only [fence_events, List.filter_cons, is_fence_event, hr, decide_True, if_true,
          copies_issued, List.filterMap_cons]
        simp only [fence_events, copies_issued] at ih
        rw [ih]
      · simp only [fence_events, List.filter_cons, is_fence_event, hr, decide_False,
          Bool.false_eq_true, if_false, copies_issued, List.filterMap_cons]
        simp only [fence_events, copies_issued] at ih
        rw [ih]
    | _ =>
      simp only [fence_events, List.filter_cons, is_fence_event, if_true, if_false,
        Bool.false_eq_true, copies_issued, List.filterMap_cons]
      simp only [fence_events, copies_issued] at ih
      rw [ih]

theorem copies_issued_fence_chain (fs : List Nat) :
    ∀ prev, copies_issued (fence_chain prev fs) = fs := by
  induction fs with
  | nil => intro prev; rfl
  | cons f fs ih =>
    intro prev
    simp only [fence_chain, copies_issued, List.filterMap_cons, if_true]
    simp only [copies_issued] at ih
    rw [ih]

/-- The copy commands are no part of the fence protocol and report no code. -/
theorem copy_buffer_loop_silent (max_bytes : Nat) (n : Nat) :
    ∀ s d b : Nat, fence_events (copy_buffer_loop max_bytes n s d b) = [] ∧
      (copy_buffer_loop max_bytes n s d b).filterMap event_code = [] := by
  induction n with
  | zero => intro s d b; exact ⟨rfl, rfl⟩
  | succ n ih =>
    intro s d b
    obtain ⟨h1, h2⟩ := ih ((s + min b max_bytes) % U64) ((d + min b max_bytes) % U64)
      (b - min b max_bytes)
    constructor
    · simp only [copy_buffer_loop, fence_events, List.filter_cons, is_fence_event]
      exact h1
    · simp only [copy_buffer_loop, List.filterMap_cons, event_code]
      exact h2

/-- One call `amdgpu_copy_buffer (..., &next, false)`: it leaves buffer and
device alone; when it returns 0 every collaborator reported 0, the one call
of the fence protocol is the job submission, and `next` holds that job's
fence; when it returns an error no job was submitted and the code is the one
its last collaborator reported. -/
theorem copy_buffer_fence (env : Env) (w : World) (src_offset dst_offset byte_count : Nat)
    (resv : Bool) (r : Int) (w1 : World) (next : Option Nat)
    (h : amdgpu_copy_buffer env w src_offset dst_offset byte_count resv false =
      .ok (r, w1, next)) :
    w1.abo = w.abo ∧ w1.adev = w.adev ∧ ∃ evs, w1.trace = w.trace ++ evs ∧
      ((r = 0 ∧ ∃ f, next = some f ∧ fence_events evs = [Event.job_submit 0 f] ∧ codes_ok evs) ∨
        (r ≠ 0 ∧ fence_events evs = [] ∧ last_code evs = some r)) := by
  unfold amdgpu_copy_buffer at h
  cases hbf : w.adev.mman.buffer_funcs with
  | none => simp [hbf] at h
  | some funcs =>
    simp only [hbf] at h
    obtain ⟨hs1, hs2⟩ := copy_buffer_loop_silent (funcs.copy_max_bytes % U32)
      (DIV_ROUND_UP (byte_count % U32) (funcs.copy_max_bytes % U32))
      (src_offset % U64) (dst_offset % U64) (byte_count % U32)
    generalize env.amdgpu_job_alloc_with_ib w.trace
          ((ib_pad_dw 8 ((DIV_ROUND_UP (byte_count % U32) (funcs.copy_max_bytes % U32) *
            funcs.copy_num_dw) % U32) * 4) % U32) = ra at h
    generalize copy_buffer_loop (funcs.copy_max_bytes % U32)
            (DIV_ROUND_UP (byte_count % U32) (funcs.copy_max_bytes % U32))
            (src_offset % U64) (dst_offset % U64) (byte_count % U32) = cmds at h hs1 hs2
    cases resv with
    | false =>
      simp only [Bool.false_eq_true, if_false, ne_eq, not_true_eq_false] at h
      generalize env.amdgpu_job_submit _ = rsub at h
      split_ifs at h with h1 h2 h3
      all_goals simp only [Except.ok.injEq, Prod.mk.injEq] at h
      all_goals obtain ⟨hr, hw, hn⟩ := h
      all_goals subst hw
      all_goals subst hr
      all_goals refine ⟨rfl, rfl, _, by simp only [List.append_assoc]; rfl, ?_⟩
      all_goals first
        | (left
           refine ⟨rfl, _, hn.symm, ?_, ?_⟩
           · simp only [fence_events_append, hs1]
             simp [fence_events, is_fence_event]
           · intro c hc
             simp only [List.filterMap_append, hs2] at hc
             simp [event_code, *] at hc
             omega)
        | (right
           refine ⟨by assumption, ?_, ?_⟩
           · try simp only [fence_events_append, hs1]
             simp [fence_events, is_fence_event, *]
           · simp only [last_code]
             try simp only [List.filterMap_append, hs2]
             simp [event_code])
    | true =>
      simp only [if_true, ne_eq, not_true_eq_false, Bool.false_eq_true, if_false] at h
      generalize env.amdgpu_sync_resv _ = rs at h
      generalize env.amdgpu_job_submit _ = rsub at h
      split_ifs at h with h1 h2 h3 h4
      all_goals simp only [Except.ok.injEq, Prod.mk.injEq] at h
      all_goals obtain ⟨hr, hw, hn⟩ := h
      all_goals subst hw
      all_goals subst hr
      all_goals refine ⟨rfl, rfl, _, by simp only [List.append_assoc]; rfl, ?_⟩
      all_goals first
        | (left
           refine ⟨rfl, _, hn.symm, ?_, ?_⟩
           · simp only [fence_events_append, hs1]
             simp [fence_events, is_fence_event]
           · intro c hc
             simp only [List.filterMap_append, hs2] at hc
             simp [event_code, *] at hc
             omega)
        | (right
           refine ⟨by assumption, ?_, ?_⟩
           · try simp only [fence_events_append, hs1]
             simp [fence_events, is_fence_event, *]
           · simp only [last_code]
             try simp only [List.filterMap_append, hs2]
             simp [event_code])

/-- A call of `amdgpu_ttm_bind` is a silent step. -/
theorem ttm_bind_silent (env : Env) (w : World) (bo_mem : ttm_mem_reg) (r : Int) (w1 : World)
    (mem1 : ttm_mem_reg) (h : amdgpu_ttm_bind env w bo_mem = .ok (r, w1, mem1)) :
    silent_step w w1 r := by
  unfold amdgpu_ttm_bind at h
  cases httm : w.abo.tbo.ttm with
  | none =>
    simp only [httm, Except.ok.injEq, Prod.mk.injEq] at h
    obtain ⟨hr, hw, _⟩ := h
    subst hw
    subst hr
    exact silent_step_refl w
  | some gtt =>
    simp only [httm] at h
    generalize env.amdgpu_gtt_mgr_alloc w.trace w.abo.tbo bo_mem = ra at h
    split_ifs at h with h1 h2
    · simp only [Except.ok.injEq, Prod.mk.injEq] at h
      obtain ⟨hr, hw, _⟩ := h
      subst hw
      subst hr
      exact silent_step_refl w
    · simp only [Except.ok.injEq, Prod.mk.injEq] at h
      obtain ⟨hr, hw, _⟩ := h
      subst hw
      subst hr
      exact ⟨rfl, _, rfl, by simp [fence_events, is_fence_event], fun h0 => absurd h0 h2,
        fun _ => Or.inl (by simp [last_code, event_code])⟩
    · cases hpf : amdgpu_ttm_tt_pte_flags w.adev (some gtt) (some ra.2) with
      | error e => simp [hpf] at h
      | ok flags =>
        simp only [hpf] at h
        generalize env.amdgpu_gart_bind _ _ _ _ = rg at h
        have hra : ra.1 = 0 := by
          by_contra hne
          exact h2 hne
        split_ifs at h with h3
        · simp only [Except.ok.injEq, Prod.mk.injEq] at h
          obtain ⟨hr, hw, _⟩ := h
          subst hw
          subst hr
          exact ⟨rfl, _, by simp only [List.append_assoc]; rfl,
            by simp [fence_events, is_fence_event], fun h0 => absurd h0 h3,
            fun _ => Or.inl (by simp [last_code, event_code])⟩
        · simp only [Except.ok.injEq, Prod.mk.injEq] at h
          obtain ⟨hr, hw, _⟩ := h
          subst hw
          subst hr
          have hrg : rg = 0 := by
            by_contra hne
            exact h3 hne
          refine ⟨rfl, _, by simp only [List.append_assoc]; rfl,
            by simp [fence_events, is_fence_event], fun _ => ?_, fun hne => absurd rfl hne⟩
          intro c hc
          simp [event_code, hra, hrg] at hc
          omega

/-- A call of `amdgpu_mm_node_addr` is a silent step. -/
theorem mm_node_addr_silent (env : Env) (w : World) (i : Nat) (mem : ttm_mem_reg) (addr : Nat)
    (r : Int) (w1 : World) (mem1 : ttm_mem_reg) (a : Nat)
    (h : amdgpu_mm_node_addr env w i mem addr = .ok (r, w1, mem1, a)) :
    silent_step w w1 r := by
  unfold amdgpu_mm_node_addr at h
  split_ifs at h with h1 h2
  · cases hb : amdgpu_ttm_bind env w mem with
    | error e => simp [hb] at h
    | ok p =>
      obtain ⟨rb, wb, mb⟩ := p
      simp only [hb] at h
      have hs := ttm_bind_silent env w mem rb wb mb hb
      split_ifs at h with h3
      · simp only [Except.ok.injEq, Prod.mk.injEq] at h
        obtain ⟨hr, hw, _⟩ := h
        subst hw
        subst hr
        exact hs
      · cases hv : mm_node_addr_vram wb i mb with
        | error e => simp [hv] at h
        | ok a1 =>
          simp only [hv, Except.ok.injEq, Prod.mk.injEq] at h
          obtain ⟨hr, hw, _⟩ := h
          subst hw
          subst hr
          have hrb : rb = 0 := by
            by_contra hne
            exact h3 hne
          rw [hrb] at hs
          exact hs
  · cases hv : mm_node_addr_vram w i mem with
    | error e => simp [hv] at h
    | ok a1 =>
      simp only [hv, Except.ok.injEq, Prod.mk.injEq] at h
      obtain ⟨hr, hw, _⟩ := h
      subst hw
      subst hr
      exact silent_step_refl w
  · simp only [Except.ok.injEq, Prod.mk.injEq] at h
    obtain ⟨hr, hw, _⟩ := h
    subst hw
    subst hr
    exact silent_step_einval w

/-- The address lookup on the source side is a silent step. -/
theorem old_mm_node_addr_silent (env : Env) (w : World) (i : Nat) (addr : Nat)
    (r : Int) (w1 : World) (a : Nat)
    (h : old_mm_node_addr env w i addr = .ok (r, w1, a)) : silent_step w w1 r := by
  unfold old_mm_node_addr at h
  cases hm : amdgpu_mm_node_addr env w i w.abo.tbo.mem addr with
  | error e => simp [hm] at h
  | ok p =>
    obtain ⟨r0, w0, m0, a0⟩ := p
    simp only [hm, Except.ok.injEq, Prod.mk.injEq] at h
    obtain ⟨hr, hw, _⟩ := h
    subst hw
    subst hr
    exact mm_node_addr_silent env w i w.abo.tbo.mem addr r0 w0 m0 a0 hm

/-- Stepping the source cursor is a silent step that keeps the fence held. -/
theorem advance_old_silent (env : Env) (cur_pages : Nat) (v : blit_vars) (w : World)
    (r : Int) (v1 : blit_vars) (w1 : World)
    (h : move_blit_advance_old env cur_pages v w = .ok (r, v1, w1)) :
    silent_step w w1 r ∧ v1.fence = v.fence := by
  unfold move_blit_advance_old at h
  dsimp only at h
  split_ifs at h with h1
  · cases hm : old_mm_node_addr env w (v.old_mm + 1) v.old_start with
    | error e => simp [hm] at h
    | ok p =>
      obtain ⟨r0, w0, a0⟩ := p
      simp only [hm] at h
      have hs := old_mm_node_addr_silent env w _ _ r0 w0 a0 hm
      split_ifs at h with h2
      · simp only [Except.ok.injEq, Prod.mk.injEq] at h
        obtain ⟨hr, hv, hw⟩ := h
        subst hw
        subst hr
        subst hv
        exact ⟨hs, rfl⟩
      · cases hn : mm_node_at w0.abo.tbo.mem (v.old_mm + 1) with
        | error e => simp [hn] at h
        | ok node =>
          simp only [hn, Except.ok.injEq, Prod.mk.injEq] at h
          obtain ⟨hr, hv, hw⟩ := h
          subst hw
          subst hr
          subst hv
          have hr0 : r0 = 0 := by
            by_contra hne
            exact h2 hne
          rw [hr0] at hs
          exact ⟨hs, rfl⟩
  · simp only [Except.ok.injEq, Prod.mk.injEq] at h
    obtain ⟨hr, hv, hw⟩ := h
    subst hw
    subst hr
    subst hv
    exact ⟨silent_step_refl w, rfl⟩

/-- Stepping the destination cursor is a silent step that keeps the fence
held. -/
theorem advance_new_silent (env : Env) (cur_pages : Nat) (v : blit_vars) (w : World)
    (new_mem : ttm_mem_reg) (r : Int) (v1 : blit_vars) (w1 : World) (nm1 : ttm_mem_reg)
    (h : move_blit_advance_new env cur_pages v w new_mem = .ok (r, v1, w1, nm1)) :
    silent_step w w1 r ∧ v1.fence = v.fence := by
  unfold move_blit_advance_new at h
  dsimp only at h
  split_ifs at h with h1
  · cases hm : amdgpu_mm_node_addr env w (v.new_mm + 1) new_mem v.new_start with
    | error e => simp [hm] at h
    | ok p =>
      obtain ⟨r0, w0, m0, a0⟩ := p
      simp only [hm] at h
      have hs := mm_node_addr_silent env w _ _ _ r0 w0 m0 a0 hm
      split_ifs at h with h2
      · simp only [Except.ok.injEq, Prod.mk.injEq] at h
        obtain ⟨hr, hv, hw, _⟩ := h
        subst hw
        subst hr
        subst hv
        exact ⟨hs, rfl⟩
      · cases hn : mm_node_at m0 (v.new_mm + 1) with
        | error e => simp [hn] at h
        | ok node =>
          simp only [hn, Except.ok.injEq, Prod.mk.injEq] at h
          obtain ⟨hr, hv, hw, _⟩ := h
          subst hw
          subst hr
          subst hv
          have hr0 : r0 = 0 := by
            by_contra hne
            exact h2 hne
          rw [hr0] at hs
          exact ⟨hs, rfl⟩
  · simp only [Except.ok.injEq, Prod.mk.injEq] at h
    obtain ⟨hr, hv, hw, _⟩ := h
    subst hw
    subst hr
    subst hv
    exact ⟨silent_step_refl w, rfl⟩

/-- Stepping both cursors is a silent step that keeps the fence held. -/
theorem advance_silent (env : Env) (cur_pages : Nat) (v : blit_vars) (w : World)
    (new_mem : ttm_mem_reg) (r : Int) (v1 : blit_vars) (w1 : World) (nm1 : ttm_mem_reg)
    (h : move_blit_advance env cur_pages v w new_mem = .ok (r, v1, w1, nm1)) :
    silent_step w w1 r ∧ v1.fence = v.fence := by
  unfold move_blit_advance at h
  cases ho : move_blit_advance_old env cur_pages v w with
  | error e => simp [ho] at h
  | ok p =>
    obtain ⟨r0, v0, w0⟩ := p
    simp only [ho] at h
    obtain ⟨hs0, hf0⟩ := advance_old_silent env cur_pages v w r0 v0 w0 ho
    split_ifs at h with h1
    · simp only [Except.ok.injEq, Prod.mk.injEq] at h
      obtain ⟨hr, hv, hw, _⟩ := h
      subst hw
      subst hr
      subst hv
      exact ⟨hs0, hf0⟩
    · have hr0 : r0 = 0 := by
        by_contra hne
        exact h1 hne
      rw [hr0] at hs0
      obtain ⟨hs1, hf1⟩ := advance_new_silent env cur_pages v0 w0 new_mem r v1 w1 nm1 h
      exact ⟨silent_step_trans w w0 w1 r hs0 hs1, hf1.trans hf0⟩

theorem copies_issued_of_fence_events (evs : List Event) (fs : List Event)
    (h : fence_events evs = fs) : copies_issued evs = copies_issued fs := by
  rw [← copies_issued_fence_events, h]

/-- The loop of `amdgpu_move_blit`, whatever the collaborators answer: it
leaves the bytes-moved counter alone; to the fence protocol its calls are one
submission per copy issued, each followed by the drop of the fence held
before; the fence it holds at the end is the one of the last copy issued (or
the one it started with); if it ends with code 0 every collaborator reported
0, and otherwise the code is the one of the failed step. -/
theorem move_blit_loop_fences (env : Env) :
    ∀ (fuel : Nat) (v : blit_vars) (w : World) (nm : ttm_mem_reg) (r : Int) (v1 : blit_vars)
      (w1 : World) (nm1 : ttm_mem_reg),
      amdgpu_move_blit_loop env fuel v w nm = .ok (r, v1, w1, nm1) →
      w1.adev.num_bytes_moved = w.adev.num_bytes_moved ∧ ∃ evs, w1.trace = w.trace ++ evs ∧
        fence_events evs = fence_chain v.fence (copies_issued evs) ∧
        v1.fence = last_fence v.fence (copies_issued evs) ∧
        (r = 0 → codes_ok evs) ∧ (r ≠ 0 → step_code r evs) := by
  intro fuel
  induction fuel with
  | zero =>
    intro v w nm r v1 w1 nm1 h
    unfold amdgpu_move_blit_loop at h
    split_ifs at h with h0
    simp only [Except.ok.injEq, Prod.mk.injEq] at h
    obtain ⟨hr, hv, hw, _⟩ := h
    subst hw
    subst hr
    subst hv
    exact ⟨rfl, [], by simp, rfl, rfl, fun _ => codes_ok_nil, fun hne => absurd rfl hne⟩
  | succ fuel ih =>
    intro v w nm r v1 w1 nm1 h
    unfold amdgpu_move_blit_loop at h
    split_ifs at h with h0
    · simp only [Except.ok.injEq, Prod.mk.injEq] at h
      obtain ⟨hr, hv, hw, _⟩ := h
      subst hw
      subst hr
      subst hv
      exact ⟨rfl, [], by simp, rfl, rfl, fun _ => codes_ok_nil, fun hne => absurd rfl hne⟩
    · dsimp only at h
      cases hc : amdgpu_copy_buffer env w v.old_start v.new_start
          ((min v.old_size v.new_size * PAGE_SIZE) % U64) w.abo.tbo.resv false with
      | error e => simp [hc] at h
      | ok p =>
        obtain ⟨rc, wc, next⟩ := p
        simp only [hc] at h
        obtain ⟨habo, hadev, evc, htc, hcase⟩ := copy_buffer_fence env w _ _ _ _ rc wc next hc
        rcases hcase with ⟨hrc, f, hnext, hfc, hokc⟩ | ⟨hrc, hfc, hcodec⟩
        · have hic : copies_issued evc = [f] := by
            rw [copies_issued_of_fence_events evc _ hfc]
            rfl
          rw [if_neg (by rw [hrc]; simp)] at h
          split_ifs at h with h1
          · simp only [Except.ok.injEq, Prod.mk.injEq] at h
            obtain ⟨hr, hv, hw, _⟩ := h
            subst hw
            subst hr
            subst hv
            refine ⟨by rw [hadev], evc ++ [Event.fence_put v.fence],
              by simp only [htc, List.append_assoc], ?_, ?_, ?_, fun hne => absurd rfl hne⟩
            · rw [fence_events_append, hfc, copies_issued_append, hic]
              rfl
            · rw [copies_issued_append, hic, hnext]
              rfl
            · intro _
              exact codes_ok_append _ _ hokc (codes_ok_of_silent _ rfl)
          · cases ha : move_blit_advance env (min v.old_size v.new_size)
                { v with fence := next,
                         num_pages := (v.num_pages + U64 - min v.old_size v.new_size) % U64 }
                { wc with trace := wc.trace ++ [Event.fence_put v.fence] } nm with
            | error e => simp [ha] at h
            | ok q =>
              obtain ⟨ra, va, wa, nma⟩ := q
              simp only [ha] at h
              obtain ⟨⟨hcnt, eva, hta, hfa, hoka, hcodea⟩, hfence⟩ :=
                advance_silent env _ _ _ nm ra va wa nma ha
              have hia : copies_issued eva = [] := by
                rw [copies_issued_of_fence_events eva _ hfa]
                rfl
              have hpre : codes_ok (evc ++ [Event.fence_put v.fence]) :=
                codes_ok_append _ _ hokc (codes_ok_of_silent _ rfl)
              split_ifs at h with h2
              · simp only [Except.ok.injEq, Prod.mk.injEq] at h
                obtain ⟨hr, hv, hw, _⟩ := h
                subst hw
                subst hr
                subst hv
                refine ⟨by rw [hcnt, hadev], evc ++ [Event.fence_put v.fence] ++ eva,
                  by rw [hta]; simp only [htc, List.append_assoc], ?_, ?_,
                  fun h0 => absurd h0 h2, ?_⟩
                · rw [fence_events_append, fence_events_append, hfc, hfa, copies_issued_append,
                    copies_issued_append, hic, hia]
                  rfl
                · rw [copies_issued_append, copies_issued_append, hic, hia, hfence, hnext]
                  rfl
                · intro hne
                  exact step_code_append _ _ _ hpre (hcodea hne)
              · have hra : ra = 0 := by
                  by_contra hne
                  exact h2 hne
                obtain ⟨hcnt2, evl, htl, hfl, hvl, hokl, hcodel⟩ :=
                  ih va wa nma r v1 w1 nm1 h
                have hva : va.fence = some f := by rw [hfence, hnext]
                rw [hva] at hfl hvl
                refine ⟨by rw [hcnt2, hcnt, hadev],
                  evc ++ [Event.fence_put v.fence] ++ eva ++ evl,
                  by rw [htl, hta]; simp only [htc, List.append_assoc], ?_, ?_, ?_, ?_⟩
                · rw [fence_events_append, fence_events_append, fence_events_append, hfc, hfa,
                    hfl, copies_issued_append, copies_issued_append, copies_issued_append, hic,
                    hia]
                  rfl
                · rw [copies_issued_append, copies_issued_append, copies_issued_append, hic,
                    hia, hvl]
                  rfl
                · intro hr
                  exact codes_ok_append _ _ (codes_ok_append _ _ hpre (hoka hra)) (hokl hr)
                · intro hne
                  exact step_code_append _ _ _ (codes_ok_append _ _ hpre (hoka hra))
                    (hcodel hne)
        · rw [if_pos hrc] at h
          simp only [Except.ok.injEq, Prod.mk.injEq] at h
          obtain ⟨hr, hv, hw, _⟩ := h
          subst hw
          subst hr
          subst hv
          have hic : copies_issued evc = [] := by
            rw [copies_issued_of_fence_events evc _ hfc]
            rfl
          refine ⟨by rw [hadev], evc, htc, ?_, ?_, fun h0 => absurd h0 hrc,
            fun _ => Or.inl hcodec⟩
          · rw [hfc, hic]
            rfl
          · rw [hic]
            rfl

/-- Every run of `amdgpu_move_blit`, whatever the collaborators answer,
leaves the bytes-moved counter alone and ends in one of three ways. It stops
before the loop with an error and no call of the fence protocol. Or a step of
the loop fails: after the calls of the loop (`body`) it waits on the fence of
the last copy issued, if there is one, and drops it. Or the loop ends and the
move is committed with the fence of the last copy issued, which is dropped
afterwards; then every collaborator before the commit reported 0. -/
theorem move_blit_protocol (env : Env) (fuel : Nat) (evict : Bool) (w : World)
    (new_mem : ttm_mem_reg) (r : Int) (w1 : World) (nm1 : ttm_mem_reg)
    (h : amdgpu_move_blit env fuel evict w new_mem = .ok (r, w1, nm1)) :
    w1.adev.num_bytes_moved = w.adev.num_bytes_moved ∧ ∃ evs, w1.trace = w.trace ++ evs ∧
      ((r ≠ 0 ∧ step_code r evs ∧ fence_events evs = []) ∨
        (r ≠ 0 ∧ ∃ body,
          evs = body ++ fence_waits (last_fence none (copies_issued body)) ++
            [Event.fence_put (last_fence none (copies_issued body))] ∧
          step_code r body ∧ fence_events body = fence_chain none (copies_issued body)) ∨
        (∃ body,
          evs = body ++ [Event.pipeline_move (last_fence none (copies_issued body)) r,
            Event.fence_put (last_fence none (copies_issued body))] ∧
          codes_ok body ∧ fence_events body = fence_chain none (copies_issued body))) := by
  unfold amdgpu_move_blit at h
  cases hring : w.adev.mman.buffer_funcs_ring with
  | none => simp [hring] at h
  | some ring =>
    simp only [hring] at h
    by_cases h0 : ring.ready = true
    swap
    · rw [if_pos h0] at h
      simp only [Except.ok.injEq, Prod.mk.injEq] at h
      obtain ⟨hr, hw, _⟩ := h
      subst hw
      subst hr
      exact ⟨rfl, [], by simp, Or.inl ⟨by decide, Or.inr ⟨rfl, codes_ok_nil⟩, rfl⟩⟩
    · rw [if_neg (fun hn => hn h0)] at h
      cases ho : old_mm_node_addr env w 0 0 with
      | error e => simp [ho] at h
      | ok p =>
        obtain ⟨r0, w0, a0⟩ := p
        simp only [ho] at h
        obtain ⟨hc0, ev0, ht0, hf0, hok0, hcode0⟩ := old_mm_node_addr_silent env w 0 0 r0 w0 a0 ho
        split_ifs at h with h1
        · simp only [Except.ok.injEq, Prod.mk.injEq] at h
          obtain ⟨hr, hw, _⟩ := h
          subst hw
          subst hr
          exact ⟨hc0, ev0, ht0, Or.inl ⟨h1, hcode0 h1, hf0⟩⟩
        · have hr0 : r0 = 0 := by
            by_contra hne
            exact h1 hne
          cases hn : mm_node_at w0.abo.tbo.mem 0 with
          | error e => simp [hn] at h
          | ok old_node =>
            simp only [hn] at h
            cases hm : amdgpu_mm_node_addr env w0 0 new_mem 0 with
            | error e => simp [hm] at h
            | ok q =>
              obtain ⟨r2, w2, m2, a2⟩ := q
              simp only [hm] at h
              obtain ⟨hc2, ev2, ht2, hf2, hok2, hcode2⟩ :=
                mm_node_addr_silent env w0 0 new_mem 0 r2 w2 m2 a2 hm
              split_ifs at h with h2
              · simp only [Except.ok.injEq, Prod.mk.injEq] at h
                obtain ⟨hr, hw, _⟩ := h
                subst hw
                subst hr
                refine ⟨hc2.trans hc0, ev0 ++ ev2, by rw [ht2, ht0, List.append_assoc],
                  Or.inl ⟨h2, step_code_append _ _ _ (hok0 hr0) (hcode2 h2), ?_⟩⟩
                rw [fence_events_append, hf0, hf2]
                rfl
              · have hr2 : r2 = 0 := by
                  by_contra hne
                  exact h2 hne
                have hpre : codes_ok (ev0 ++ ev2) := codes_ok_append _ _ (hok0 hr0) (hok2 hr2)
                have hfpre : fence_events (ev0 ++ ev2) = [] := by
                  rw [fence_events_append, hf0, hf2]
                  rfl
                have hipre : copies_issued (ev0 ++ ev2) = [] := by
                  rw [copies_issued_of_fence_events _ _ hfpre]
                  rfl
                cases hn2 : mm_node_at m2 0 with
                | error e => simp [hn2] at h
                | ok new_node =>
                  simp only [hn2] at h
                  cases hl : amdgpu_move_blit_loop env fuel
                      ⟨0, a0, old_node.size, 0, a2, new_node.size, m2.num_pages, none⟩ w2 m2 with
                  | error e => simp [hl] at h
                  | ok q3 =>
                    obtain ⟨r3, v3, w3, m3⟩ := q3
                    simp only [hl] at h
                    obtain ⟨hc3, ev3, ht3, hf3, hv3, hok3, hcode3⟩ :=
                      move_blit_loop_fences env fuel _ w2 m2 r3 v3 w3 m3 hl
                    have hbody : fence_events (ev0 ++ ev2 ++ ev3) =
                        fence_chain none (copies_issued (ev0 ++ ev2 ++ ev3)) := by
                      rw [fence_events_append, hfpre, copies_issued_append, hipre, hf3]
                      rfl
                    have hlast : v3.fence = last_fence none (copies_issued (ev0 ++ ev2 ++ ev3)) := by
                      rw [copies_issued_append, hipre, hv3]
                      rfl
                    split_ifs at h with h3
                    · simp only [Except.ok.injEq, Prod.mk.injEq] at h
                      obtain ⟨hr, hw, _⟩ := h
                      subst hw
                      subst hr
                      refine ⟨(hc3.trans hc2).trans hc0, _, ?_, Or.inr (Or.inl ⟨h3,
                        ev0 ++ ev2 ++ ev3, rfl, step_code_append _ _ _ hpre (hcode3 h3), hbody⟩)⟩
                      rw [← hlast]
                      simp only [ht3, ht2, ht0, List.append_assoc]
                      cases v3.fence <;> rfl
                    · have hr3 : r3 = 0 := by
                        by_contra hne
                        exact h3 hne
                      simp only [Except.ok.injEq, Prod.mk.injEq] at h
                      obtain ⟨hr, hw, _⟩ := h
                      subst hw
                      subst hr
                      refine ⟨(hc3.trans hc2).trans hc0, _, ?_, Or.inr (Or.inr ⟨
                        ev0 ++ ev2 ++ ev3, rfl, codes_ok_append _ _ hpre (hok3 hr3), hbody⟩)⟩
                      rw [← hlast]
                      simp only [ht3, ht2, ht0, List.append_assoc]

theorem fence_chain_mem (fs : List Nat) :
    ∀ (prev : Option Nat) (e : Event), e ∈ fence_chain prev fs →
      (∃ f, e = Event.job_submit 0 f) ∨ ∃ p, e = Event.fence_put p := by
  induction fs with
  | nil => intro prev e he; simp [fence_chain] at he
  | cons f fs ih =>
    intro prev e he
    simp only [fence_chain, List.mem_cons] at he
    rcases he with h | h | h
    · exact Or.inl ⟨f, h⟩
    · exact Or.inr ⟨prev, h⟩
    · exact ih (some f) e h

theorem fence_waits_mem (o : Option Nat) (e : Event) (he : e ∈ fence_waits o) :
    ∃ f, e = Event.fence_wait f ∧ o = some f := by
  cases o with
  | none => simp [fence_waits] at he
  | some f =>
    simp only [fence_waits, List.mem_singleton] at he
    exact ⟨f, he, rfl⟩

theorem fence_waits_facts (o : Option Nat) :
    fence_events (fence_waits o) = fence_waits o ∧ copies_issued (fence_waits o) = [] ∧
      (fence_waits o).filterMap event_code = [] := by
  cases o <;> exact ⟨rfl, rfl, rfl⟩

theorem mem_fence_events (evs : List Event) (e : Event) (he : e ∈ evs)
    (hf : is_fence_event e = true) : e ∈ fence_events evs := by
  unfold fence_events
  exact List.mem_filter.2 ⟨he, hf⟩

theorem codes_ok_mem (evs : List Event) (hok : codes_ok evs) (e : Event) (he : e ∈ evs)
    (c : Int) (hc : event_code e = some c) : c = 0 :=
  hok c (List.mem_filterMap.2 ⟨e, he, hc⟩)

/-- The three ways a run of `amdgpu_move_blit` ends, told from the calls `evs`
it made. Stopped before the loop: an error, no call of the fence protocol.
Failed in the loop: an error, and the fence protocol is the copies issued,
then the wait on the last fence if there is one, then its drop. Committed:
the fence protocol is the copies issued, then the commit with the last fence,
then its drop, and no collaborator before the commit reported an error. In
the two failing ways no move is committed, and if a collaborator reported an
error the code returned is the last one reported. -/
theorem move_blit_outcomes (env : Env) (fuel : Nat) (evict : Bool) (w : World)
    (new_mem : ttm_mem_reg) (r : Int) (w1 : World) (nm1 : ttm_mem_reg) (evs : List Event)
    (h : amdgpu_move_blit env fuel evict w new_mem = .ok (r, w1, nm1))
    (htr : w1.trace = w.trace ++ evs) :
    ((r ≠ 0 ∧ step_code r evs ∧ not_committed evs ∧
        ((∃ e ∈ evs, ∃ c, event_code e = some c ∧ c ≠ 0) → last_code evs = some r) ∧
        (fence_events evs = [] ∨
          fence_events evs = fence_chain none (copies_issued evs) ++
            fence_waits (last_fence none (copies_issued evs)) ++
              [Event.fence_put (last_fence none (copies_issued evs))])) ∨
      (fence_events evs = fence_chain none (copies_issued evs) ++
          [Event.pipeline_move (last_fence none (copies_issued evs)) r,
            Event.fence_put (last_fence none (copies_issued evs))] ∧
        ∀ e ∈ evs, (∀ f c, e ≠ Event.pipeline_move f c) →
          ∀ c, event_code e = some c → c = 0)) := by
  obtain ⟨_, evs1, ht1, hcases⟩ := move_blit_protocol env fuel evict w new_mem r w1 nm1 h
  have hevs : evs = evs1 := List.append_cancel_left (htr.symm.trans ht1)
  subst hevs
  have hcode : ∀ xs : List Event, step_code r xs →
      (∃ e ∈ xs, ∃ c, event_code e = some c ∧ c ≠ 0) → last_code xs = some r := by
    intro xs hs hfail
    rcases hs with hs | ⟨_, hok⟩
    · exact hs
    · obtain ⟨e, he, c, hc, hne⟩ := hfail
      exact absurd (codes_ok_mem xs hok e he c hc) hne
  rcases hcases with ⟨hr, hs, hf⟩ | ⟨hr, body, hb, hs, hf⟩ | ⟨body, hb, hok, hf⟩
  · refine Or.inl ⟨hr, hs, ?_, hcode evs hs, Or.inl hf⟩
    intro f c hmem
    have := mem_fence_events evs _ hmem rfl
    rw [hf] at this
    simp at this
  · obtain ⟨hw1, hw2, hw3⟩ := fence_waits_facts (last_fence none (copies_issued body))
    have hci : copies_issued evs = copies_issued body := by
      rw [hb, copies_issued_append, copies_issued_append, hw2]
      simp [copies_issued]
    have hfe : fence_events evs = fence_chain none (copies_issued evs) ++
        fence_waits (last_fence none (copies_issued evs)) ++
          [Event.fence_put (last_fence none (copies_issued evs))] := by
      rw [hci, hb, fence_events_append, fence_events_append, hw1, hf]
      rfl
    have hsc : step_code r evs := by
      rw [hb]
      exact step_code_append_nil _ _ _ (step_code_append_nil _ _ _ hs hw3) rfl
    refine Or.inl ⟨hr, hsc, ?_, hcode evs hsc, Or.inr hfe⟩
    intro f c hmem
    have hm := mem_fence_events evs _ hmem rfl
    rw [hfe] at hm
    rcases List.mem_append.1 hm with h1 | h1
    · rcases List.mem_append.1 h1 with h2 | h2
      · rcases fence_chain_mem _ _ _ h2 with ⟨g, hg⟩ | ⟨p, hp⟩
        · cases hg
        · cases hp
      · obtain ⟨g, hg, _⟩ := fence_waits_mem _ _ h2
        cases hg
    · simp at h1
  · have hci : copies_issued evs = copies_issued body := by
      rw [hb, copies_issued_append]
      simp [copies_issued]
    refine Or.inr ⟨?_, ?_⟩
    · rw [hci, hb, fence_events_append, hf]
      rfl
    · intro e he hnp c hc
      rw [hb] at he
      rcases List.mem_append.1 he with h1 | h1
      · exact codes_ok_mem body hok e h1 c hc
      · simp only [List.mem_cons, List.mem_singleton, List.not_mem_nil, or_false] at h1
        rcases h1 with h2 | h2
        · exact absurd h2 (hnp _ _)
        · rw [h2] at hc
          cases hc

/-- C23. A run of `amdgpu_move_blit` that returns 0: to the fence protocol
its calls are the copies issued, each submission followed by the drop of the
fence held before it (nothing before the first copy, then the fence of the
copy before), and then one call of `ttm_bo_pipeline_move`, which receives the
fence held at that point, and the drop of that fence. After at least one copy
the fence handed on is the fence of the last copy issued; the fences of the
earlier copies were dropped before and appear in no other call. -/
theorem move_blit_passes_last_fence (env : Env) (fuel : Nat) (evict : Bool) (w : World)
    (new_mem : ttm_mem_reg) (w1 : World) (nm1 : ttm_mem_reg)
    (h : amdgpu_move_blit env fuel evict w new_mem = .ok (0, w1, nm1)) :
    ∃ evs, w1.trace = w.trace ++ evs ∧
      fence_events evs = fence_chain none (copies_issued evs) ++
        [Event.pipeline_move (last_fence none (copies_issued evs)) 0,
          Event.fence_put (last_fence none (copies_issued evs))] ∧
      ∀ earlier f, copies_issued evs = earlier ++ [f] →
        last_fence none (copies_issued evs) = some f := by
  obtain ⟨_, evs, htr, _⟩ := move_blit_protocol env fuel evict w new_mem 0 w1 nm1 h
  refine ⟨evs, htr, ?_, ?_⟩
  · rcases move_blit_outcomes env fuel evict w new_mem 0 w1 nm1 evs h htr with hfail | hok
    · exact absurd rfl hfail.1
    · exact hok.1
  · intro earlier f hc
    rw [hc]
    exact last_fence_concat earlier f none

theorem move_blit_passes_last_fence_witness :
    ∃ w1 nm1,
      amdgpu_move_blit env_fences 8 false (World.mk (sample_vram_bo 0) sample_adev [])
        (sample_mem TTM_PL_VRAM (some [⟨64, 16⟩]) 64 16) = .ok (0, w1, nm1) ∧
      fence_events w1.trace =
        [Event.job_submit 0 3, Event.fence_put none, Event.job_submit 0 8,
          Event.fence_put (some 3), Event.pipeline_move (some 8) 0, Event.fence_put (some 8)] ∧
      ∃ evs, w1.trace = [] ++ evs ∧
        fence_events evs = fence_chain none (copies_issued evs) ++
          [Event.pipeline_move (last_fence none (copies_issued evs)) 0,
            Event.fence_put (last_fence none (copies_issued evs))] ∧
        ∀ earlier f, copies_issued evs = earlier ++ [f] →
          last_fence none (copies_issued evs) = some f :=
  ⟨_, _, rfl, rfl,
    move_blit_passes_last_fence env_fences 8 false (World.mk (sample_vram_bo 0) sample_adev [])
      (sample_mem TTM_PL_VRAM (some [⟨64, 16⟩]) 64 16) _ _ rfl⟩

/-- C24. A run of `amdgpu_move_blit` that made the calls `evs`. If a
collaborator of a copy submission or of an address lookup reported an error,
the move is not committed and the code returned is the one reported last.
Whenever the move is not committed (a step failed: a collaborator, or the
driver's own `-EINVAL` for a pool it cannot address), the run returns the
error code of the failed step, and to the fence protocol its calls are either
none at all (the failure came before the loop) or the copies issued, then the
wait on the fence of the last copy issued, then the drop of that fence. With
no copy issued nothing is waited on. -/
theorem move_blit_error_waits (env : Env) (fuel : Nat) (evict : Bool) (w : World)
    (new_mem : ttm_mem_reg) (r : Int) (w1 : World) (nm1 : ttm_mem_reg) (evs : List Event)
    (h : amdgpu_move_blit env fuel evict w new_mem = .ok (r, w1, nm1))
    (htr : w1.trace = w.trace ++ evs) :
    ((∃ e ∈ evs, (∀ f c, e ≠ Event.pipeline_move f c) ∧ ∃ c, event_code e = some c ∧ c ≠ 0) →
      not_committed evs ∧ last_code evs = some r) ∧
    (not_committed evs →
      r ≠ 0 ∧ step_code r evs ∧
      (fence_events evs = [] ∨
        fence_events evs = fence_chain none (copies_issued evs) ++
          fence_waits (last_fence none (copies_issued evs)) ++
            [Event.fence_put (last_fence none (copies_issued evs))]) ∧
      (copies_issued evs = [] → ∀ f, Event.fence_wait f ∉ evs) ∧
      (∀ earlier f, copies_issued evs = earlier ++ [f] →
        fence_events evs = fence_chain none (earlier ++ [f]) ++
          [Event.fence_wait f, Event.fence_put (some f)])) := by
  have hout := move_blit_outcomes env fuel evict w new_mem r w1 nm1 evs h htr
  constructor
  · rintro ⟨e, he, hnp, c, hc, hne⟩
    rcases hout with ⟨_, _, hnc, hlast, _⟩ | ⟨_, hzero⟩
    · exact ⟨hnc, hlast ⟨e, he, c, hc, hne⟩⟩
    · exact absurd (hzero e he hnp c hc) hne
  · intro hnc
    rcases hout with ⟨hr, hs, _, _, hform⟩ | ⟨hfe, _⟩
    · have hci : copies_issued evs = copies_issued (fence_events evs) :=
        (copies_issued_fence_events evs).symm
      refine ⟨hr, hs, hform, ?_, ?_⟩
      · intro hnone f hmem
        have hm := mem_fence_events evs _ hmem rfl
        rcases hform with hf | hf
        · rw [hf] at hm
          simp at hm
        · rw [hf, hnone] at hm
          simp [fence_chain, last_fence, fence_waits] at hm
      · intro earlier f hc
        rcases hform with hf | hf
        · rw [hci, hf] at hc
          simp [copies_issued] at hc
        · rw [hf, hc, last_fence_concat earlier f none, List.append_assoc]
          rfl
    · exfalso
      have hmem : Event.pipeline_move (last_fence none (copies_issued evs)) r ∈
          fence_events evs := by
        rw [hfe]
        simp
      unfold fence_events at hmem
      exact hnc _ _ (List.mem_filter.1 hmem).1

theorem move_blit_error_waits_witness :
    ∃ w1 nm1,
      amdgpu_move_blit env_second_submit_fails 8 false
        (World.mk (sample_vram_bo 0) sample_adev [])
        (sample_mem TTM_PL_VRAM (some [⟨64, 16⟩]) 64 16) = .ok (-12, w1, nm1) ∧
      fence_events w1.trace =
        [Event.job_submit 0 7, Event.fence_put none, Event.fence_wait 7,
          Event.fence_put (some 7)] ∧
      not_committed w1.trace ∧ last_code w1.trace = some (-12) := by
  refine ⟨_, _, rfl, rfl, ?_⟩
  have key := move_blit_error_waits env_second_submit_fails 8 false
    (World.mk (sample_vram_bo 0) sample_adev [])
    (sample_mem TTM_PL_VRAM (some [⟨64, 16⟩]) 64 16) (-12) _ _ _ rfl rfl
  refine key.1 ⟨Event.job_submit (-12) 0, by decide, ?_, -12, rfl, by decide⟩
  intro f c hx
  cases hx

/-! ### Fallback and statistics of `amdgpu_bo_move` -/

/-- The bounce path VRAM -> GTT -> system leaves the bytes-moved counter
alone. -/
theorem move_vram_ram_counter (env : Env) (fuel : Nat) (interruptible no_wait_gpu : Bool)
    (w : World) (new_mem : ttm_mem_reg) (r : Int) (w1 : World) (nm1 : ttm_mem_reg)
    (h : amdgpu_move_vram_ram env fuel interruptible no_wait_gpu w new_mem = .ok (r, w1, nm1)) :
    w1.adev.num_bytes_moved = w.adev.num_bytes_moved := by
  unfold amdgpu_move_vram_ram at h
  dsimp only at h
  split_ifs at h with h1 h2 h3
  · simp only [Except.ok.injEq, Prod.mk.injEq] at h
    obtain ⟨_, hw, _⟩ := h
    subst hw
    rfl
  · simp only [bounce_cleanup, Except.ok.injEq, Prod.mk.injEq] at h
    obtain ⟨_, hw, _⟩ := h
    subst hw
    rfl
  · simp only [bounce_cleanup, Except.ok.injEq, Prod.mk.injEq] at h
    obtain ⟨_, hw, _⟩ := h
    subst hw
    rfl
  · split at h
    · cases h
    · rename_i r4 w4 tm4 hb
      have hc := (move_blit_protocol env fuel true _ _ r4 w4 tm4 hb).1
      split_ifs at h with h4
      · simp only [bounce_cleanup, Except.ok.injEq, Prod.mk.injEq] at h
        obtain ⟨_, hw, _⟩ := h
        subst hw
        exact hc
      · simp only [bounce_cleanup, Except.ok.injEq, Prod.mk.injEq] at h
        obtain ⟨_, hw, _⟩ := h
        subst hw
        exact hc

/-- The bounce path system -> GTT -> VRAM leaves the bytes-moved counter
alone. -/
theorem move_ram_vram_counter (env : Env) (fuel : Nat) (interruptible no_wait_gpu : Bool)
    (w : World) (new_mem : ttm_mem_reg) (r : Int) (w1 : World) (nm1 : ttm_mem_reg)
    (h : amdgpu_move_ram_vram env fuel interruptible no_wait_gpu w new_mem = .ok (r, w1, nm1)) :
    w1.adev.num_bytes_moved = w.adev.num_bytes_moved := by
  unfold amdgpu_move_ram_vram at h
  dsimp only at h
  split_ifs at h with h1 h2
  · simp only [Except.ok.injEq, Prod.mk.injEq] at h
    obtain ⟨_, hw, _⟩ := h
    subst hw
    rfl
  · simp only [bounce_cleanup, Except.ok.injEq, Prod.mk.injEq] at h
    obtain ⟨_, hw, _⟩ := h
    subst hw
    rfl
  · split at h
    · cases h
    · rename_i r4 w4 tm4 hb
      have hc := (move_blit_protocol env fuel true _ _ r4 w4 tm4 hb).1
      simp only [bounce_cleanup, Except.ok.injEq, Prod.mk.injEq] at h
      obtain ⟨_, hw, _⟩ := h
      subst hw
      exact hc

/-- None of the three DMA paths touches the bytes-moved counter. -/
theorem bo_move_dma_counter (env : Env) (fuel : Nat) (evict interruptible no_wait_gpu : Bool)
    (w : World) (new_mem : ttm_mem_reg) (r : Int) (w1 : World) (nm1 : ttm_mem_reg)
    (h : bo_move_dma env fuel evict interruptible no_wait_gpu w new_mem = .ok (r, w1, nm1)) :
    w1.adev.num_bytes_moved = w.adev.num_bytes_moved := by
  unfold bo_move_dma at h
  split_ifs at h with h1 h2
  · exact move_vram_ram_counter env fuel interruptible no_wait_gpu w new_mem r w1 nm1 h
  · exact move_ram_vram_counter env fuel interruptible no_wait_gpu w new_mem r w1 nm1 h
  · exact (move_blit_protocol env fuel evict w new_mem r w1 nm1 h).1

/-- C26. `amdgpu_bo_move` on an unpinned, backed buffer whose move is no
system/GTT rebind, with copy functions and a ready ring. Whatever DMA path is
taken, if it returns the code `rd` in world `wd`, it left the bytes-moved
counter alone, and `amdgpu_bo_move` returns: after `rd = 0`, the code 0 with
no further call; after an error, what `ttm_bo_move_memcpy` returns, that call
being the last one made. So the code is 0 exactly when the DMA path or the
fallback succeeded; then the counter has grown by `num_pages << PAGE_SHIFT`
(64-bit arithmetic, `num_pages` of the buffer after the move), and on an
error it is what it was. A move that copies nothing (pinned buffer, first
placement, rebind) leaves the counter alone and makes no call. -/
theorem bo_move_fallback_and_counter (env : Env) (fuel : Nat)
    (evict interruptible no_wait_gpu : Bool) (w : World) (new_mem : ttm_mem_reg) :
    (w.abo.pin_count = 0 →
      ¬ (w.abo.tbo.mem.mem_type = TTM_PL_SYSTEM ∧ w.abo.tbo.ttm = none) →
      ¬ ((w.abo.tbo.mem.mem_type = TTM_PL_TT ∧ new_mem.mem_type = TTM_PL_SYSTEM) ∨
        (w.abo.tbo.mem.mem_type = TTM_PL_SYSTEM ∧ new_mem.mem_type = TTM_PL_TT)) →
      w.adev.mman.buffer_funcs ≠ none → w.adev.mman.buffer_funcs_ring = some ⟨true⟩ →
      ∀ rd wd nmd,
        bo_move_dma env fuel evict interruptible no_wait_gpu w new_mem = .ok (rd, wd, nmd) →
        wd.adev.num_bytes_moved = w.adev.num_bytes_moved ∧
        ∃ r w1 nm1,
          amdgpu_bo_move env fuel evict interruptible no_wait_gpu w new_mem =
            .ok (r, w1, nm1) ∧
          (rd = 0 → r = 0 ∧ w1.trace = wd.trace) ∧
          (rd ≠ 0 → w1.trace = wd.trace ++ [Event.move_memcpy r] ∧
            r = (env.ttm_bo_move_memcpy wd.trace wd.abo.tbo interruptible no_wait_gpu nmd).1) ∧
          (r = 0 ↔ (rd = 0 ∨ (rd ≠ 0 ∧
            (env.ttm_bo_move_memcpy wd.trace wd.abo.tbo interruptible no_wait_gpu nmd).1 = 0))) ∧
          (r = 0 → w1.adev.num_bytes_moved =
            (w.adev.num_bytes_moved + (w1.abo.tbo.num_pages <<< PAGE_SHIFT) % U64) % U64) ∧
          (r ≠ 0 → w1.adev.num_bytes_moved = w.adev.num_bytes_moved)) ∧
    ((0 < w.abo.pin_count ∨
        (w.abo.tbo.mem.mem_type = TTM_PL_SYSTEM ∧ w.abo.tbo.ttm = none) ∨
        ((w.abo.tbo.mem.mem_type = TTM_PL_TT ∧ new_mem.mem_type = TTM_PL_SYSTEM) ∨
          (w.abo.tbo.mem.mem_type = TTM_PL_SYSTEM ∧ new_mem.mem_type = TTM_PL_TT))) →
      ∀ r w1 nm1,
        amdgpu_bo_move env fuel evict interruptible no_wait_gpu w new_mem = .ok (r, w1, nm1) →
        w1.adev.num_bytes_moved = w.adev.num_bytes_moved ∧ w1.trace = w.trace) := by
  constructor
  · intro hpin hback hrebind hfuncs hring rd wd nmd hdma
    have hc := bo_move_dma_counter env fuel evict interruptible no_wait_gpu w new_mem rd wd nmd
      hdma
    have hp : ¬ (w.abo.pin_count > 0) := by omega
    have heng : ¬ (w.adev.mman.buffer_funcs = none ∨ w.adev.mman.buffer_funcs_ring = none ∨
        w.adev.mman.buffer_funcs_ring = some ⟨false⟩) := by
      rw [hring]
      simp [hfuncs]
    unfold bo_move_dma at hdma
    refine ⟨hc, ?_⟩
    unfold amdgpu_bo_move
    dsimp only
    rw [if_neg hp, if_neg hback, if_neg hrebind, if_neg heng, hdma]
    dsimp only
    by_cases hrd : rd = 0
    · rw [if_neg (fun hn => hn hrd)]
      refine ⟨0, _, nmd, rfl, fun _ => ⟨rfl, rfl⟩, fun hne => absurd hrd hne,
        ⟨fun _ => Or.inl hrd, fun _ => rfl⟩, fun _ => ?_, fun hne => absurd rfl hne⟩
      show (wd.adev.num_bytes_moved + _) % U64 = _
      rw [hc]
    · rw [if_pos hrd]
      unfold bo_move_memcpy
      dsimp only
      by_cases hrm : (env.ttm_bo_move_memcpy wd.trace wd.abo.tbo interruptible no_wait_gpu
          nmd).1 = 0
      · rw [if_neg (fun hn => hn hrm)]
        refine ⟨0, _, _, rfl, fun h0 => absurd h0 hrd, fun _ => ⟨?_, hrm.symm⟩,
          ⟨fun _ => Or.inr ⟨hrd, hrm⟩, fun _ => rfl⟩, fun _ => ?_, fun hne => absurd rfl hne⟩
        · show wd.trace ++ [Event.move_memcpy _] = _
          rw [hrm]
        · show (wd.adev.num_bytes_moved + _) % U64 = _
          rw [hc]
      · rw [if_pos hrm]
        refine ⟨_, _, _, rfl, fun h0 => absurd h0 hrd, fun _ => ⟨rfl, rfl⟩,
          ⟨fun h0 => absurd h0 hrm, fun hor => ?_⟩, fun h0 => absurd h0 hrm, fun _ => hc⟩
        rcases hor with h0 | ⟨_, h0⟩
        · exact absurd h0 hrd
        · exact absurd h0 hrm
  · intro hcase r w1 nm1 h
    unfold amdgpu_bo_move at h
    dsimp only at h
    split_ifs at h with h1 h2 h3
    · simp only [Except.ok.injEq, Prod.mk.injEq] at h
      obtain ⟨_, hw, _⟩ := h
      subst hw
      exact ⟨rfl, rfl⟩
    · unfold amdgpu_move_null at h
      split_ifs at h with h5
      simp only [Except.ok.injEq, Prod.mk.injEq] at h
      obtain ⟨_, hw, _⟩ := h
      subst hw
      exact ⟨rfl, rfl⟩
    · unfold amdgpu_move_null at h
      split_ifs at h with h5
      simp only [Except.ok.injEq, Prod.mk.injEq] at h
      obtain ⟨_, hw, _⟩ := h
      subst hw
      exact ⟨rfl, rfl⟩
    all_goals
      rcases hcase with hc | hc | hc
      · exact absurd hc h1
      · exact absurd hc h2
      · exact absurd hc h3

theorem bo_move_fallback_and_counter_witness :
    ∃ r w1 nm1,
      amdgpu_bo_move env_second_submit_fails 8 false false false
        (World.mk (sample_vram_bo 0) sample_adev [])
        (sample_mem TTM_PL_VRAM (some [⟨64, 16⟩]) 64 16) = .ok (r, w1, nm1) ∧
      ((-12 : Int) ≠ 0 → w1.trace.getLast? = some (Event.move_memcpy r)) ∧
      (r = 0 → w1.adev.num_bytes_moved =
        (0 + (w1.abo.tbo.num_pages <<< PAGE_SHIFT) % U64) % U64) := by
  obtain ⟨_, r, w1, nm1, hrun, _, hfall, _, hcount, _⟩ :=
    (bo_move_fallback_and_counter env_second_submit_fails 8 false false false
      (World.mk (sample_vram_bo 0) sample_adev [])
      (sample_mem TTM_PL_VRAM (some [⟨64, 16⟩]) 64 16)).1 rfl (by decide) (by decide)
      (by decide) rfl (-12) _ _ rfl
  refine ⟨r, w1, nm1, hrun, fun hne => ?_, hcount⟩
  rw [(hfall hne).1, List.getLast?_append]
  rfl

end Amdgpu
